import Mathlib

/-!
# GPA public counters: the formula evaluator

A shallow embedding of `Src/GPUPerfAPICounterGenerator/GPAPublicCounters.cpp`.

Conventions of the embedding.

* `EvaluateExpression` is a C++ template over the result arithmetic type `T` and the raw
  storage type `InternalCounterType`.  The template parameter `T` becomes a Lean type
  together with a record `Arith T` of the built-in operators the template body uses;
  the integer instantiations are given concretely (`uintArith`, `sintArith`), the two
  floating-point ones stay abstract, so every statement made for all `Arith T` also
  covers them; of the floating-point types only the comparison operators are spelled
  out (`FloatValue`).
* `std::vector<T> stack` is a `List T` whose last element is `stack.back()`.
* `assert` is compiled in or out by `NDEBUG`.  The flag `dbg` says whether assertions are
  compiled in; a failing assertion then ends the call with `Fault.assertion`.  With
  assertions compiled out the code simply continues, and behaviour that C++ leaves
  undefined (`back()` on an empty vector, reading an uninitialised variable, reading a
  blob past its end) ends the call with `Fault.undefined`.
* A raw sample (`char*` in `results`) is the list of bytes it points to, least
  significant byte first.
* Signed `+`, `-`, `*` and the conversion to a signed type are taken to wrap in two's
  complement.  A quotient has a value only where the language gives it one: `p1 / p2` with
  a zero divisor, or with a signed quotient that the type cannot represent (the minimum
  value divided by -1), is undefined and ends the call with `Fault.undefined`.
* The scratch copy of the expression (`new`, `strcpy_s`, `delete[]`) is not modelled; the
  tokens are read off the expression itself.
* A `const char*` argument or member is an `Option (List Char)`, `none` being the null
  pointer; the conversion of a vector size to `unsigned int` / `gpa_uint32` is taken
  modulo `2 ^ 32`.
-/

namespace GPA

/-! ## Data model -/

/-- Modelled from the spec: the enumeration `GPA_Type` is declared in a header that is not
part of the sources at hand.  The six numeric kinds are the enumerators the code names;
`beyondLast k` stands for an out-of-range value `GPA_TYPE__LAST + k`. -/
inductive GPA_Type where
  | FLOAT32
  | FLOAT64
  | UINT32
  | UINT64
  | INT32
  | INT64
  | beyondLast (k : Nat)
  deriving DecidableEq, Repr

/-- Modelled from the spec: the read accessors of `GPA_HWInfo` that the evaluator calls.
Each returns an unsigned integer. -/
structure GPA_HWInfo where
  GetNumberShaderEngines : Nat
  GetNumberSIMDs : Nat
  GetSUClocksPrim : Nat
  GetNumberPrimPipes : Nat
  GetTimeStampFrequency : Nat
  deriving DecidableEq, Repr

/-- How a call can end without storing a result. -/
inductive Fault where
  | assertion
  | undefined
  deriving DecidableEq, Repr

/-- Equality of outcomes is decidable, so closed evaluations can be checked by `decide`. -/
instance instDecidableEqExcept {ε α : Type} [DecidableEq ε] [DecidableEq α] :
    DecidableEq (Except ε α)
  | .ok a, .ok b => if h : a = b then isTrue (by rw [h]) else isFalse (by intro e; cases e; exact h rfl)
  | .error a, .error b =>
    if h : a = b then isTrue (by rw [h]) else isFalse (by intro e; cases e; exact h rfl)
  | .ok _, .error _ => isFalse (by intro e; cases e)
  | .error _, .ok _ => isFalse (by intro e; cases e)

/-- The built-in operations of the template parameter `T` that `EvaluateExpression` uses. -/
structure Arith (T : Type) where
  /-- The conversion `(T)u` of an unsigned integer value `u`; `cast 0` is `(T)0`. -/
  cast : Nat → T
  mul : T → T → T
  /-- The quotient `a / b`; `none` where the division is undefined. -/
  div : T → T → Option T
  add : T → T → T
  sub : T → T → T
  /-- The comparison `a > b`. -/
  gt : T → T → Bool
  /-- The comparison `a < b`. -/
  lt : T → T → Bool
  /-- The comparison `a != b`. -/
  ne : T → T → Bool
  /-- The call `sscanf(pch, "(%f)", (gpa_float32*)&constant)`: the stored constant when one
  item was converted, `none` when none was. -/
  scanFloat32 : List Char → Except Fault (Option T)
  /-- The call `sscanf(pch, "(%lf)", (gpa_float64*)&constant)`. -/
  scanFloat64 : List Char → Except Fault (Option T)
  /-- The value of `constant` after a `gpa_uint32` was stored through
  `(gpa_uint32*)&constant`. -/
  storeUInt32 : Nat → Except Fault T
  /-- The value of `constant` after a `gpa_uint64` was stored through
  `(gpa_uint64*)&constant`. -/
  storeUInt64 : Nat → Except Fault T

/-- The instantiations `gpa_uint32` (`w = 32`) and `gpa_uint64` (`w = 64`): arithmetic
modulo `2 ^ w`.  Writing a floating-point value, or an unsigned integer of another width,
through a cast pointer into such an object is undefined behaviour. -/
def uintArith (w : Nat) : Arith Nat where
  cast u := u % 2 ^ w
  mul a b := (a * b) % 2 ^ w
  div a b := if b = 0 then none else some (a / b)
  add a b := (a + b) % 2 ^ w
  sub a b := (a + (2 ^ w - b % 2 ^ w)) % 2 ^ w
  gt a b := decide (a > b)
  lt a b := decide (a < b)
  ne a b := decide (a ≠ b)
  scanFloat32 _ := .error .undefined
  scanFloat64 _ := .error .undefined
  storeUInt32 u := if w = 32 then .ok u else .error .undefined
  storeUInt64 u := if w = 64 then .ok u else .error .undefined

/-- The two's complement reading of an integer in `w` bits. -/
def wrapSigned (w : Nat) (i : Int) : Int :=
  (i + 2 ^ (w - 1)) % 2 ^ w - 2 ^ (w - 1)

/-- The instantiations `gpa_int32` (`w = 32`) and `gpa_int64` (`w = 64`): two's
complement arithmetic, `/` truncating towards zero and undefined when the divisor is zero
or the truncated quotient lies outside `-2 ^ (w - 1) ≤ q < 2 ^ (w - 1)`. -/
def sintArith (w : Nat) : Arith Int where
  cast u := wrapSigned w u
  mul a b := wrapSigned w (a * b)
  div a b :=
    if b = 0 then none
    else if -(2 : Int) ^ (w - 1) ≤ Int.tdiv a b ∧ Int.tdiv a b < 2 ^ (w - 1) then
      some (Int.tdiv a b)
    else none
  add a b := wrapSigned w (a + b)
  sub a b := wrapSigned w (a - b)
  gt a b := decide (a > b)
  lt a b := decide (a < b)
  ne a b := decide (a ≠ b)
  scanFloat32 _ := .error .undefined
  scanFloat64 _ := .error .undefined
  storeUInt32 u := if w = 32 then .ok (wrapSigned w u) else .error .undefined
  storeUInt64 u := if w = 64 then .ok (wrapSigned w u) else .error .undefined

/-- A value of a floating-point result type (`gpa_float32`, `gpa_float64`) as its
comparison operators see it: a not-a-number, an infinity, or a finite number.  The two
zeros compare equal and are one value here. -/
inductive FloatValue where
  | nan
  | infinity (negative : Bool)
  | finite (q : ℚ)
  deriving DecidableEq

/-- The comparison `a > b` of two floating-point values: false as soon as one operand is a
not-a-number. -/
def FloatValue.gt : FloatValue → FloatValue → Bool
  | .nan, _ => false
  | _, .nan => false
  | .infinity n, .infinity m => !n && m
  | .infinity n, .finite _ => !n
  | .finite _, .infinity m => m
  | .finite p, .finite q => decide (p > q)

/-- The comparison `a >= b` of two floating-point values: false as soon as one operand is
a not-a-number. -/
def FloatValue.ge : FloatValue → FloatValue → Bool
  | .nan, _ => false
  | _, .nan => false
  | .infinity n, .infinity m => !n || m
  | .infinity n, .finite _ => !n
  | .finite _, .infinity m => m
  | .finite p, .finite q => decide (p ≥ q)

/-- The template parameter `InternalCounterType`; only these two are instantiated. -/
inductive InternalCounterType where
  | gpa_uint32
  | gpa_uint64
  deriving DecidableEq, Repr

/-- The size in bytes of an `InternalCounterType`. -/
def InternalCounterType.sizeof : InternalCounterType → Nat
  | .gpa_uint32 => 4
  | .gpa_uint64 => 8

/-- The unsigned integer held by a list of bytes, least significant first. -/
def littleEndian : List Nat → Nat
  | [] => 0
  | b :: bs => b % 256 + 256 * littleEndian bs

/-- The read `*((InternalCounterType*)results[index])` of a blob: its first `sizeof` bytes;
undefined when the blob is shorter. -/
def readRaw (I : InternalCounterType) (blob : List Nat) : Except Fault Nat :=
  if I.sizeof ≤ blob.length then .ok (littleEndian (blob.take I.sizeof)) else .error .undefined

/-- The `k` bytes of an unsigned integer, least significant first. -/
def bytesOf : Nat → Nat → List Nat
  | 0, _ => []
  | k + 1, v => v % 256 :: bytesOf k (v / 256)

/-! ## Library routines the evaluator calls -/

/-- The C `isspace` in the "C" locale. -/
def isspace (c : Char) : Bool :=
  c.toNat = 32 || (9 ≤ c.toNat && c.toNat ≤ 13)

/-- Skips leading white space, as every numeric `scanf` directive does. -/
def skipSpace : List Char → List Char
  | [] => []
  | c :: cs => if isspace c then skipSpace cs else c :: cs

/-- The value of the leading run of decimal digits, continuing from `acc`. -/
def digitsValue : Nat → List Char → Nat
  | acc, [] => acc
  | acc, c :: cs => if c.isDigit then digitsValue (10 * acc + (c.toNat - 48)) cs else acc

/-- The subject sequence of a `%d` / `%u` directive: optional white space, an optional
sign, and at least one decimal digit.  Returns the mathematical value, or `none` when the
directive matches nothing. -/
def scanInteger (cs : List Char) : Option Int :=
  match skipSpace cs with
  | [] => none
  | c :: rest =>
    if c = '-' then
      match rest with
      | [] => none
      | d :: _ => if d.isDigit then some (-(digitsValue 0 rest : Int)) else none
    else if c = '+' then
      match rest with
      | [] => none
      | d :: _ => if d.isDigit then some (digitsValue 0 rest : Int) else none
    else if c.isDigit then some (digitsValue 0 (c :: rest) : Int) else none

/-- The comparison `_strcmpi(a, b) == 0`: equality after lower-casing both strings. -/
def strcmpiEq (a b : List Char) : Bool :=
  a.map Char.toLower == b.map Char.toLower

/-- The delimiter set `" ,"` given to `strtok_s`. -/
def isDelim (c : Char) : Bool :=
  c = ' ' || c = ','

/-- Splits at delimiters, `cur` holding the characters of the token being read (in
reverse). -/
def strtokAux : List Char → List Char → List (List Char)
  | [], [] => []
  | [], cur => [cur.reverse]
  | c :: cs, cur =>
    if isDelim c then
      (if cur.isEmpty then strtokAux cs [] else cur.reverse :: strtokAux cs [])
    else strtokAux cs (c :: cur)

/-- The tokens that the `strtok_s` loop yields for an expression, in order. -/
def strtok (pExpression : List Char) : List (List Char) :=
  strtokAux pExpression []

/-! ## The evaluator -/

/-- The statement `assert(c)`: fails when assertions are compiled in and `c` is false. -/
def assertThat (dbg : Bool) (c : Bool) : Except Fault Unit :=
  if dbg && !c then .error .assertion else .ok ()

/-- The pair of statements `T v = stack.back(); stack.pop_back();`. -/
def popBack {T : Type} (stack : List T) : Except Fault (T × List T) :=
  match stack.getLast? with
  | some v => .ok (v, stack.dropLast)
  | none => .error .undefined

/-- The body shared by the operators `*`, `+`, `-`, `max` and `min`: check the depth, pop
`p2`, pop `p1`, push `f p1 p2`. -/
def binaryOp {T : Type} (dbg : Bool) (f : T → T → T) (stack : List T) :
    Except Fault (List T) := do
  assertThat dbg (decide (stack.length ≥ 2))
  let (p2, stack) ← popBack stack
  let (p1, stack) ← popBack stack
  pure (stack ++ [f p1 p2])

/-- The body of the token `/`: check the depth, pop `p2`, pop `p1`, push `p1 / p2` when
`p2 != (T)0` and `(T)0` otherwise. -/
def divideOp {T : Type} (dbg : Bool) (A : Arith T) (stack : List T) :
    Except Fault (List T) := do
  assertThat dbg (decide (stack.length ≥ 2))
  let (p2, stack) ← popBack stack
  let (p1, stack) ← popBack stack
  if A.ne p2 (A.cast 0) then
    match A.div p1 p2 with
    | some q => pure (stack ++ [q])
    | none => .error .undefined
  else pure (stack ++ [A.cast 0])

/-- The loop `for (i = 0; i < n; i++) { value = back; pop_back; sum += value; }`. -/
def sumLoop {T : Type} (A : Arith T) : Nat → T → List T → Except Fault (T × List T)
  | 0, sum, stack => .ok (sum, stack)
  | n + 1, sum, stack => do
    let (value, stack) ← popBack stack
    sumLoop A n (A.add sum value) stack

/-- The body of a `sumN` token. -/
def sumN {T : Type} (dbg : Bool) (A : Arith T) (n : Nat) (stack : List T) :
    Except Fault (List T) := do
  assertThat dbg (decide (stack.length ≥ n))
  let (sum, stack) ← sumLoop A n (A.cast 0) stack
  pure (stack ++ [sum])

/-- The loop `for (i = 0; i < n; i++) { value = back; pop_back;
maxValue = (maxValue > value) ? maxValue : value; }`. -/
def maxLoop {T : Type} (A : Arith T) : Nat → T → List T → Except Fault (T × List T)
  | 0, maxValue, stack => .ok (maxValue, stack)
  | n + 1, maxValue, stack => do
    let (value, stack) ← popBack stack
    maxLoop A n (if A.gt maxValue value then maxValue else value) stack

/-- The body of a `maxN` token: the first item initialises the maximum, the loop pops the
other `n - 1`. -/
def maxN {T : Type} (dbg : Bool) (A : Arith T) (n : Nat) (stack : List T) :
    Except Fault (List T) := do
  assertThat dbg (decide (stack.length ≥ n))
  let (maxValue, stack) ← popBack stack
  let (maxValue, stack) ← maxLoop A (n - 1) maxValue stack
  pure (stack ++ [maxValue])

/-- The body of the `ifnotzero` token. -/
def ifNotZero {T : Type} (dbg : Bool) (A : Arith T) (stack : List T) :
    Except Fault (List T) := do
  assertThat dbg (decide (stack.length ≥ 3))
  let (condition, stack) ← popBack stack
  let (resultTrue, stack) ← popBack stack
  let (resultFalse, stack) ← popBack stack
  if A.ne condition (A.cast 0) then pure (stack ++ [resultTrue])
  else pure (stack ++ [resultFalse])

/-- The directive `%u` / `%llu` of width `w` applied after the literal `(` of the format:
`none` when nothing is converted; undefined when the number does not fit `w` bits. -/
def scanUnsigned (w : Nat) (pch : List Char) : Except Fault (Option Nat) :=
  match scanInteger (pch.drop 1) with
  | none => .ok none
  | some v => if v.natAbs < 2 ^ w then .ok (some (v % 2 ^ w).toNat) else .error .undefined

/-- The body of a token starting with `(`: a constant, scanned in the format of
`resultType`. -/
def constantToken {T : Type} (dbg : Bool) (A : Arith T) (resultType : GPA_Type)
    (pch : List Char) (stack : List T) : Except Fault (List T) := do
  let scanned : Option T ←
    if resultType = GPA_Type.FLOAT32 then A.scanFloat32 pch
    else if resultType = GPA_Type.FLOAT64 then A.scanFloat64 pch
    else if resultType = GPA_Type.UINT32 then do
      match (← scanUnsigned 32 pch) with
      | some u => pure (some (← A.storeUInt32 u))
      | none => pure none
    else if resultType = GPA_Type.UINT64 then do
      match (← scanUnsigned 64 pch) with
      | some u => pure (some (← A.storeUInt64 u))
      | none => pure none
    else do
      -- Unsupported public counter type
      assertThat dbg false
      pure none
  assertThat dbg scanned.isSome
  -- `constant` keeps its initial value `(T)0` when nothing was scanned
  pure (stack ++ [scanned.getD (A.cast 0)])

/-- The directive `%d` storing into the `gpa_uint32 index`: `none` when nothing is
converted (the index stays uninitialised); undefined when the number does not fit an
`int`. -/
def scanIndex (pch : List Char) : Except Fault (Option Nat) :=
  match scanInteger pch with
  | none => .ok none
  | some v =>
    if -(2 : Int) ^ 31 ≤ v ∧ v < 2 ^ 31 then .ok (some (v % 2 ^ 32).toNat)
    else .error .undefined

/-- The final `else` branch: the token refers to an internal counter by index. -/
def counterToken {T : Type} (dbg : Bool) (A : Arith T) (I : InternalCounterType)
    (results : List (List Nat)) (pch : List Char) (stack : List T) :
    Except Fault (List T) := do
  let scanned ← scanIndex pch
  assertThat dbg scanned.isSome
  match scanned with
  | none => .error .undefined
  | some index =>
    assertThat dbg (decide (index < results.length))
    match results.get? index with
    | some blob =>
      let internalVal ← readRaw I blob
      pure (stack ++ [A.cast internalVal])
    | none =>
      -- the index was invalid, so the counter result is unknown
      assertThat dbg false
      pure (stack ++ [A.cast 0])

/-- The character `*pch`; the terminating NUL for an empty string. -/
def firstChar (pch : List Char) : Char :=
  pch.headD (Char.ofNat 0)

/-- One iteration of the `while (nullptr != pch)` loop: the effect of the token `pch` on
the operand stack. -/
def evalToken {T : Type} (dbg : Bool) (A : Arith T) (I : InternalCounterType)
    (results : List (List Nat)) (resultType : GPA_Type) (pHwInfo : Option GPA_HWInfo)
    (pch : List Char) (stack : List T) : Except Fault (List T) :=
  if firstChar pch = '*' then binaryOp dbg A.mul stack
  else if firstChar pch = '/' then divideOp dbg A stack
  else if firstChar pch = '+' then binaryOp dbg A.add stack
  else if firstChar pch = '-' then binaryOp dbg A.sub stack
  else if firstChar pch = '(' then constantToken dbg A resultType pch stack
  else if strcmpiEq pch "num_shader_engines".toList then
    match pHwInfo with
    | some hw => .ok (stack ++ [A.cast hw.GetNumberShaderEngines])
    | none => .error .undefined
  else if strcmpiEq pch "num_simds".toList then
    match pHwInfo with
    | some hw => .ok (stack ++ [A.cast hw.GetNumberSIMDs])
    | none => .error .undefined
  else if strcmpiEq pch "su_clocks_prim".toList then
    match pHwInfo with
    | some hw => .ok (stack ++ [A.cast hw.GetSUClocksPrim])
    | none => .error .undefined
  else if strcmpiEq pch "num_prim_pipes".toList then
    match pHwInfo with
    | some hw => .ok (stack ++ [A.cast hw.GetNumberPrimPipes])
    | none => .error .undefined
  else if strcmpiEq pch "TS_FREQ".toList then
    match pHwInfo with
    | some hw => .ok (stack ++ [A.cast hw.GetTimeStampFrequency])
    | none => .error .undefined
  else if strcmpiEq pch "max".toList then
    binaryOp dbg (fun p1 p2 => if A.gt p1 p2 then p1 else p2) stack
  else if strcmpiEq pch "max16".toList then maxN dbg A 16 stack
  else if strcmpiEq pch "max32".toList then maxN dbg A 32 stack
  else if strcmpiEq pch "max44".toList then maxN dbg A 44 stack
  else if strcmpiEq pch "max64".toList then maxN dbg A 64 stack
  else if strcmpiEq pch "min".toList then
    binaryOp dbg (fun p1 p2 => if A.lt p1 p2 then p1 else p2) stack
  else if strcmpiEq pch "ifnotzero".toList then ifNotZero dbg A stack
  else if strcmpiEq pch "sum4".toList then sumN dbg A 4 stack
  else if strcmpiEq pch "sum8".toList then sumN dbg A 8 stack
  else if strcmpiEq pch "sum10".toList then sumN dbg A 10 stack
  else if strcmpiEq pch "sum11".toList then sumN dbg A 11 stack
  else if strcmpiEq pch "sum12".toList then sumN dbg A 12 stack
  else if strcmpiEq pch "sum16".toList then sumN dbg A 16 stack
  else if strcmpiEq pch "sum32".toList then sumN dbg A 32 stack
  else if strcmpiEq pch "sum44".toList then sumN dbg A 44 stack
  else if strcmpiEq pch "sum64".toList then sumN dbg A 64 stack
  else counterToken dbg A I results pch stack

/-- The whole `while` loop: the tokens applied to the stack from left to right. -/
def evalTokens {T : Type} (dbg : Bool) (A : Arith T) (I : InternalCounterType)
    (results : List (List Nat)) (resultType : GPA_Type) (pHwInfo : Option GPA_HWInfo) :
    List (List Char) → List T → Except Fault (List T)
  | [], stack => .ok stack
  | pch :: rest, stack => do
    let stack ← evalToken dbg A I results resultType pHwInfo pch stack
    evalTokens dbg A I results resultType pHwInfo rest stack

/-- What a call of `EvaluateExpression` leaves behind: the message given to
`GPA_LogError`, if any, and the value stored through `pWriteResult` or the fault that
ended the call. -/
structure Evaluation (T : Type) where
  logged : Option (List Char)
  written : Except Fault T

/-- The function template `EvaluateExpression<T, InternalCounterType>`. -/
def EvaluateExpression {T : Type} (dbg : Bool) (A : Arith T) (I : InternalCounterType)
    (pExpression : List Char) (results : List (List Nat)) (resultType : GPA_Type)
    (pHwInfo : Option GPA_HWInfo) : Evaluation T :=
  match assertThat dbg pHwInfo.isSome with
  | .error f => ⟨none, .error f⟩
  | .ok _ =>
    match evalTokens dbg A I results resultType pHwInfo (strtok pExpression) [] with
    | .error f => ⟨none, .error f⟩
    | .ok stack =>
      { logged :=
          if stack.length ≠ 1 then
            some ("Invalid formula: ".toList ++ pExpression ++ ".".toList)
          else none
        written := do
          assertThat dbg (decide (stack.length = 1))
          let (v, _) ← popBack stack
          pure v }

/-- The operand counts for which a `sumN` token exists. -/
def sumWidths : List Nat := [4, 8, 10, 11, 12, 16, 32, 44, 64]

/-- The operand counts for which a `maxN` token exists. -/
def maxWidths : List Nat := [16, 32, 44, 64]

/-- The token `sumN` as written in formulas. -/
def sumToken (n : Nat) : List Char := "sum".toList ++ (Nat.repr n).toList

/-- The token `maxN` as written in formulas. -/
def maxToken (n : Nat) : List Char := "max".toList ++ (Nat.repr n).toList

/-! ## The catalog and the type dispatch -/

/-- Modelled from the spec: the enumeration `GPA_Usage_Type` is declared in a header that
is not part of the sources at hand; the code only stores it.  An enumerator is
represented by its integer value. -/
abbrev GPA_Usage_Type := Nat

/-- Modelled from the spec: the enumeration `GPA_CounterType` is declared in a header that
is not part of the sources at hand.  `valid k` is the `k`-th enumerator below
`GPA_COUNTER_TYPE__LAST`, `beyondLast k` the out-of-range value
`GPA_COUNTER_TYPE__LAST + k`. -/
inductive GPA_CounterType where
  | valid (k : Nat)
  | beyondLast (k : Nat)
  deriving DecidableEq, Repr

/-- The class `GPA_PublicCounter`; a `const char*` member is `none` when null. -/
structure GPA_PublicCounter where
  m_index : Nat
  m_pName : Option (List Char)
  m_pDescription : Option (List Char)
  m_dataType : GPA_Type
  m_usageType : GPA_Usage_Type
  m_counterType : GPA_CounterType
  m_internalCountersRequired : List Nat
  m_pComputeExpression : Option (List Char)
  deriving DecidableEq, Repr

/-- The data members of the class `GPA_PublicCounters`. -/
structure GPA_PublicCounters where
  m_counters : List GPA_PublicCounter
  m_countersGenerated : Bool
  deriving DecidableEq, Repr

/-- A call `EvaluateExpression<T, I>(pExpression, pResult, results, internalCounterTypes,
resultType, pHwInfo)` made by `ComputeCounterValue`: `T` is the arithmetic type named by
`resultType`, the counter's `m_dataType`. -/
structure EvaluateCall where
  resultType : GPA_Type
  I : InternalCounterType
  pExpression : List Char
  deriving DecidableEq, Repr

/-- The chain of `if`s on `m_dataType` inside one storage-type branch of
`ComputeCounterValue`. -/
def dispatchDataType (dbg : Bool) (I : InternalCounterType) (counter : GPA_PublicCounter)
    (pExpression : List Char) : Except Fault (Option EvaluateCall) :=
  if counter.m_dataType = GPA_Type.FLOAT32 then .ok (some ⟨GPA_Type.FLOAT32, I, pExpression⟩)
  else if counter.m_dataType = GPA_Type.FLOAT64 then
    .ok (some ⟨GPA_Type.FLOAT64, I, pExpression⟩)
  else if counter.m_dataType = GPA_Type.UINT32 then
    .ok (some ⟨GPA_Type.UINT32, I, pExpression⟩)
  else if counter.m_dataType = GPA_Type.UINT64 then
    .ok (some ⟨GPA_Type.UINT64, I, pExpression⟩)
  else if counter.m_dataType = GPA_Type.INT32 then .ok (some ⟨GPA_Type.INT32, I, pExpression⟩)
  else if counter.m_dataType = GPA_Type.INT64 then .ok (some ⟨GPA_Type.INT64, I, pExpression⟩)
  else do
    -- public counter type not recognized or not currently supported.
    assertThat dbg false
    pure none

/-- The member function `GPA_PublicCounters::ComputeCounterValue`, up to the call it
makes: `some call` when it calls `EvaluateExpression`, `none` when it returns without
calling it (nothing is then written to `pResult`).  Indexing a vector past its end is
undefined. -/
def ComputeCounterValue (dbg : Bool) (self : GPA_PublicCounters) (counterIndex : Nat)
    (internalCounterTypes : List GPA_Type) : Except Fault (Option EvaluateCall) :=
  match self.m_counters.get? counterIndex with
  | none => .error .undefined
  | some counter =>
    match counter.m_pComputeExpression with
    | some pExpression =>
      match internalCounterTypes.get? 0 with
      | none => .error .undefined
      | some first =>
        if first = GPA_Type.UINT64 then
          dispatchDataType dbg InternalCounterType.gpa_uint64 counter pExpression
        else if first = GPA_Type.UINT32 then
          dispatchDataType dbg InternalCounterType.gpa_uint32 counter pExpression
        else .ok none
    | none => do
      -- no method of evaluation specified for counter
      assertThat dbg false
      pure none

/-! ## Reference notions used to state the properties -/

/-- From the spec's words, "the raw sample at that index is reinterpreted according to
its declared RawCounterType": the value of a blob read as the unsigned integer type it is
declared to hold. -/
def declaredValue (declared : GPA_Type) (blob : List Nat) : Option Nat :=
  if declared = GPA_Type.UINT32 then some (littleEndian (blob.take 4))
  else if declared = GPA_Type.UINT64 then some (littleEndian (blob.take 8))
  else none

/-- The decimal numeral of `i` as a token. -/
def numeral (i : Nat) : List Char := (Nat.repr i).toList

/-! ## Registration -/

/-- The comparison `dataType < GPA_TYPE__LAST`. -/
def GPA_Type.belowLast : GPA_Type → Bool
  | .beyondLast _ => false
  | _ => true

/-- The comparison `counterType < GPA_COUNTER_TYPE__LAST`. -/
def GPA_CounterType.belowLast : GPA_CounterType → Bool
  | .valid _ => true
  | .beyondLast _ => false

/-- The constructor `GPA_PublicCounter::GPA_PublicCounter`: every member is set from the
argument of the same name. -/
def GPA_PublicCounter.construct (index : Nat) (pName pDescription : Option (List Char))
    (dataType : GPA_Type) (usageType : GPA_Usage_Type) (counterType : GPA_CounterType)
    (internalCountersRequired : List Nat) (pComputeExpression : Option (List Char)) :
    GPA_PublicCounter where
  m_index := index
  m_pName := pName
  m_pDescription := pDescription
  m_dataType := dataType
  m_usageType := usageType
  m_counterType := counterType
  m_internalCountersRequired := internalCountersRequired
  m_pComputeExpression := pComputeExpression

/-- The member function `GPA_PublicCounters::DefinePublicCounter`.  The index is the
vector's size converted to `unsigned int`. -/
def DefinePublicCounter (dbg : Bool) (self : GPA_PublicCounters)
    (pName pDescription : Option (List Char)) (dataType : GPA_Type)
    (usageType : GPA_Usage_Type) (counterType : GPA_CounterType)
    (internalCountersRequired : List Nat) (pComputeExpression : Option (List Char)) :
    Except Fault GPA_PublicCounters := do
  assertThat dbg pName.isSome
  assertThat dbg pDescription.isSome
  assertThat dbg dataType.belowLast
  assertThat dbg counterType.belowLast
  assertThat dbg (decide (internalCountersRequired.length > 0))
  assertThat dbg pComputeExpression.isSome
  assertThat dbg
    (match pComputeExpression with
      | some e => decide (e.length > 0)
      | none => false)
  let index := self.m_counters.length % 2 ^ 32
  pure
    { m_counters := self.m_counters ++
        [GPA_PublicCounter.construct index pName pDescription dataType usageType
          counterType internalCountersRequired pComputeExpression]
      m_countersGenerated := self.m_countersGenerated }

/-- The member function `GPA_PublicCounters::Clear`. -/
def Clear (_self : GPA_PublicCounters) : GPA_PublicCounters where
  m_counters := []
  m_countersGenerated := false

/-- The member function `GPA_PublicCounters::GetNumCounters`: the vector's size converted
to `gpa_uint32`. -/
def GetNumCounters (self : GPA_PublicCounters) : Nat :=
  self.m_counters.length % 2 ^ 32

/-- The catalog states that a run of `DefinePublicCounter` and `Clear` calls reaches from
a catalog without definitions. -/
inductive Reachable (dbg : Bool) : GPA_PublicCounters → Prop where
  | empty (generated : Bool) : Reachable dbg ⟨[], generated⟩
  | define (self next : GPA_PublicCounters) (pName pDescription : Option (List Char))
      (dataType : GPA_Type) (usageType : GPA_Usage_Type) (counterType : GPA_CounterType)
      (internalCountersRequired : List Nat) (pComputeExpression : Option (List Char)) :
      Reachable dbg self →
      DefinePublicCounter dbg self pName pDescription dataType usageType counterType
        internalCountersRequired pComputeExpression = .ok next →
      Reachable dbg next
  | clear (self : GPA_PublicCounters) : Reachable dbg self → Reachable dbg (Clear self)

/-! ## Spelling a token sequence -/

/-- A run of delimiters. -/
def isSeparator (sep : List Char) : Bool :=
  sep.all isDelim

/-- A non-empty string without delimiters. -/
def isWord (tok : List Char) : Bool :=
  !tok.isEmpty && tok.all (fun c => !isDelim c)

/-- The text made of a leading run `lead` followed by each token and the run after it. -/
def spell (lead : List Char) : List (List Char × List Char) → List Char
  | [] => lead
  | (tok, sep) :: rest => lead ++ tok ++ spell sep rest

/-- The tokens are words, the runs after them are separators, and every run that stands
between two tokens is non-empty. -/
def wellSpelled : List (List Char × List Char) → Bool
  | [] => true
  | [(tok, sep)] => isWord tok && isSeparator sep
  | (tok, sep) :: rest => isWord tok && isSeparator sep && !sep.isEmpty && wellSpelled rest

/-! ## Stack effects -/

/-- From the claim's words, "every token has a fixed stack effect": the change of the
stack depth that goes with the branch of `evalToken` a token takes. -/
def tokenEffect (pch : List Char) : Int :=
  if firstChar pch = '*' then -1
  else if firstChar pch = '/' then -1
  else if firstChar pch = '+' then -1
  else if firstChar pch = '-' then -1
  else if firstChar pch = '(' then 1
  else if strcmpiEq pch "num_shader_engines".toList then 1
  else if strcmpiEq pch "num_simds".toList then 1
  else if strcmpiEq pch "su_clocks_prim".toList then 1
  else if strcmpiEq pch "num_prim_pipes".toList then 1
  else if strcmpiEq pch "TS_FREQ".toList then 1
  else if strcmpiEq pch "max".toList then -1
  else if strcmpiEq pch "max16".toList then -15
  else if strcmpiEq pch "max32".toList then -31
  else if strcmpiEq pch "max44".toList then -43
  else if strcmpiEq pch "max64".toList then -63
  else if strcmpiEq pch "min".toList then -1
  else if strcmpiEq pch "ifnotzero".toList then -2
  else if strcmpiEq pch "sum4".toList then -3
  else if strcmpiEq pch "sum8".toList then -7
  else if strcmpiEq pch "sum10".toList then -9
  else if strcmpiEq pch "sum11".toList then -10
  else if strcmpiEq pch "sum12".toList then -11
  else if strcmpiEq pch "sum16".toList then -15
  else if strcmpiEq pch "sum32".toList then -31
  else if strcmpiEq pch "sum44".toList then -43
  else if strcmpiEq pch "sum64".toList then -63
  else 1

/-- From the claim's words: the kinds of token the claim tells apart.  An operator or
aggregator carries the number of values it takes from the stack; the division is kept
apart from the other operators. -/
inductive TokenKind where
  | divide
  | operator (needs : Nat)
  | literal
  | hardware
  | counter
  deriving DecidableEq, Repr

/-- The kind that goes with the branch of `evalToken` a token takes. -/
def tokenKind (pch : List Char) : TokenKind :=
  if firstChar pch = '*' then .operator 2
  else if firstChar pch = '/' then .divide
  else if firstChar pch = '+' then .operator 2
  else if firstChar pch = '-' then .operator 2
  else if firstChar pch = '(' then .literal
  else if strcmpiEq pch "num_shader_engines".toList then .hardware
  else if strcmpiEq pch "num_simds".toList then .hardware
  else if strcmpiEq pch "su_clocks_prim".toList then .hardware
  else if strcmpiEq pch "num_prim_pipes".toList then .hardware
  else if strcmpiEq pch "TS_FREQ".toList then .hardware
  else if strcmpiEq pch "max".toList then .operator 2
  else if strcmpiEq pch "max16".toList then .operator 16
  else if strcmpiEq pch "max32".toList then .operator 32
  else if strcmpiEq pch "max44".toList then .operator 44
  else if strcmpiEq pch "max64".toList then .operator 64
  else if strcmpiEq pch "min".toList then .operator 2
  else if strcmpiEq pch "ifnotzero".toList then .operator 3
  else if strcmpiEq pch "sum4".toList then .operator 4
  else if strcmpiEq pch "sum8".toList then .operator 8
  else if strcmpiEq pch "sum10".toList then .operator 10
  else if strcmpiEq pch "sum11".toList then .operator 11
  else if strcmpiEq pch "sum12".toList then .operator 12
  else if strcmpiEq pch "sum16".toList then .operator 16
  else if strcmpiEq pch "sum32".toList then .operator 32
  else if strcmpiEq pch "sum44".toList then .operator 44
  else if strcmpiEq pch "sum64".toList then .operator 64
  else .counter

/-- The number of values a token of a kind takes from the stack. -/
def TokenKind.needs : TokenKind → Nat
  | .divide => 2
  | .operator n => n
  | .literal => 0
  | .hardware => 0
  | .counter => 0

/-- From the claim's words, "no prefix underflows": starting at `depth` values, every
token finds on the stack the values it takes, the depth moving by the tokens' effects. -/
def noUnderflow : List (List Char) → Int → Bool
  | [], _ => true
  | pch :: rest, depth =>
    decide (((tokenKind pch).needs : Int) ≤ depth)
      && noUnderflow rest (depth + tokenEffect pch)

/-! # Properties -/

/-! ## Stack lemmas -/

@[simp] theorem assertThat_true (dbg : Bool) : assertThat dbg true = .ok () := by
  cases dbg <;> rfl

@[simp] theorem assertThat_release (c : Bool) : assertThat false c = .ok () := rfl

@[simp] theorem assertThat_debug_false : assertThat true false = .error .assertion := rfl

@[simp] theorem except_ok_bind {ε α β : Type} (a : α) (f : α → Except ε β) :
    (Except.ok a >>= f) = f a := rfl

@[simp] theorem except_error_bind {ε α β : Type} (e : ε) (f : α → Except ε β) :
    (Except.error e >>= f) = Except.error e := rfl

@[simp] theorem except_pure {ε α : Type} (a : α) : (pure a : Except ε α) = Except.ok a := rfl

@[simp] theorem popBack_concat {T : Type} (s : List T) (v : T) :
    popBack (s ++ [v]) = .ok (v, s) := by
  simp [popBack]

@[simp] theorem popBack_nil {T : Type} : popBack ([] : List T) = .error .undefined := rfl

theorem popBack_pair {T : Type} (s : List T) (a b : T) :
    popBack (s ++ [a, b]) = .ok (b, s ++ [a]) := by
  have h : s ++ [a, b] = (s ++ [a]) ++ [b] := by simp
  rw [h, popBack_concat]

theorem binaryOp_pair {T : Type} (dbg : Bool) (f : T → T → T) (s : List T) (p1 p2 : T) :
    binaryOp dbg f (s ++ [p1, p2]) = .ok (s ++ [f p1 p2]) := by
  have hlen : decide ((s ++ [p1, p2]).length ≥ 2) = true := by simp
  simp only [binaryOp, hlen, assertThat_true, popBack_pair, popBack_concat, except_ok_bind,
    except_pure]

theorem divideOp_pair {T : Type} (dbg : Bool) (A : Arith T) (s : List T) (p1 p2 : T) :
    divideOp dbg A (s ++ [p1, p2])
      = (if A.ne p2 (A.cast 0) then
          (match A.div p1 p2 with
            | some q => .ok (s ++ [q])
            | none => .error .undefined)
        else .ok (s ++ [A.cast 0])) := by
  have hlen : decide ((s ++ [p1, p2]).length ≥ 2) = true := by simp
  simp only [divideOp, hlen, assertThat_true, popBack_pair, popBack_concat, except_ok_bind,
    except_pure]

theorem evalTokens_append {T : Type} (dbg : Bool) (A : Arith T) (I : InternalCounterType)
    (results : List (List Nat)) (resultType : GPA_Type) (pHwInfo : Option GPA_HWInfo)
    (f g : List (List Char)) (s : List T) :
    evalTokens dbg A I results resultType pHwInfo (f ++ g) s
      = (evalTokens dbg A I results resultType pHwInfo f s >>=
          evalTokens dbg A I results resultType pHwInfo g) := by
  induction f generalizing s with
  | nil => rfl
  | cons pch rest ih =>
    simp only [List.cons_append, evalTokens]
    cases h : evalToken dbg A I results resultType pHwInfo pch s with
    | error e => rfl
    | ok stack => simp only [except_ok_bind]; exact ih stack

theorem EvaluateExpression_of_stack {T : Type} (dbg : Bool) (A : Arith T)
    (I : InternalCounterType) (pExpression : List Char) (results : List (List Nat))
    (resultType : GPA_Type) (hw : GPA_HWInfo) (v : T)
    (h : evalTokens dbg A I results resultType (some hw) (strtok pExpression) [] = .ok [v]) :
    EvaluateExpression dbg A I pExpression results resultType (some hw) = ⟨none, .ok v⟩ := by
  simp only [EvaluateExpression, Option.isSome_some, assertThat_true, h]
  simp [popBack]

/-! ## Which branch a token takes -/

section tokens

variable {T : Type} (dbg : Bool) (A : Arith T) (I : InternalCounterType)
  (results : List (List Nat)) (resultType : GPA_Type) (pHwInfo : Option GPA_HWInfo)
  (stack : List T)

theorem evalToken_mul :
    evalToken dbg A I results resultType pHwInfo "*".toList stack
      = binaryOp dbg A.mul stack := rfl

theorem evalToken_div :
    evalToken dbg A I results resultType pHwInfo "/".toList stack
      = divideOp dbg A stack := rfl

theorem evalToken_add :
    evalToken dbg A I results resultType pHwInfo "+".toList stack
      = binaryOp dbg A.add stack := rfl

theorem evalToken_sub :
    evalToken dbg A I results resultType pHwInfo "-".toList stack
      = binaryOp dbg A.sub stack := rfl

end tokens

/-! ## Integer arithmetic -/

theorem wrapSigned_of_range (w : Nat) (hw : 0 < w) (i : Int)
    (h1 : -(2 : Int) ^ (w - 1) ≤ i) (h2 : i < 2 ^ (w - 1)) : wrapSigned w i = i := by
  obtain ⟨k, rfl⟩ : ∃ k, w = k + 1 := ⟨w - 1, by omega⟩
  simp only [Nat.add_sub_cancel] at h1 h2
  simp only [wrapSigned, Nat.add_sub_cancel, pow_succ]
  rw [Int.emod_eq_of_lt (by omega) (by omega)]
  omega

/-- C1, with its failing input: on a stack `s ++ [p1, p2]` the tokens `*`, `+`, `-` pop the
two top values and push `p1 op p2` with the deeper operand on the left, leaving `s` alone;
the token `/` with a divisor different from zero does so where the quotient has a value
(in the unsigned types always, in the signed types when the truncated quotient is
representable), and the raw samples 10 and 2 with the formula `0 1 /` give 5.  But in
`gpa_int32` on the operands `-2 ^ 31` and `-1`, and in `gpa_int64` on `-2 ^ 63` and `-1`,
the divisor passes the guard, the quotient has no value and the token ends in undefined
behaviour instead of pushing `p1 / p2`. -/
theorem C1_binary_operators {T : Type} (dbg : Bool) (A : Arith T) (I : InternalCounterType)
    (results : List (List Nat)) (resultType : GPA_Type) (pHwInfo : Option GPA_HWInfo)
    (s : List T) (p1 p2 : T) :
    evalToken dbg A I results resultType pHwInfo "*".toList (s ++ [p1, p2])
        = .ok (s ++ [A.mul p1 p2])
    ∧ (A.ne p2 (A.cast 0) = true →
        (∀ q, A.div p1 p2 = some q →
          evalToken dbg A I results resultType pHwInfo "/".toList (s ++ [p1, p2])
            = .ok (s ++ [q]))
        ∧ (A.div p1 p2 = none →
          evalToken dbg A I results resultType pHwInfo "/".toList (s ++ [p1, p2])
            = .error .undefined))
    ∧ evalToken dbg A I results resultType pHwInfo "+".toList (s ++ [p1, p2])
        = .ok (s ++ [A.add p1 p2])
    ∧ evalToken dbg A I results resultType pHwInfo "-".toList (s ++ [p1, p2])
        = .ok (s ++ [A.sub p1 p2])
    ∧ (∀ (w a b : Nat), b ≠ 0 → (uintArith w).div a b = some (a / b))
    ∧ (∀ (w : Nat) (a b : Int), b ≠ 0 → -(2 : Int) ^ (w - 1) ≤ Int.tdiv a b →
        Int.tdiv a b < 2 ^ (w - 1) → (sintArith w).div a b = some (Int.tdiv a b))
    ∧ (∀ hw : GPA_HWInfo,
        EvaluateExpression dbg (uintArith 32) I "0 1 /".toList
            [bytesOf I.sizeof 10, bytesOf I.sizeof 2] GPA_Type.UINT32 (some hw) = ⟨none, .ok 5⟩
        ∧ EvaluateExpression dbg (uintArith 64) I "0 1 /".toList
            [bytesOf I.sizeof 10, bytesOf I.sizeof 2] GPA_Type.UINT64 (some hw) = ⟨none, .ok 5⟩
        ∧ EvaluateExpression dbg (sintArith 32) I "0 1 /".toList
            [bytesOf I.sizeof 10, bytesOf I.sizeof 2] GPA_Type.INT32 (some hw) = ⟨none, .ok 5⟩
        ∧ EvaluateExpression dbg (sintArith 64) I "0 1 /".toList
            [bytesOf I.sizeof 10, bytesOf I.sizeof 2] GPA_Type.INT64 (some hw)
            = ⟨none, .ok 5⟩)
    ∧ (∀ r : List Int,
        (sintArith 32).ne (-1) ((sintArith 32).cast 0) = true
        ∧ evalToken dbg (sintArith 32) I results resultType pHwInfo "/".toList
            (r ++ [-(2 : Int) ^ 31, -1]) = .error .undefined
        ∧ (sintArith 64).ne (-1) ((sintArith 64).cast 0) = true
        ∧ evalToken dbg (sintArith 64) I results resultType pHwInfo "/".toList
            (r ++ [-(2 : Int) ^ 63, -1]) = .error .undefined) := by
  refine ⟨?_, ?_, ?_, ?_, ?_, ?_, ?_, ?_⟩
  · rw [evalToken_mul]; exact binaryOp_pair dbg _ s p1 p2
  · intro hne
    refine ⟨fun q hq => ?_, fun hq => ?_⟩
    · rw [evalToken_div, divideOp_pair, hne, if_pos rfl, hq]
    · rw [evalToken_div, divideOp_pair, hne, if_pos rfl, hq]
  · rw [evalToken_add]; exact binaryOp_pair dbg _ s p1 p2
  · rw [evalToken_sub]; exact binaryOp_pair dbg _ s p1 p2
  · intro w a b hb
    show (if b = 0 then none else some (a / b)) = some (a / b)
    rw [if_neg hb]
  · intro w a b hb h1 h2
    show (if b = 0 then none
      else if -(2 : Int) ^ (w - 1) ≤ Int.tdiv a b ∧ Int.tdiv a b < 2 ^ (w - 1) then
        some (Int.tdiv a b) else none) = some (Int.tdiv a b)
    rw [if_neg hb, if_pos ⟨h1, h2⟩]
  · intro hw
    cases dbg <;> cases I <;> exact ⟨rfl, rfl, rfl, rfl⟩
  · intro r
    refine ⟨by decide, ?_, by decide, ?_⟩
    · rw [evalToken_div, divideOp_pair]; rfl
    · rw [evalToken_div, divideOp_pair]; rfl

/-- C1 at instances: 10 divided by 2 in `gpa_uint32` above a stack `[7]`, and `-2 ^ 31`
divided by `-1` in `gpa_int32` above the same stack. -/
theorem C1_witness :
    evalToken true (uintArith 32) InternalCounterType.gpa_uint32 [] GPA_Type.UINT32 none
        "/".toList ([7] ++ [10, 2]) = .ok ([7] ++ [5])
    ∧ evalToken true (sintArith 32) InternalCounterType.gpa_uint32 [] GPA_Type.INT32 none
        "/".toList ([7] ++ [-(2 : Int) ^ 31, -1]) = .error .undefined :=
  ⟨((C1_binary_operators true (uintArith 32) InternalCounterType.gpa_uint32 [] GPA_Type.UINT32
      none [7] 10 2).2.1 (by decide)).1 5 (by decide),
    ((C1_binary_operators true (sintArith 32) InternalCounterType.gpa_uint32 [] GPA_Type.INT32
      none [7] 0 0).2.2.2.2.2.2.2 [7]).2.1⟩

theorem evalToken_sumToken {T : Type} (dbg : Bool) (A : Arith T) (I : InternalCounterType)
    (results : List (List Nat)) (resultType : GPA_Type) (pHwInfo : Option GPA_HWInfo)
    (stack : List T) (n : Nat) (hn : n ∈ sumWidths) :
    evalToken dbg A I results resultType pHwInfo (sumToken n) stack = sumN dbg A n stack := by
  simp only [sumWidths, List.mem_cons, List.mem_singleton, List.not_mem_nil, or_false] at hn
  rcases hn with rfl | rfl | rfl | rfl | rfl | rfl | rfl | rfl | rfl <;> rfl

theorem evalToken_maxToken {T : Type} (dbg : Bool) (A : Arith T) (I : InternalCounterType)
    (results : List (List Nat)) (resultType : GPA_Type) (pHwInfo : Option GPA_HWInfo)
    (stack : List T) (n : Nat) (hn : n ∈ maxWidths) :
    evalToken dbg A I results resultType pHwInfo (maxToken n) stack = maxN dbg A n stack := by
  simp only [maxWidths, List.mem_cons, List.mem_singleton, List.not_mem_nil, or_false] at hn
  rcases hn with rfl | rfl | rfl | rfl <;> rfl

theorem sumLoop_append {T : Type} (A : Arith T) (s vs : List T) (acc : T) :
    sumLoop A vs.length acc (s ++ vs) = .ok (vs.reverse.foldl A.add acc, s) := by
  induction vs using List.reverseRecOn generalizing acc with
  | nil => simp [sumLoop]
  | append_singleton vs v ih =>
    rw [← List.append_assoc, List.length_append, List.length_singleton, sumLoop,
      popBack_concat]
    simp only [except_ok_bind, ih, List.reverse_append, List.reverse_singleton,
      List.singleton_append, List.foldl_cons]

theorem sumN_append {T : Type} (dbg : Bool) (A : Arith T) (s vs : List T) :
    sumN dbg A vs.length (s ++ vs) = .ok (s ++ [vs.reverse.foldl A.add (A.cast 0)]) := by
  have hlen : decide ((s ++ vs).length ≥ vs.length) = true := by simp
  simp only [sumN, hlen, assertThat_true, except_ok_bind, sumLoop_append, except_pure]

theorem maxLoop_append {T : Type} (A : Arith T) (s vs : List T) (m : T) :
    maxLoop A vs.length m (s ++ vs)
      = .ok (vs.reverse.foldl (fun m v => if A.gt m v then m else v) m, s) := by
  induction vs using List.reverseRecOn generalizing m with
  | nil => simp [maxLoop]
  | append_singleton vs v ih =>
    rw [← List.append_assoc, List.length_append, List.length_singleton, maxLoop,
      popBack_concat]
    simp only [except_ok_bind, ih, List.reverse_append, List.reverse_singleton,
      List.singleton_append, List.foldl_cons]

theorem maxN_append {T : Type} (dbg : Bool) (A : Arith T) (s vs : List T) (v0 : T) :
    maxN dbg A (vs.length + 1) (s ++ (vs ++ [v0]))
      = .ok (s ++ [vs.reverse.foldl (fun m v => if A.gt m v then m else v) v0]) := by
  have hlen : decide ((s ++ (vs ++ [v0])).length ≥ vs.length + 1) = true := by simp
  simp only [maxN, hlen, assertThat_true, except_ok_bind]
  simp only [← List.append_assoc, popBack_concat, except_ok_bind,
    Nat.add_sub_cancel, maxLoop_append, except_pure]

theorem uint_foldl_add (w : Nat) (l : List Nat) (acc : Nat) :
    l.foldl (uintArith w).add (acc % 2 ^ w) = (acc + l.sum) % 2 ^ w := by
  induction l generalizing acc with
  | nil => simp
  | cons x l ih =>
    have h : (uintArith w).add (acc % 2 ^ w) x = (acc + x) % 2 ^ w := by
      show (acc % 2 ^ w + x) % 2 ^ w = (acc + x) % 2 ^ w
      exact Nat.mod_add_mod _ _ _
    rw [List.foldl_cons, h, ih, List.sum_cons, Nat.add_assoc]

theorem wrapSigned_add_left (w : Nat) (a b : Int) :
    wrapSigned w (wrapSigned w a + b) = wrapSigned w (a + b) := by
  unfold wrapSigned
  have h : (a + 2 ^ (w - 1)) % 2 ^ w - 2 ^ (w - 1) + b + 2 ^ (w - 1)
      = (a + 2 ^ (w - 1)) % 2 ^ w + b := by ring
  rw [h, Int.emod_add_emod]
  have h2 : a + 2 ^ (w - 1) + b = a + b + 2 ^ (w - 1) := by ring
  rw [h2]

theorem sint_foldl_add (w : Nat) (l : List Int) (acc : Int) :
    l.foldl (sintArith w).add (wrapSigned w acc) = wrapSigned w (acc + l.sum) := by
  induction l generalizing acc with
  | nil => simp
  | cons x l ih =>
    have h : (sintArith w).add (wrapSigned w acc) x = wrapSigned w (acc + x) :=
      wrapSigned_add_left w acc x
    rw [List.foldl_cons, h, ih, List.sum_cons, add_assoc]

/-- C2: when the divisor on top of the stack compares equal to zero, the token `/` pushes
zero of the result type, whatever the dividend and whether or not assertions are compiled
in, and the call does not fail; the raw samples 10 and 0 with the formula `0 1 /` give
zero. -/
theorem C2_division_by_zero {T : Type} (dbg : Bool) (A : Arith T) (I : InternalCounterType)
    (results : List (List Nat)) (resultType : GPA_Type) (pHwInfo : Option GPA_HWInfo)
    (s : List T) (p1 p2 : T) (hzero : A.ne p2 (A.cast 0) = false) :
    evalToken dbg A I results resultType pHwInfo "/".toList (s ++ [p1, p2])
        = .ok (s ++ [A.cast 0])
    ∧ (∀ hw : GPA_HWInfo, A.ne (A.cast 0) (A.cast 0) = false →
        EvaluateExpression dbg A I "0 1 /".toList [bytesOf I.sizeof 10, bytesOf I.sizeof 0]
          resultType (some hw) = ⟨none, .ok (A.cast 0)⟩) := by
  constructor
  · rw [evalToken_div, divideOp_pair]
    simp only [hzero, Bool.false_eq_true, if_false]
  · intro hw h0
    have hs : strtok "0 1 /".toList = ["0".toList, "1".toList] ++ ["/".toList] := by decide
    have h : evalTokens dbg A I [bytesOf I.sizeof 10, bytesOf I.sizeof 0] resultType (some hw)
        ["0".toList, "1".toList] [] = .ok ([] ++ [A.cast 10, A.cast 0]) := by
      cases dbg <;> cases I <;> rfl
    apply EvaluateExpression_of_stack
    rw [hs, evalTokens_append, h]
    simp only [except_ok_bind, evalTokens]
    rw [evalToken_div, divideOp_pair, h0]
    rfl

/-- C2 at an instance: 10 divided by 0 in `gpa_uint32`, and the formula `0 1 /` over the
raw samples 10 and 0. -/
theorem C2_witness :
    evalToken true (uintArith 32) InternalCounterType.gpa_uint32 [] GPA_Type.UINT32 none
        "/".toList ([7] ++ [10, 0]) = .ok ([7] ++ [(uintArith 32).cast 0])
    ∧ EvaluateExpression true (uintArith 32) InternalCounterType.gpa_uint32 "0 1 /".toList
        [bytesOf InternalCounterType.gpa_uint32.sizeof 10,
          bytesOf InternalCounterType.gpa_uint32.sizeof 0]
        GPA_Type.UINT32 (some ⟨4, 40, 6, 2, 27000000⟩) = ⟨none, .ok ((uintArith 32).cast 0)⟩ :=
  ⟨(C2_division_by_zero true (uintArith 32) InternalCounterType.gpa_uint32 [] GPA_Type.UINT32
      none [7] 10 0 (by decide)).1,
    (C2_division_by_zero true (uintArith 32) InternalCounterType.gpa_uint32 [] GPA_Type.UINT32
      none [7] 10 0 (by decide)).2 ⟨4, 40, 6, 2, 27000000⟩ (by decide)⟩

/-- C3: for each width `N` of a `sumN` token and a stack `s ++ vs` with `N` values `vs`,
the token pops exactly `vs` and pushes their sum, accumulated from the top of the stack
downwards starting at zero; in the unsigned types that is the sum modulo `2 ^ w`, in the
signed types the two's complement reading of the sum. -/
theorem C3_sumN {T : Type} (dbg : Bool) (A : Arith T) (I : InternalCounterType)
    (results : List (List Nat)) (resultType : GPA_Type) (pHwInfo : Option GPA_HWInfo)
    (N : Nat) (hN : N ∈ sumWidths) (s vs : List T) (hlen : vs.length = N) :
    evalToken dbg A I results resultType pHwInfo (sumToken N) (s ++ vs)
        = .ok (s ++ [vs.reverse.foldl A.add (A.cast 0)])
    ∧ (∀ (w : Nat) (l : List Nat),
        l.reverse.foldl (uintArith w).add ((uintArith w).cast 0) = l.sum % 2 ^ w)
    ∧ (∀ (w : Nat) (l : List Int),
        l.reverse.foldl (sintArith w).add ((sintArith w).cast 0) = wrapSigned w l.sum) := by
  refine ⟨?_, ?_, ?_⟩
  · rw [evalToken_sumToken dbg A I results resultType pHwInfo _ N hN, ← hlen]
    exact sumN_append dbg A s vs
  · intro w l
    have h := uint_foldl_add w l.reverse 0
    rw [List.sum_reverse, Nat.zero_add] at h
    exact h
  · intro w l
    have h := sint_foldl_add w l.reverse 0
    rw [List.sum_reverse, zero_add] at h
    exact h

/-- C3 at an instance: `sum4` in `gpa_uint32` over 1, 2, 3, 4 above a stack `[9]`. -/
theorem C3_witness :
    evalToken true (uintArith 32) InternalCounterType.gpa_uint32 [] GPA_Type.UINT32 none
        (sumToken 4) ([9] ++ [1, 2, 3, 4])
        = .ok ([9] ++ [[1, 2, 3, 4].reverse.foldl (uintArith 32).add ((uintArith 32).cast 0)])
    ∧ (∀ (w : Nat) (l : List Nat),
        l.reverse.foldl (uintArith w).add ((uintArith w).cast 0) = l.sum % 2 ^ w)
    ∧ (∀ (w : Nat) (l : List Int),
        l.reverse.foldl (sintArith w).add ((sintArith w).cast 0) = wrapSigned w l.sum) :=
  C3_sumN true (uintArith 32) InternalCounterType.gpa_uint32 [] GPA_Type.UINT32 none 4
    (by decide) [9] [1, 2, 3, 4] rfl

theorem foldl_pick_max {T : Type} (gt : T → T → Bool) (ge : T → T → Prop) (P : T → Prop)
    (h1 : ∀ a b, P a → P b → gt a b = true → ge a b)
    (h2 : ∀ a b, P a → P b → gt a b = false → ge b a)
    (hrefl : ∀ a, P a → ge a a)
    (htrans : ∀ a b c, P a → P b → P c → ge a b → ge b c → ge a c)
    (l : List T) (m : T) (hm : P m) (hl : ∀ v ∈ l, P v) :
    l.foldl (fun m v => if gt m v then m else v) m ∈ m :: l
      ∧ P (l.foldl (fun m v => if gt m v then m else v) m)
      ∧ ∀ v ∈ m :: l, ge (l.foldl (fun m v => if gt m v then m else v) m) v := by
  induction l generalizing m with
  | nil =>
    refine ⟨by simp, hm, ?_⟩
    intro v hv
    simp only [List.mem_singleton] at hv
    rw [hv]
    exact hrefl m hm
  | cons x l ih =>
    simp only [List.foldl_cons]
    have hx : P x := hl x (List.mem_cons_self _ _)
    have hp : P (if gt m x then m else x) := by
      split
      · exact hm
      · exact hx
    obtain ⟨hmem, hP, hge⟩ := ih (if gt m x then m else x) hp
      (fun v hv => hl v (List.mem_cons_of_mem _ hv))
    have hpm : ge (if gt m x = true then m else x) m := by
      cases hg : gt m x with
      | true => simp only [if_true]; exact hrefl m hm
      | false => simp only [Bool.false_eq_true, if_false]; exact h2 m x hm hx hg
    have hpx : ge (if gt m x = true then m else x) x := by
      cases hg : gt m x with
      | true => simp only [if_true]; exact h1 m x hm hx hg
      | false => simp only [Bool.false_eq_true, if_false]; exact hrefl x hx
    have hpick : (if gt m x = true then m else x) ∈ m :: x :: l := by
      split <;> simp
    have htop := hge _ (List.mem_cons_self _ _)
    refine ⟨?_, hP, ?_⟩
    · rcases List.mem_cons.1 hmem with h | h
      · rw [h]; exact hpick
      · exact List.mem_cons_of_mem _ (List.mem_cons_of_mem _ h)
    · intro v hv
      rcases List.mem_cons.1 hv with h | h
      · rw [h]; exact htrans _ _ _ hP hp hm htop hpm
      · rcases List.mem_cons.1 h with h | h
        · rw [h]; exact htrans _ _ _ hP hp hx htop hpx
        · exact hge v (List.mem_cons_of_mem _ h)

theorem maxN_pick {T : Type} (dbg : Bool) (A : Arith T) (I : InternalCounterType)
    (results : List (List Nat)) (resultType : GPA_Type) (pHwInfo : Option GPA_HWInfo)
    (N : Nat) (hN : N ∈ maxWidths) (s vs : List T) (hlen : vs.length = N) :
    ∃ m, evalToken dbg A I results resultType pHwInfo (maxToken N) (s ++ vs) = .ok (s ++ [m])
      ∧ m ∈ vs
      ∧ ∀ (ge : T → T → Prop) (P : T → Prop),
          (∀ a b, P a → P b → A.gt a b = true → ge a b) →
          (∀ a b, P a → P b → A.gt a b = false → ge b a) →
          (∀ a, P a → ge a a) →
          (∀ a b c, P a → P b → P c → ge a b → ge b c → ge a c) →
          (∀ v ∈ vs, P v) → ∀ v ∈ vs, ge m v := by
  have hpos : vs ≠ [] := by
    intro h
    rw [h, List.length_nil] at hlen
    rw [← hlen] at hN
    exact absurd hN (by decide)
  obtain ⟨vs', v0, rfl⟩ : ∃ vs' v0, vs = vs' ++ [v0] :=
    ⟨vs.dropLast, vs.getLast hpos, (List.dropLast_append_getLast hpos).symm⟩
  refine ⟨vs'.reverse.foldl (fun m v => if A.gt m v then m else v) v0, ?_, ?_, ?_⟩
  · rw [evalToken_maxToken dbg A I results resultType pHwInfo _ N hN, ← hlen,
      List.length_append, List.length_singleton]
    exact maxN_append dbg A s vs' v0
  · have h := (foldl_pick_max A.gt (fun _ _ => True) (fun _ => True)
      (fun _ _ _ _ _ => trivial) (fun _ _ _ _ _ => trivial) (fun _ _ => trivial)
      (fun _ _ _ _ _ _ _ _ => trivial) vs'.reverse v0 trivial (fun _ _ => trivial)).1
    simpa [or_comm] using h
  · intro ge P h1 h2 hrefl htrans hP v hv
    have hP0 : P v0 := hP v0 (by simp)
    have hPl : ∀ v ∈ vs'.reverse, P v := fun v hv => hP v (by
      simp only [List.mem_reverse] at hv
      simp [hv])
    apply (foldl_pick_max A.gt ge P h1 h2 hrefl htrans vs'.reverse v0 hP0 hPl).2.2
    simpa [or_comm] using hv

theorem FloatValue.ge_of_gt (a b : FloatValue) (h : FloatValue.gt a b = true) :
    FloatValue.ge a b = true := by
  cases a <;> cases b <;> simp_all [FloatValue.gt, FloatValue.ge]
  exact le_of_lt h

theorem FloatValue.ge_of_not_gt (a b : FloatValue) (ha : a ≠ .nan) (hb : b ≠ .nan)
    (h : FloatValue.gt a b = false) : FloatValue.ge b a = true := by
  cases a <;> cases b <;> simp_all [FloatValue.gt, FloatValue.ge]
  rename_i n m
  cases n <;> cases m <;> simp_all

theorem FloatValue.ge_refl (a : FloatValue) (ha : a ≠ .nan) : FloatValue.ge a a = true := by
  cases a <;> simp_all [FloatValue.ge]

theorem FloatValue.ge_trans (a b c : FloatValue) (hab : FloatValue.ge a b = true)
    (hbc : FloatValue.ge b c = true) : FloatValue.ge a c = true := by
  cases a <;> cases b <;> cases c <;> simp_all [FloatValue.ge]
  · rename_i n m k
    cases n <;> cases m <;> cases k <;> simp_all
  · exact le_trans hbc hab

/-- C4, the claim as stated fails: in a floating-point result type the sixteen values
`1, …, 1, 5, NaN, 9` (9 on top) make `max16` push 5, although 9 is among them and
`5 >= 9` is false; every comparison with the not-a-number is false, so the loop first
replaces 9 by the not-a-number and then the not-a-number by 5. -/
theorem C4_counterexample :
    (List.replicate 13 (FloatValue.finite 1)
        ++ [FloatValue.finite 5, FloatValue.nan, FloatValue.finite 9]).length = 16
    ∧ (∀ F : Arith FloatValue, F.gt = FloatValue.gt →
        ∀ (dbg : Bool) (I : InternalCounterType) (results : List (List Nat))
          (resultType : GPA_Type) (pHwInfo : Option GPA_HWInfo),
        evalToken dbg F I results resultType pHwInfo (maxToken 16)
            ([FloatValue.finite 2] ++ (List.replicate 13 (FloatValue.finite 1)
              ++ [FloatValue.finite 5, FloatValue.nan, FloatValue.finite 9]))
          = .ok ([FloatValue.finite 2] ++ [FloatValue.finite 5]))
    ∧ FloatValue.finite 9 ∈ List.replicate 13 (FloatValue.finite 1)
        ++ [FloatValue.finite 5, FloatValue.nan, FloatValue.finite 9]
    ∧ FloatValue.gt (FloatValue.finite 9) FloatValue.nan = false
    ∧ FloatValue.gt FloatValue.nan (FloatValue.finite 5) = false
    ∧ FloatValue.gt (FloatValue.finite 5) (FloatValue.finite 1) = true
    ∧ FloatValue.ge (FloatValue.finite 5) (FloatValue.finite 9) = false
    ∧ FloatValue.gt (FloatValue.finite 9) (FloatValue.finite 5) = true := by
  refine ⟨by decide, ?_, by decide, by decide, by decide, by decide, by decide, by decide⟩
  intro F hF dbg I results resultType pHwInfo
  have h51 : FloatValue.gt (FloatValue.finite 5) (FloatValue.finite 1) = true := by decide
  rw [evalToken_maxToken dbg F I results resultType pHwInfo _ 16 (by decide)]
  have h := maxN_append dbg F [FloatValue.finite 2]
    (List.replicate 13 (FloatValue.finite 1) ++ [FloatValue.finite 5, FloatValue.nan])
    (FloatValue.finite 9)
  have hl : (List.replicate 13 (FloatValue.finite 1)
      ++ [FloatValue.finite 5, FloatValue.nan]).length + 1 = 16 := by decide
  rw [hl] at h
  have hs : List.replicate 13 (FloatValue.finite 1)
      ++ [FloatValue.finite 5, FloatValue.nan, FloatValue.finite 9]
      = (List.replicate 13 (FloatValue.finite 1) ++ [FloatValue.finite 5, FloatValue.nan])
        ++ [FloatValue.finite 9] := by simp
  rw [hs, h, hF]
  simp [List.replicate, FloatValue.gt, h51]

/-- C4, amended: for each width `N` of a `maxN` token and a stack `s ++ vs` with `N` values
`vs`, the token pops exactly `vs` and pushes one value `m` that is an element of `vs`; `m`
is their maximum, `m >= v` for every `v` in `vs`, in the integer result types and, when no
value in `vs` is a not-a-number, in the floating-point result types; and in any result
type no `v` in `vs` is greater than `m` when `>` is asymmetric and negatively transitive on
`vs`. -/
theorem C4_maxN {T : Type} (dbg : Bool) (A : Arith T) (I : InternalCounterType)
    (results : List (List Nat)) (resultType : GPA_Type) (pHwInfo : Option GPA_HWInfo)
    (N : Nat) (hN : N ∈ maxWidths) (s vs : List T) (hlen : vs.length = N) :
    (∃ m, evalToken dbg A I results resultType pHwInfo (maxToken N) (s ++ vs)
          = .ok (s ++ [m])
      ∧ m ∈ vs
      ∧ ((∀ a ∈ vs, ∀ b ∈ vs, A.gt a b = true → A.gt b a = false) →
          (∀ a ∈ vs, ∀ b ∈ vs, ∀ c ∈ vs,
            A.gt a b = false → A.gt b c = false → A.gt a c = false) →
          ∀ v ∈ vs, A.gt v m = false))
    ∧ (∀ (w : Nat) (r l : List Nat), l.length = N →
        ∃ m, evalToken dbg (uintArith w) I results resultType pHwInfo (maxToken N) (r ++ l)
            = .ok (r ++ [m])
          ∧ m ∈ l ∧ ∀ v ∈ l, m ≥ v)
    ∧ (∀ (w : Nat) (r l : List Int), l.length = N →
        ∃ m, evalToken dbg (sintArith w) I results resultType pHwInfo (maxToken N) (r ++ l)
            = .ok (r ++ [m])
          ∧ m ∈ l ∧ ∀ v ∈ l, m ≥ v)
    ∧ (∀ F : Arith FloatValue, F.gt = FloatValue.gt →
        ∀ r l : List FloatValue, l.length = N → (∀ v ∈ l, v ≠ FloatValue.nan) →
        ∃ m, evalToken dbg F I results resultType pHwInfo (maxToken N) (r ++ l)
            = .ok (r ++ [m])
          ∧ m ∈ l ∧ ∀ v ∈ l, FloatValue.ge m v = true) := by
  refine ⟨?_, ?_, ?_, ?_⟩
  · obtain ⟨m, hm, hmem, hmax⟩ :=
      maxN_pick dbg A I results resultType pHwInfo N hN s vs hlen
    refine ⟨m, hm, hmem, fun hasym hneg => ?_⟩
    refine hmax (fun a b => A.gt b a = false) (fun a => a ∈ vs) ?_ ?_ ?_ ?_ (fun v hv => hv)
    · intro a b ha hb h; exact hasym a ha b hb h
    · intro a b _ _ h; exact h
    · intro a ha
      cases h : A.gt a a with
      | false => rfl
      | true => rw [hasym a ha a ha h] at h; cases h
    · intro a b c ha hb hc hab hbc; exact hneg c hc b hb a ha hbc hab
  · intro w r l hl
    obtain ⟨m, hm, hmem, hmax⟩ :=
      maxN_pick dbg (uintArith w) I results resultType pHwInfo N hN r l hl
    refine ⟨m, hm, hmem, ?_⟩
    refine hmax (fun a b => a ≥ b) (fun _ => True) ?_ ?_ ?_ ?_ (fun _ _ => trivial)
    · intro a b _ _ h
      have h' : b < a := by simpa [uintArith] using h
      exact le_of_lt h'
    · intro a b _ _ h
      have h' : ¬ b < a := by simpa [uintArith] using h
      exact not_lt.1 h'
    · intro a _; exact le_refl a
    · intro a b c _ _ _ hab hbc; exact le_trans hbc hab
  · intro w r l hl
    obtain ⟨m, hm, hmem, hmax⟩ :=
      maxN_pick dbg (sintArith w) I results resultType pHwInfo N hN r l hl
    refine ⟨m, hm, hmem, ?_⟩
    refine hmax (fun a b => a ≥ b) (fun _ => True) ?_ ?_ ?_ ?_ (fun _ _ => trivial)
    · intro a b _ _ h
      have h' : b < a := by simpa [sintArith] using h
      exact le_of_lt h'
    · intro a b _ _ h
      have h' : ¬ b < a := by simpa [sintArith] using h
      exact not_lt.1 h'
    · intro a _; exact le_refl a
    · intro a b c _ _ _ hab hbc; exact le_trans hbc hab
  · intro F hF r l hl hnan
    obtain ⟨m, hm, hmem, hmax⟩ := maxN_pick dbg F I results resultType pHwInfo N hN r l hl
    refine ⟨m, hm, hmem, ?_⟩
    refine hmax (fun a b => FloatValue.ge a b = true) (fun a => a ≠ FloatValue.nan)
      ?_ ?_ ?_ ?_ hnan
    · intro a b _ _ h; rw [hF] at h; exact FloatValue.ge_of_gt a b h
    · intro a b ha hb h; rw [hF] at h; exact FloatValue.ge_of_not_gt a b ha hb h
    · intro a ha; exact FloatValue.ge_refl a ha
    · intro a b c _ _ _ hab hbc; exact FloatValue.ge_trans a b c hab hbc

/-- C4 at an instance: `max16` in `gpa_uint32` over sixteen values above a stack `[9]`. -/
theorem C4_witness :
    ∃ m, evalToken true (uintArith 32) InternalCounterType.gpa_uint32 [] GPA_Type.UINT32 none
          (maxToken 16) ([9] ++ [3, 1, 4, 1, 5, 9, 2, 6, 5, 3, 5, 8, 9, 7, 9, 3])
          = .ok ([9] ++ [m])
      ∧ m ∈ [3, 1, 4, 1, 5, 9, 2, 6, 5, 3, 5, 8, 9, 7, 9, 3]
      ∧ ∀ v ∈ [3, 1, 4, 1, 5, 9, 2, 6, 5, 3, 5, 8, 9, 7, 9, 3], m ≥ v :=
  (C4_maxN true (uintArith 32) InternalCounterType.gpa_uint32 []
    GPA_Type.UINT32 none 16 (by decide) [9] [3, 1, 4, 1, 5, 9, 2, 6, 5, 3, 5, 8, 9, 7, 9, 3]
    rfl).2.1 32 [9] [3, 1, 4, 1, 5, 9, 2, 6, 5, 3, 5, 8, 9, 7, 9, 3] rfl

theorem evalToken_max {T : Type} (dbg : Bool) (A : Arith T) (I : InternalCounterType)
    (results : List (List Nat)) (resultType : GPA_Type) (pHwInfo : Option GPA_HWInfo)
    (stack : List T) :
    evalToken dbg A I results resultType pHwInfo "max".toList stack
      = binaryOp dbg (fun p1 p2 => if A.gt p1 p2 then p1 else p2) stack := rfl

theorem evalToken_min {T : Type} (dbg : Bool) (A : Arith T) (I : InternalCounterType)
    (results : List (List Nat)) (resultType : GPA_Type) (pHwInfo : Option GPA_HWInfo)
    (stack : List T) :
    evalToken dbg A I results resultType pHwInfo "min".toList stack
      = binaryOp dbg (fun p1 p2 => if A.lt p1 p2 then p1 else p2) stack := rfl

theorem evalToken_ifnotzero {T : Type} (dbg : Bool) (A : Arith T) (I : InternalCounterType)
    (results : List (List Nat)) (resultType : GPA_Type) (pHwInfo : Option GPA_HWInfo)
    (stack : List T) :
    evalToken dbg A I results resultType pHwInfo "ifnotzero".toList stack
      = ifNotZero dbg A stack := rfl

theorem pick_gt_eq_max {T : Type} [LinearOrder T] (a b : T) :
    (if decide (a > b) = true then a else b) = max a b := by
  rcases lt_or_le b a with h | h
  · simp [h, max_eq_left (le_of_lt h)]
  · simp [not_lt.2 h, max_eq_right h]

theorem ifNotZero_triple {T : Type} (dbg : Bool) (A : Arith T) (s : List T)
    (resultFalse resultTrue condition : T) :
    ifNotZero dbg A (s ++ [resultFalse, resultTrue, condition])
      = .ok (s ++ [if A.ne condition (A.cast 0) then resultTrue else resultFalse]) := by
  have hlen : decide ((s ++ [resultFalse, resultTrue, condition]).length ≥ 3) = true := by
    simp
  have h : s ++ [resultFalse, resultTrue, condition]
      = ((s ++ [resultFalse]) ++ [resultTrue]) ++ [condition] := by simp
  simp only [ifNotZero, hlen, assertThat_true, except_ok_bind]
  simp only [h, popBack_concat, except_ok_bind, except_pure]
  split <;> rfl

/-- C6: on a stack `s ++ [falseValue, trueValue, condition]` the token `ifnotzero` pops
the three values and pushes `trueValue` when `condition != 0` holds and `falseValue` when
it does not, leaving `s` alone; in the integer types `condition != 0` is the plain
inequality with the number zero. -/
theorem C6_ifnotzero {T : Type} (dbg : Bool) (A : Arith T) (I : InternalCounterType)
    (results : List (List Nat)) (resultType : GPA_Type) (pHwInfo : Option GPA_HWInfo)
    (s : List T) (falseValue trueValue condition : T) :
    evalToken dbg A I results resultType pHwInfo "ifnotzero".toList
        (s ++ [falseValue, trueValue, condition])
        = .ok (s ++ [if A.ne condition (A.cast 0) then trueValue else falseValue])
    ∧ (∀ (w : Nat) (c : Nat), (uintArith w).ne c ((uintArith w).cast 0) = decide (c ≠ 0))
    ∧ (∀ c : Int, (sintArith 32).ne c ((sintArith 32).cast 0) = decide (c ≠ 0))
    ∧ (∀ c : Int, (sintArith 64).ne c ((sintArith 64).cast 0) = decide (c ≠ 0)) := by
  refine ⟨?_, ?_, ?_, ?_⟩
  · rw [evalToken_ifnotzero]
    exact ifNotZero_triple dbg A s falseValue trueValue condition
  · intro w c
    show decide (c ≠ 0 % 2 ^ w) = decide (c ≠ 0)
    rw [Nat.zero_mod]
  · intro c
    have h : (sintArith 32).cast 0 = 0 := by decide
    rw [h]; rfl
  · intro c
    have h : (sintArith 64).cast 0 = 0 := by decide
    rw [h]; rfl

/-! ## Tokens and names -/

theorem firstChar_map_toLower (pch : List Char) :
    firstChar (pch.map Char.toLower) = (firstChar pch).toLower := by
  cases pch with
  | nil => rfl
  | cons c cs => rfl

theorem firstChar_ne_of_lower (pch : List Char) (x : Char) (hx : x.toLower = x)
    (h : firstChar (pch.map Char.toLower) ≠ x) : firstChar pch ≠ x := by
  intro e
  apply h
  rw [firstChar_map_toLower, e, hx]

theorem isDelim_toLower (c : Char) (h : isDelim c = true) : isDelim c.toLower = true := by
  simp only [isDelim, Bool.or_eq_true, decide_eq_true_eq] at h
  rcases h with h | h <;> rw [h] <;> decide

theorem noDelim_of_lower (pch : List Char)
    (h : ∀ c ∈ pch.map Char.toLower, isDelim c = false) : ∀ c ∈ pch, isDelim c = false := by
  intro c hc
  cases hd : isDelim c with
  | false => rfl
  | true =>
    have h1 := isDelim_toLower c hd
    have h2 := h c.toLower (List.mem_map_of_mem _ hc)
    rw [h1] at h2
    exact absurd h2 (by decide)

theorem strtokAux_noDelim (cs cur : List Char) (h : ∀ c ∈ cs, isDelim c = false)
    (hne : cs ≠ [] ∨ cur ≠ []) : strtokAux cs cur = [cur.reverse ++ cs] := by
  induction cs generalizing cur with
  | nil =>
    cases cur with
    | nil => simp at hne
    | cons d ds => simp [strtokAux]
  | cons c cs ih =>
    have hc : isDelim c = false := h c (List.mem_cons_self _ _)
    rw [strtokAux]
    simp only [hc, Bool.false_eq_true, if_false]
    rw [ih (c :: cur) (fun x hx => h x (List.mem_cons_of_mem _ hx)) (Or.inr (by simp))]
    simp

theorem strtok_single (pch : List Char) (hne : pch ≠ [])
    (h : ∀ c ∈ pch, isDelim c = false) : strtok pch = [pch] := by
  rw [strtok, strtokAux_noDelim pch [] h (Or.inl hne)]
  simp

theorem EvaluateExpression_single {T : Type} (dbg : Bool) (A : Arith T)
    (I : InternalCounterType) (pch : List Char) (results : List (List Nat))
    (resultType : GPA_Type) (hw : GPA_HWInfo) (v : T) (hne : pch ≠ [])
    (hd : ∀ c ∈ pch, isDelim c = false)
    (h : evalToken dbg A I results resultType (some hw) pch [] = .ok [v]) :
    EvaluateExpression dbg A I pch results resultType (some hw) = ⟨none, .ok v⟩ := by
  apply EvaluateExpression_of_stack
  rw [strtok_single pch hne hd]
  simp only [evalTokens, h, except_ok_bind]

theorem hardware_token {T : Type} (dbg : Bool) (A : Arith T) (I : InternalCounterType)
    (results : List (List Nat)) (resultType : GPA_Type) (hw : GPA_HWInfo)
    (pch name : List Char) (v : T) (h : pch.map Char.toLower = name)
    (hname : name ≠ [] ∧ (∀ c ∈ name, isDelim c = false)
      ∧ firstChar name ≠ '*' ∧ firstChar name ≠ '/' ∧ firstChar name ≠ '+'
      ∧ firstChar name ≠ '-' ∧ firstChar name ≠ '(')
    (hev : ∀ p : List Char, p.map Char.toLower = name → firstChar p ≠ '*' →
      firstChar p ≠ '/' → firstChar p ≠ '+' → firstChar p ≠ '-' → firstChar p ≠ '(' →
      evalToken dbg A I results resultType (some hw) p [] = .ok [v]) :
    EvaluateExpression dbg A I pch results resultType (some hw) = ⟨none, .ok v⟩ := by
  obtain ⟨hne, hd, h1, h2, h3, h4, h5⟩ := hname
  rw [← h] at hne hd h1 h2 h3 h4 h5
  apply EvaluateExpression_single dbg A I pch results resultType hw v
  · intro e; apply hne; rw [e]; rfl
  · exact noDelim_of_lower pch hd
  · exact hev pch h (firstChar_ne_of_lower pch _ (by decide) h1)
      (firstChar_ne_of_lower pch _ (by decide) h2)
      (firstChar_ne_of_lower pch _ (by decide) h3)
      (firstChar_ne_of_lower pch _ (by decide) h4)
      (firstChar_ne_of_lower pch _ (by decide) h5)

theorem ComputeCounterValue_calls (dbg : Bool) (self : GPA_PublicCounters)
    (counterIndex : Nat) (counter : GPA_PublicCounter) (internalCounterTypes : List GPA_Type)
    (first : GPA_Type) (pExpression : List Char)
    (h1 : self.m_counters.get? counterIndex = some counter)
    (h2 : counter.m_pComputeExpression = some pExpression)
    (h3 : internalCounterTypes.get? 0 = some first)
    (h4 : first = GPA_Type.UINT64 ∨ first = GPA_Type.UINT32)
    (h5 : ∀ k, counter.m_dataType ≠ GPA_Type.beyondLast k) :
    ∃ I0, ComputeCounterValue dbg self counterIndex internalCounterTypes
      = .ok (some ⟨counter.m_dataType, I0, pExpression⟩) := by
  have hd : ∀ I0, dispatchDataType dbg I0 counter pExpression
      = .ok (some ⟨counter.m_dataType, I0, pExpression⟩) := by
    intro I0
    cases hdt : counter.m_dataType with
    | beyondLast k => exact absurd hdt (h5 k)
    | _ => simp [dispatchDataType, hdt]
  simp only [ComputeCounterValue, h1, h2, h3]
  rcases h4 with h | h
  · exact ⟨InternalCounterType.gpa_uint64, by rw [if_pos h]; exact hd _⟩
  · refine ⟨InternalCounterType.gpa_uint32, ?_⟩
    rw [if_neg (by rw [h]; decide), if_pos h]
    exact hd _

/-- C7: a formula that is one hardware-constant name, in any mix of upper and lower case,
evaluates to the matching `GPA_HWInfo` value converted to the result type, for every
result type, every raw storage type and every raw sample vector, the empty one included;
in particular `NUM_SIMDS` with no raw samples gives the SIMD count; and
`ComputeCounterValue` hands such a formula to the evaluator with the counter's own data
type as result type, once the first declared raw type selects a storage type. -/
theorem C7_hardware_constants {T : Type} (dbg : Bool) (A : Arith T) (I : InternalCounterType)
    (results : List (List Nat)) (resultType : GPA_Type) (hw : GPA_HWInfo)
    (pch : List Char) :
    (pch.map Char.toLower = "num_shader_engines".toList →
      EvaluateExpression dbg A I pch results resultType (some hw)
        = ⟨none, .ok (A.cast hw.GetNumberShaderEngines)⟩)
    ∧ (pch.map Char.toLower = "num_simds".toList →
      EvaluateExpression dbg A I pch results resultType (some hw)
        = ⟨none, .ok (A.cast hw.GetNumberSIMDs)⟩)
    ∧ (pch.map Char.toLower = "su_clocks_prim".toList →
      EvaluateExpression dbg A I pch results resultType (some hw)
        = ⟨none, .ok (A.cast hw.GetSUClocksPrim)⟩)
    ∧ (pch.map Char.toLower = "num_prim_pipes".toList →
      EvaluateExpression dbg A I pch results resultType (some hw)
        = ⟨none, .ok (A.cast hw.GetNumberPrimPipes)⟩)
    ∧ (pch.map Char.toLower = "ts_freq".toList →
      EvaluateExpression dbg A I pch results resultType (some hw)
        = ⟨none, .ok (A.cast hw.GetTimeStampFrequency)⟩)
    ∧ EvaluateExpression dbg A I "NUM_SIMDS".toList [] resultType (some hw)
        = ⟨none, .ok (A.cast hw.GetNumberSIMDs)⟩
    ∧ (∀ (self : GPA_PublicCounters) (counterIndex : Nat) (counter : GPA_PublicCounter)
        (internalCounterTypes : List GPA_Type) (first : GPA_Type),
        self.m_counters.get? counterIndex = some counter →
        counter.m_pComputeExpression = some pch →
        internalCounterTypes.get? 0 = some first →
        first = GPA_Type.UINT64 ∨ first = GPA_Type.UINT32 →
        (∀ k, counter.m_dataType ≠ GPA_Type.beyondLast k) →
        ∃ I0, ComputeCounterValue dbg self counterIndex internalCounterTypes
          = .ok (some ⟨counter.m_dataType, I0, pch⟩)) := by
  have key : ∀ (name : List Char) (v : T),
      (name ≠ [] ∧ (∀ c ∈ name, isDelim c = false)
        ∧ firstChar name ≠ '*' ∧ firstChar name ≠ '/' ∧ firstChar name ≠ '+'
        ∧ firstChar name ≠ '-' ∧ firstChar name ≠ '(') →
      (∀ p : List Char, p.map Char.toLower = name → firstChar p ≠ '*' →
        firstChar p ≠ '/' → firstChar p ≠ '+' → firstChar p ≠ '-' → firstChar p ≠ '(' →
        evalToken dbg A I results resultType (some hw) p [] = .ok [v]) →
      pch.map Char.toLower = name →
      EvaluateExpression dbg A I pch results resultType (some hw) = ⟨none, .ok v⟩ :=
    fun name v hname hev h =>
      hardware_token dbg A I results resultType hw pch name v h hname hev
  refine ⟨?_, ?_, ?_, ?_, ?_, ?_, ?_⟩
  · apply key _ _ (by decide)
    intro p hp h1 h2 h3 h4 h5
    unfold evalToken
    rw [if_neg h1, if_neg h2, if_neg h3, if_neg h4, if_neg h5]
    simp only [strcmpiEq, hp]
    rfl
  · apply key _ _ (by decide)
    intro p hp h1 h2 h3 h4 h5
    unfold evalToken
    rw [if_neg h1, if_neg h2, if_neg h3, if_neg h4, if_neg h5]
    simp only [strcmpiEq, hp]
    rfl
  · apply key _ _ (by decide)
    intro p hp h1 h2 h3 h4 h5
    unfold evalToken
    rw [if_neg h1, if_neg h2, if_neg h3, if_neg h4, if_neg h5]
    simp only [strcmpiEq, hp]
    rfl
  · apply key _ _ (by decide)
    intro p hp h1 h2 h3 h4 h5
    unfold evalToken
    rw [if_neg h1, if_neg h2, if_neg h3, if_neg h4, if_neg h5]
    simp only [strcmpiEq, hp]
    rfl
  · apply key _ _ (by decide)
    intro p hp h1 h2 h3 h4 h5
    unfold evalToken
    rw [if_neg h1, if_neg h2, if_neg h3, if_neg h4, if_neg h5]
    simp only [strcmpiEq, hp]
    rfl
  · cases dbg <;> rfl
  · intro self counterIndex counter internalCounterTypes first h1 h2 h3 h4 h5
    exact ComputeCounterValue_calls dbg self counterIndex counter internalCounterTypes first
      pch h1 h2 h3 h4 h5

/-- C7 at an instance: `Num_SIMDs` evaluated in `gpa_int32`. -/
theorem C7_witness :
    EvaluateExpression true (sintArith 32) InternalCounterType.gpa_uint64 "Num_SIMDs".toList
      [bytesOf 8 77] GPA_Type.INT32 (some ⟨4, 40, 6, 2, 27000000⟩)
      = ⟨none, .ok ((sintArith 32).cast 40)⟩ :=
  (C7_hardware_constants true (sintArith 32) InternalCounterType.gpa_uint64 [bytesOf 8 77]
    GPA_Type.INT32 ⟨4, 40, 6, 2, 27000000⟩ "Num_SIMDs".toList).2.1 (by decide)

/-! ## Decimal numerals -/

theorem digitChar_spec : ∀ m, m < 10 →
    (Nat.digitChar m).isDigit = true ∧ (Nat.digitChar m).toNat - 48 = m := by
  decide

theorem isDigit_facts (d : Char) (h : d.isDigit = true) :
    isspace d = false ∧ d ≠ '-' ∧ d ≠ '+' ∧ d ≠ '*' ∧ d ≠ '/' ∧ d ≠ '('
      ∧ d.toLower = d ∧ d.isAlpha = false := by
  have hb : 48 ≤ d.toNat ∧ d.toNat ≤ 57 := by
    simp only [Char.isDigit, Bool.and_eq_true, decide_eq_true_eq] at h
    exact ⟨h.1, h.2⟩
  have hd : d = Char.ofNat d.toNat := (Char.ofNat_toNat d).symm
  generalize d.toNat = k at hb hd
  obtain ⟨h1, h2⟩ := hb
  interval_cases k <;> (subst hd; decide)

theorem toDigitsCore_append (f n : Nat) (ds : List Char) :
    Nat.toDigitsCore 10 f n ds = Nat.toDigitsCore 10 f n [] ++ ds := by
  induction f generalizing n ds with
  | zero => simp [Nat.toDigitsCore]
  | succ f ih =>
    simp only [Nat.toDigitsCore]
    split
    · simp
    · rw [ih (n / 10) (Nat.digitChar (n % 10) :: ds), ih (n / 10) [Nat.digitChar (n % 10)]]
      simp

theorem digitsValue_toDigitsCore (f : Nat) : ∀ (n : Nat), n < f → ∀ (ds : List Char),
    ∃ k, ∀ acc, digitsValue acc (Nat.toDigitsCore 10 f n ds)
      = digitsValue (acc * 10 ^ k + n) ds := by
  induction f with
  | zero => intro n h; omega
  | succ f ih =>
    intro n hn ds
    have hd := digitChar_spec (n % 10) (Nat.mod_lt _ (by decide))
    simp only [Nat.toDigitsCore]
    split
    · rename_i h0
      refine ⟨1, fun acc => ?_⟩
      simp only [digitsValue, hd.1, if_true, hd.2]
      congr 1
      omega
    · rename_i h0
      obtain ⟨k, hk⟩ := ih (n / 10) (by omega) (Nat.digitChar (n % 10) :: ds)
      refine ⟨k + 1, fun acc => ?_⟩
      rw [hk acc]
      simp only [digitsValue, hd.1, if_true, hd.2]
      congr 1
      rw [pow_succ]
      have := Nat.div_add_mod n 10
      nlinarith [this]

theorem toDigitsCore_head (f : Nat) : ∀ (n : Nat) (ds : List Char),
    (0 < f ∨ ∃ d rest, ds = d :: rest ∧ d.isDigit = true) →
    ∃ d rest, Nat.toDigitsCore 10 f n ds = d :: rest ∧ d.isDigit = true := by
  induction f with
  | zero =>
    intro n ds h
    rcases h with h | h
    · omega
    · simpa [Nat.toDigitsCore] using h
  | succ f ih =>
    intro n ds _
    have hd := digitChar_spec (n % 10) (Nat.mod_lt _ (by decide))
    simp only [Nat.toDigitsCore]
    split
    · exact ⟨_, _, rfl, hd.1⟩
    · exact ih (n / 10) _ (Or.inr ⟨_, _, rfl, hd.1⟩)

theorem numeral_eq (i : Nat) : numeral i = Nat.toDigitsCore 10 (i + 1) i [] := rfl

theorem numeral_head (i : Nat) : ∃ d rest, numeral i = d :: rest ∧ d.isDigit = true :=
  toDigitsCore_head (i + 1) i [] (Or.inl (Nat.succ_pos i))

theorem digitsValue_numeral (i : Nat) (ds : List Char) :
    digitsValue 0 (numeral i ++ ds) = digitsValue i ds := by
  rw [numeral_eq, ← toDigitsCore_append]
  obtain ⟨k, hk⟩ := digitsValue_toDigitsCore (i + 1) i (Nat.lt_succ_self i) ds
  rw [hk 0, Nat.zero_mul, Nat.zero_add]

theorem scanInteger_numeral (i : Nat) (ds : List Char)
    (hds : ∀ d rest, ds = d :: rest → d.isDigit = false) :
    scanInteger (numeral i ++ ds) = some (i : Int) := by
  have hv := digitsValue_numeral i ds
  obtain ⟨d, rest, hd, hdig⟩ := numeral_head i
  obtain ⟨hsp, hm, hp, -⟩ := isDigit_facts d hdig
  have hval : digitsValue i ds = i := by
    cases ds with
    | nil => rfl
    | cons c cs => simp [digitsValue, hds c cs rfl]
  rw [hd] at hv ⊢
  simp only [List.cons_append] at hv ⊢
  simp only [scanInteger, skipSpace, hsp, Bool.false_eq_true, if_false, hm, hp, hdig, if_true,
    hv, hval]

theorem strcmpiEq_digit (d : Char) (rest name : List Char) (hd : d.isDigit = true)
    (hn : (firstChar (name.map Char.toLower)).isAlpha = true) :
    strcmpiEq (d :: rest) name = false := by
  cases h : strcmpiEq (d :: rest) name with
  | false => rfl
  | true =>
    exfalso
    simp only [strcmpiEq, List.map_cons, beq_iff_eq] at h
    rw [← h] at hn
    have hf := isDigit_facts d hd
    rw [show firstChar (d.toLower :: List.map Char.toLower rest) = d.toLower from rfl,
      hf.2.2.2.2.2.2.1, hf.2.2.2.2.2.2.2] at hn
    exact absurd hn (by decide)

theorem evalToken_digit {T : Type} (dbg : Bool) (A : Arith T) (I : InternalCounterType)
    (results : List (List Nat)) (resultType : GPA_Type) (pHwInfo : Option GPA_HWInfo)
    (stack : List T) (d : Char) (rest : List Char) (hd : d.isDigit = true) :
    evalToken dbg A I results resultType pHwInfo (d :: rest) stack
      = counterToken dbg A I results (d :: rest) stack := by
  obtain ⟨-, hminus, hplus, hmul, hdiv, hparen, -⟩ := isDigit_facts d hd
  have hf : firstChar (d :: rest) = d := rfl
  have e : ∀ name : List Char, (firstChar (name.map Char.toLower)).isAlpha = true →
      strcmpiEq (d :: rest) name = false := fun name hn => strcmpiEq_digit d rest name hd hn
  unfold evalToken
  rw [hf, if_neg hmul, if_neg hdiv, if_neg hplus, if_neg hminus, if_neg hparen]
  simp only [
    e "num_shader_engines".toList (by decide),
    e "num_simds".toList (by decide),
    e "su_clocks_prim".toList (by decide),
    e "num_prim_pipes".toList (by decide),
    e "TS_FREQ".toList (by decide),
    e "max".toList (by decide),
    e "max16".toList (by decide),
    e "max32".toList (by decide),
    e "max44".toList (by decide),
    e "max64".toList (by decide),
    e "min".toList (by decide),
    e "ifnotzero".toList (by decide),
    e "sum4".toList (by decide),
    e "sum8".toList (by decide),
    e "sum10".toList (by decide),
    e "sum11".toList (by decide),
    e "sum12".toList (by decide),
    e "sum16".toList (by decide),
    e "sum32".toList (by decide),
    e "sum44".toList (by decide),
    e "sum64".toList (by decide),
    Bool.false_eq_true, if_false]

/-! ## Raw samples, constants and the final check -/

theorem scanIndex_numeral (i : Nat) (hi : i < 2 ^ 31) : scanIndex (numeral i) = .ok (some i) := by
  have h := scanInteger_numeral i [] (by intro d rest h; cases h)
  rw [List.append_nil] at h
  have h1 : -(2 : Int) ^ 31 ≤ (i : Int) ∧ (i : Int) < 2 ^ 31 := by
    constructor
    · have : (0 : Int) ≤ (i : Int) := Int.ofNat_nonneg i
      omega
    · exact_mod_cast hi
  have h2 : ((i : Int) % 2 ^ 32).toNat = i := by
    rw [Int.emod_eq_of_lt (Int.ofNat_nonneg i) (by omega)]
    exact Int.toNat_ofNat i
  simp only [scanIndex, h, h1, and_self, if_true, h2]

theorem counterToken_numeral {T : Type} (dbg : Bool) (A : Arith T) (I : InternalCounterType)
    (results : List (List Nat)) (stack : List T) (i : Nat) (blob : List Nat)
    (hi : i < 2 ^ 31) (hblob : results.get? i = some blob) (hsz : I.sizeof ≤ blob.length) :
    counterToken dbg A I results (numeral i) stack
      = .ok (stack ++ [A.cast (littleEndian (blob.take I.sizeof))]) := by
  have hlt : i < results.length := by
    rcases Nat.lt_or_ge i results.length with h | h
    · exact h
    · rw [List.get?_eq_none.2 h] at hblob
      cases hblob
  simp only [counterToken, scanIndex_numeral i hi, except_ok_bind, Option.isSome_some,
    assertThat_true, hlt, decide_True, hblob, readRaw, hsz, if_true, except_pure]

theorem evalToken_numeral {T : Type} (dbg : Bool) (A : Arith T) (I : InternalCounterType)
    (results : List (List Nat)) (resultType : GPA_Type) (pHwInfo : Option GPA_HWInfo)
    (stack : List T) (i : Nat) :
    evalToken dbg A I results resultType pHwInfo (numeral i) stack
      = counterToken dbg A I results (numeral i) stack := by
  obtain ⟨d, rest, hd, hdig⟩ := numeral_head i
  rw [hd]
  exact evalToken_digit dbg A I results resultType pHwInfo stack d rest hdig

theorem dispatchDataType_ok (dbg : Bool) (I : InternalCounterType)
    (counter : GPA_PublicCounter) (pExpression : List Char) (call : EvaluateCall)
    (h : dispatchDataType dbg I counter pExpression = .ok (some call)) :
    call.I = I ∧ call.resultType = counter.m_dataType ∧ call.pExpression = pExpression := by
  unfold dispatchDataType at h
  split at h
  · cases h; simp [*]
  split at h
  · cases h; simp [*]
  split at h
  · cases h; simp [*]
  split at h
  · cases h; simp [*]
  split at h
  · cases h; simp [*]
  split at h
  · cases h; simp [*]
  · cases dbg <;> simp at h

theorem ComputeCounterValue_storage (dbg : Bool) (self : GPA_PublicCounters)
    (counterIndex : Nat) (internalCounterTypes : List GPA_Type) (call : EvaluateCall)
    (h : ComputeCounterValue dbg self counterIndex internalCounterTypes = .ok (some call)) :
    ∃ first, internalCounterTypes.get? 0 = some first
      ∧ ((first = GPA_Type.UINT64 ∧ call.I = InternalCounterType.gpa_uint64)
        ∨ (first = GPA_Type.UINT32 ∧ call.I = InternalCounterType.gpa_uint32)) := by
  unfold ComputeCounterValue at h
  split at h
  · cases h
  · split at h
    · split at h
      · cases h
      · rename_i first hfirst
        refine ⟨first, hfirst, ?_⟩
        split at h
        · rename_i h64
          exact Or.inl ⟨h64, (dispatchDataType_ok _ _ _ _ _ h).1⟩
        · split at h
          · rename_i h32
            exact Or.inr ⟨h32, (dispatchDataType_ok _ _ _ _ _ h).1⟩
          · cases h
    · cases dbg <;> simp at h

theorem declaredValue_of_storage (first : GPA_Type) (I : InternalCounterType)
    (blob : List Nat)
    (h : (first = GPA_Type.UINT64 ∧ I = InternalCounterType.gpa_uint64)
      ∨ (first = GPA_Type.UINT32 ∧ I = InternalCounterType.gpa_uint32)) :
    declaredValue first blob = some (littleEndian (blob.take I.sizeof)) := by
  rcases h with ⟨h1, h2⟩ | ⟨h1, h2⟩ <;> subst h1 <;> subst h2 <;> rfl

/-- C8, the claim as stated fails: with a 32-bit first sample and a 64-bit second sample
holding `2 ^ 32 + 5`, the dispatch selects the 32-bit storage type for the whole vector
and the token `1` pushes 5, not the second sample read as the 64-bit integer it is
declared to be. -/
theorem C8_counterexample :
    ComputeCounterValue false
        ⟨[⟨0, some "c".toList, some "d".toList, GPA_Type.UINT64, 0, GPA_CounterType.valid 0,
            [0, 1], some "1".toList⟩], false⟩
        0 [GPA_Type.UINT32, GPA_Type.UINT64]
        = .ok (some ⟨GPA_Type.UINT64, InternalCounterType.gpa_uint32, "1".toList⟩)
    ∧ evalToken false (uintArith 64) InternalCounterType.gpa_uint32
        [bytesOf 4 1, bytesOf 8 (2 ^ 32 + 5)] GPA_Type.UINT64 none (numeral 1) []
        = .ok [5]
    ∧ declaredValue GPA_Type.UINT64 (bytesOf 8 (2 ^ 32 + 5)) = some (2 ^ 32 + 5)
    ∧ (uintArith 64).cast (2 ^ 32 + 5) ≠ 5 := by
  decide

/-- C8, amended: for a decimal index `i` below `2 ^ 31` that is within the raw sample
vector, the token pushes the sample at index `i` read as the unsigned integer type that
the FIRST sample is declared to have (the storage type `ComputeCounterValue` selected for
the whole call), converted to the result type; the sample is thus read as its own
declared type exactly when it shares the first sample's. -/
theorem C8_raw_index {T : Type} (dbg : Bool) (A : Arith T) (self : GPA_PublicCounters)
    (counterIndex : Nat) (internalCounterTypes : List GPA_Type) (call : EvaluateCall)
    (results : List (List Nat)) (pHwInfo : Option GPA_HWInfo) (stack : List T) (i : Nat)
    (blob : List Nat)
    (hcall : ComputeCounterValue dbg self counterIndex internalCounterTypes
      = .ok (some call))
    (hi : i < 2 ^ 31) (hblob : results.get? i = some blob)
    (hsz : call.I.sizeof ≤ blob.length) :
    ∃ first v, internalCounterTypes.get? 0 = some first
      ∧ declaredValue first blob = some v
      ∧ evalToken dbg A call.I results call.resultType pHwInfo (numeral i) stack
          = .ok (stack ++ [A.cast v]) := by
  obtain ⟨first, hfirst, hst⟩ :=
    ComputeCounterValue_storage dbg self counterIndex internalCounterTypes call hcall
  refine ⟨first, littleEndian (blob.take call.I.sizeof), hfirst,
    declaredValue_of_storage first call.I blob hst, ?_⟩
  rw [evalToken_numeral]
  exact counterToken_numeral dbg A call.I results stack i blob hi hblob hsz

/-- C8 at an instance: the token `1` over two 64-bit samples, evaluated in `gpa_int32`. -/
theorem C8_witness :
    ∃ first v, [GPA_Type.UINT64, GPA_Type.UINT64].get? 0 = some first
      ∧ declaredValue first (bytesOf 8 2) = some v
      ∧ evalToken true (sintArith 32)
          (EvaluateCall.mk GPA_Type.INT32 InternalCounterType.gpa_uint64 "0 1 /".toList).I
          [bytesOf 8 10, bytesOf 8 2]
          (EvaluateCall.mk GPA_Type.INT32 InternalCounterType.gpa_uint64
            "0 1 /".toList).resultType
          none (numeral 1) [10]
          = .ok ([10] ++ [(sintArith 32).cast v]) :=
  C8_raw_index true (sintArith 32)
    ⟨[⟨0, some "c".toList, some "d".toList, GPA_Type.INT32, 0, GPA_CounterType.valid 0,
        [0, 1], some "0 1 /".toList⟩], false⟩
    0 [GPA_Type.UINT64, GPA_Type.UINT64]
    ⟨GPA_Type.INT32, InternalCounterType.gpa_uint64, "0 1 /".toList⟩
    [bytesOf 8 10, bytesOf 8 2] none [10] 1 (bytesOf 8 2)
    (by decide) (by decide) (by decide) (by decide)

/-- C9: with result type `uint32` (`uint64`) the token `(n)`, `n` a decimal numeral below
`2 ^ 32` (`2 ^ 64`), pushes exactly `n` and leaves the stack below it alone, whatever the
raw sample vector holds. -/
theorem C9_constant_literal (dbg : Bool) (I : InternalCounterType)
    (results : List (List Nat)) (pHwInfo : Option GPA_HWInfo) (stack : List Nat) (n : Nat) :
    (n < 2 ^ 32 →
      evalToken dbg (uintArith 32) I results GPA_Type.UINT32 pHwInfo
        ("(".toList ++ numeral n ++ ")".toList) stack = .ok (stack ++ [n]))
    ∧ (n < 2 ^ 64 →
      evalToken dbg (uintArith 64) I results GPA_Type.UINT64 pHwInfo
        ("(".toList ++ numeral n ++ ")".toList) stack = .ok (stack ++ [n])) := by
  have hscan : ∀ w : Nat, n < 2 ^ w →
      scanUnsigned w ("(".toList ++ numeral n ++ ")".toList) = .ok (some n) := by
    intro w hn
    have h : scanInteger (("(".toList ++ numeral n ++ ")".toList).drop 1)
        = some (n : Int) :=
      scanInteger_numeral n ")".toList (by
        intro d rest h
        have h' : (')' : Char) :: [] = d :: rest := h
        cases h'
        decide)
    have h2 : ((n : Int) % 2 ^ w).toNat = n := by
      rw [Int.emod_eq_of_lt (Int.ofNat_nonneg n) (by exact_mod_cast hn)]
      exact Int.toNat_ofNat n
    have h3 : (n : Int).natAbs < 2 ^ w := by simpa using hn
    simp only [scanUnsigned, h, h3, if_true, h2]
  have hbranch : ∀ (w : Nat) (rt : GPA_Type),
      evalToken dbg (uintArith w) I results rt pHwInfo
        ("(".toList ++ numeral n ++ ")".toList) stack
        = constantToken dbg (uintArith w) rt ("(".toList ++ numeral n ++ ")".toList)
            stack := by
    intro w rt
    have hf : firstChar ("(".toList ++ numeral n ++ ")".toList) = '(' := rfl
    unfold evalToken
    rw [hf, if_neg (by decide), if_neg (by decide), if_neg (by decide), if_neg (by decide),
      if_pos rfl]
  constructor
  · intro hn
    rw [hbranch]
    simp only [constantToken, hscan 32 hn]
    simp [uintArith]
  · intro hn
    rw [hbranch]
    simp only [constantToken, hscan 64 hn]
    simp [uintArith]

/-- C9 at an instance: the token `(4294967295)` in `gpa_uint32`. -/
theorem C9_witness :
    evalToken true (uintArith 32) InternalCounterType.gpa_uint64 [] GPA_Type.UINT32 none
      ("(".toList ++ numeral 4294967295 ++ ")".toList) [1, 2] = .ok ([1, 2] ++ [4294967295]) :=
  (C9_constant_literal true InternalCounterType.gpa_uint64 [] none [1, 2] 4294967295).1
    (by decide)

/-- C10, the claim as stated fails: with assertions compiled out, the formula `0 1` over
the raw samples 10 and 2 ends with two values on the stack, the error is logged, and yet
the top value 2 is stored as the result. -/
theorem C10_counterexample :
    evalTokens false (uintArith 64) InternalCounterType.gpa_uint64
        [bytesOf 8 10, bytesOf 8 2] GPA_Type.UINT64 (some ⟨4, 40, 6, 2, 27000000⟩)
        (strtok "0 1".toList) [] = .ok [10, 2]
    ∧ EvaluateExpression false (uintArith 64) InternalCounterType.gpa_uint64 "0 1".toList
        [bytesOf 8 10, bytesOf 8 2] GPA_Type.UINT64 (some ⟨4, 40, 6, 2, 27000000⟩)
        = ⟨some "Invalid formula: 0 1.".toList, .ok 2⟩ := by
  constructor <;> rfl

/-- C10, amended: when the token loop ends with exactly one value on the stack, that
value is the result and nothing is logged; when it ends with any other depth, the message
`Invalid formula: <formula>.` is logged, and with assertions compiled in no value is
returned (the final assertion fails), while with assertions compiled out the top of a
non-empty stack is still stored as the result. -/
theorem C10_final_stack {T : Type} (dbg : Bool) (A : Arith T) (I : InternalCounterType)
    (pExpression : List Char) (results : List (List Nat)) (resultType : GPA_Type)
    (hw : GPA_HWInfo) (stack : List T)
    (h : evalTokens dbg A I results resultType (some hw) (strtok pExpression) []
      = .ok stack) :
    (∀ v, stack = [v] →
      EvaluateExpression dbg A I pExpression results resultType (some hw) = ⟨none, .ok v⟩)
    ∧ (stack.length ≠ 1 →
      (EvaluateExpression dbg A I pExpression results resultType (some hw)).logged
          = some ("Invalid formula: ".toList ++ pExpression ++ ".".toList)
      ∧ (dbg = true →
        (EvaluateExpression dbg A I pExpression results resultType (some hw)).written
          = .error .assertion)
      ∧ (dbg = false → ∀ s v, stack = s ++ [v] →
        (EvaluateExpression dbg A I pExpression results resultType (some hw)).written
          = .ok v)) := by
  constructor
  · intro v hv
    rw [hv] at h
    exact EvaluateExpression_of_stack dbg A I pExpression results resultType hw v h
  · intro hlen
    simp only [EvaluateExpression, Option.isSome_some, assertThat_true, h]
    refine ⟨?_, ?_, ?_⟩
    · simp [hlen]
    · intro hd
      subst hd
      simp [assertThat, hlen]
    · intro hd s v hs
      subst hd
      subst hs
      simp

/-- C10 at an instance: the formula `0 1` with assertions compiled in. -/
theorem C10_witness :
    (EvaluateExpression true (uintArith 64) InternalCounterType.gpa_uint64 "0 1".toList
        [bytesOf 8 10, bytesOf 8 2] GPA_Type.UINT64 (some ⟨4, 40, 6, 2, 27000000⟩)).logged
        = some ("Invalid formula: ".toList ++ "0 1".toList ++ ".".toList)
    ∧ (EvaluateExpression true (uintArith 64) InternalCounterType.gpa_uint64 "0 1".toList
        [bytesOf 8 10, bytesOf 8 2] GPA_Type.UINT64 (some ⟨4, 40, 6, 2, 27000000⟩)).written
        = .error .assertion :=
  ⟨((C10_final_stack true (uintArith 64) InternalCounterType.gpa_uint64 "0 1".toList
      [bytesOf 8 10, bytesOf 8 2] GPA_Type.UINT64 ⟨4, 40, 6, 2, 27000000⟩ [10, 2]
      (by decide)).2 (by decide)).1,
    ((C10_final_stack true (uintArith 64) InternalCounterType.gpa_uint64 "0 1".toList
      [bytesOf 8 10, bytesOf 8 2] GPA_Type.UINT64 ⟨4, 40, 6, 2, 27000000⟩ [10, 2]
      (by decide)).2 (by decide)).2.1 rfl⟩

/-! ## Too few operands -/

theorem assertThat_debug_of_false (c : Bool) (h : c = false) :
    assertThat true c = .error .assertion := by
  rw [h]; rfl

theorem binaryOp_short {T : Type} (f : T → T → T) (stack : List T) (h : stack.length < 2) :
    binaryOp true f stack = .error .assertion := by
  have hc : decide (stack.length ≥ 2) = false := by simpa using h
  simp only [binaryOp, assertThat_debug_of_false _ hc, except_error_bind]

theorem divideOp_short {T : Type} (A : Arith T) (stack : List T) (h : stack.length < 2) :
    divideOp true A stack = .error .assertion := by
  have hc : decide (stack.length ≥ 2) = false := by simpa using h
  simp only [divideOp, assertThat_debug_of_false _ hc, except_error_bind]

theorem ifNotZero_short {T : Type} (A : Arith T) (stack : List T) (h : stack.length < 3) :
    ifNotZero true A stack = .error .assertion := by
  have hc : decide (stack.length ≥ 3) = false := by simpa using h
  simp only [ifNotZero, assertThat_debug_of_false _ hc, except_error_bind]

theorem sumN_short {T : Type} (A : Arith T) (n : Nat) (stack : List T)
    (h : stack.length < n) : sumN true A n stack = .error .assertion := by
  have hc : decide (stack.length ≥ n) = false := by simpa using h
  simp only [sumN, assertThat_debug_of_false _ hc, except_error_bind]

theorem maxN_short {T : Type} (A : Arith T) (n : Nat) (stack : List T)
    (h : stack.length < n) : maxN true A n stack = .error .assertion := by
  have hc : decide (stack.length ≥ n) = false := by simpa using h
  simp only [maxN, assertThat_debug_of_false _ hc, except_error_bind]

theorem EvaluateExpression_of_fault {T : Type} (dbg : Bool) (A : Arith T)
    (I : InternalCounterType) (pExpression : List Char) (results : List (List Nat))
    (resultType : GPA_Type) (hw : GPA_HWInfo) (e : Fault)
    (h : evalTokens dbg A I results resultType (some hw) (strtok pExpression) [] = .error e) :
    EvaluateExpression dbg A I pExpression results resultType (some hw) = ⟨none, .error e⟩ := by
  simp only [EvaluateExpression, Option.isSome_some, assertThat_true, h]

/-- C11, the claim as stated fails: with assertions compiled out nothing stops the token
`+` on a one-value stack; the first pop empties the stack and the second one is `back()`
on an empty vector, which is undefined. -/
theorem C11_counterexample :
    popBack [1] = .ok (1, [])
    ∧ popBack ([] : List Nat) = .error .undefined
    ∧ evalToken false (uintArith 32) InternalCounterType.gpa_uint32 [] GPA_Type.UINT32 none
        "+".toList [1] = .error .undefined
    ∧ evalToken false (uintArith 32) InternalCounterType.gpa_uint32 [] GPA_Type.UINT32 none
        (sumToken 4) [1, 2, 3] = .error .undefined := by
  decide

/-- C11, amended: with assertions compiled in, every operator or aggregator token applied
to a stack that holds fewer values than it requires (2 for `* / + - max min`, 3 for
`ifnotzero`, `N` for `sumN` and `maxN`) fails at its depth assertion, before any value is
popped and without producing a value, and the whole evaluation then ends in that failure
without a result. -/
theorem C11_underflow {T : Type} (A : Arith T) (I : InternalCounterType)
    (results : List (List Nat)) (resultType : GPA_Type) (hw : GPA_HWInfo)
    (stack : List T) :
    (stack.length < 2 →
      evalToken true A I results resultType (some hw) "*".toList stack = .error .assertion
      ∧ evalToken true A I results resultType (some hw) "/".toList stack = .error .assertion
      ∧ evalToken true A I results resultType (some hw) "+".toList stack = .error .assertion
      ∧ evalToken true A I results resultType (some hw) "-".toList stack = .error .assertion
      ∧ evalToken true A I results resultType (some hw) "max".toList stack
          = .error .assertion
      ∧ evalToken true A I results resultType (some hw) "min".toList stack
          = .error .assertion)
    ∧ (stack.length < 3 →
      evalToken true A I results resultType (some hw) "ifnotzero".toList stack
        = .error .assertion)
    ∧ (∀ N ∈ sumWidths, stack.length < N →
      evalToken true A I results resultType (some hw) (sumToken N) stack
        = .error .assertion)
    ∧ (∀ N ∈ maxWidths, stack.length < N →
      evalToken true A I results resultType (some hw) (maxToken N) stack
        = .error .assertion)
    ∧ (∀ (pExpression : List Char) (before after : List (List Char)) (pch : List Char),
      strtok pExpression = before ++ pch :: after →
      evalTokens true A I results resultType (some hw) before [] = .ok stack →
      evalToken true A I results resultType (some hw) pch stack = .error .assertion →
      EvaluateExpression true A I pExpression results resultType (some hw)
        = ⟨none, .error .assertion⟩) := by
  refine ⟨?_, ?_, ?_, ?_, ?_⟩
  · intro h
    refine ⟨?_, ?_, ?_, ?_, ?_, ?_⟩
    · rw [evalToken_mul]; exact binaryOp_short _ stack h
    · rw [evalToken_div]; exact divideOp_short A stack h
    · rw [evalToken_add]; exact binaryOp_short _ stack h
    · rw [evalToken_sub]; exact binaryOp_short _ stack h
    · rw [evalToken_max]; exact binaryOp_short _ stack h
    · rw [evalToken_min]; exact binaryOp_short _ stack h
  · intro h
    rw [evalToken_ifnotzero]; exact ifNotZero_short A stack h
  · intro N hN h
    rw [evalToken_sumToken true A I results resultType (some hw) stack N hN]
    exact sumN_short A N stack h
  · intro N hN h
    rw [evalToken_maxToken true A I results resultType (some hw) stack N hN]
    exact maxN_short A N stack h
  · intro pExpression before after pch hs hb hp
    apply EvaluateExpression_of_fault
    rw [hs, evalTokens_append, hb]
    simp only [except_ok_bind, evalTokens, hp, except_error_bind]

/-- C11 at an instance: the formula `0 +` over one raw sample, with assertions compiled
in. -/
theorem C11_witness :
    evalToken true (uintArith 32) InternalCounterType.gpa_uint32 [bytesOf 4 7] GPA_Type.UINT32
        (some ⟨4, 40, 6, 2, 27000000⟩) "+".toList [7] = .error .assertion
    ∧ EvaluateExpression true (uintArith 32) InternalCounterType.gpa_uint32 "0 +".toList
        [bytesOf 4 7] GPA_Type.UINT32 (some ⟨4, 40, 6, 2, 27000000⟩)
        = ⟨none, .error .assertion⟩ :=
  ⟨((C11_underflow (uintArith 32) InternalCounterType.gpa_uint32 [bytesOf 4 7]
      GPA_Type.UINT32 ⟨4, 40, 6, 2, 27000000⟩ [7]).1 (by decide)).2.2.1,
    (C11_underflow (uintArith 32) InternalCounterType.gpa_uint32 [bytesOf 4 7]
      GPA_Type.UINT32 ⟨4, 40, 6, 2, 27000000⟩ [7]).2.2.2.2 "0 +".toList ["0".toList] []
      "+".toList (by decide) (by decide) (by decide)⟩

/-! ## Indices outside the raw sample vector -/

theorem counterToken_in_range {T : Type} (dbg : Bool) (A : Arith T) (I : InternalCounterType)
    (results : List (List Nat)) (pch : List Char) (stack out : List T)
    (h : counterToken dbg A I results pch stack = .ok out) :
    (∃ index blob v, index < results.length ∧ results.get? index = some blob
        ∧ readRaw I blob = .ok v ∧ out = stack ++ [A.cast v])
      ∨ (dbg = false ∧ out = stack ++ [A.cast 0]) := by
  unfold counterToken at h
  cases hs : scanIndex pch with
  | error e => rw [hs] at h; cases h
  | ok scanned =>
    rw [hs] at h
    simp only [except_ok_bind] at h
    cases scanned with
    | none =>
      cases dbg <;> simp [assertThat] at h
    | some index =>
      simp only [Option.isSome_some, assertThat_true, except_ok_bind] at h
      cases hg : results.get? index with
      | some blob =>
        have hlt : index < results.length := by
          rcases Nat.lt_or_ge index results.length with h1 | h1
          · exact h1
          · rw [List.get?_eq_none.2 h1] at hg; cases hg
        simp only [hlt, decide_True, assertThat_true, except_ok_bind, hg] at h
        cases hr : readRaw I blob with
        | error e => rw [hr] at h; cases h
        | ok v =>
          rw [hr] at h
          simp only [except_ok_bind, except_pure, Except.ok.injEq] at h
          exact Or.inl ⟨index, blob, v, hlt, hg, hr, h.symm⟩
      | none =>
        rw [hg] at h
        cases dbg with
        | true =>
          have hge : ¬ index < results.length := by
            intro h1
            have := List.get?_eq_none.1 hg
            omega
          simp [assertThat, hge] at h
        | false =>
          simp only [assertThat_release, except_ok_bind, except_pure, Except.ok.injEq] at h
          exact Or.inr ⟨rfl, h.symm⟩

theorem counterToken_beyond {T : Type} (A : Arith T) (I : InternalCounterType)
    (results : List (List Nat)) (stack : List T) (i : Nat) (hi : results.length ≤ i)
    (h31 : i < 2 ^ 31) :
    counterToken true A I results (numeral i) stack = .error .assertion
      ∧ counterToken false A I results (numeral i) stack = .ok (stack ++ [A.cast 0]) := by
  have hge : ¬ i < results.length := by omega
  have hg : results.get? i = none := List.get?_eq_none.2 hi
  have hd : decide (i < results.length) = false := by simpa using hi
  constructor
  · simp only [counterToken, scanIndex_numeral i h31, except_ok_bind, Option.isSome_some,
      assertThat_true, assertThat_debug_of_false _ hd, except_error_bind]
  · simp only [counterToken, scanIndex_numeral i h31, except_ok_bind, Option.isSome_some,
      assertThat_release, hg, except_pure]

/-- C12, the claim as stated fails: the token `4294967297` is a plain integer at or beyond
the length of a vector of two raw samples, yet it is not treated as out of range.  The
index is read with `%d` into an `int`-sized object, the number does not fit, and the
conversion is undefined: the token comes neither to the range assertion nor to the
fallback value 0, with assertions compiled in or out. -/
theorem C12_counterexample :
    numeral 4294967297 = "4294967297".toList
    ∧ [bytesOf 8 10, bytesOf 8 2].length ≤ 4294967297
    ∧ scanInteger "4294967297".toList = some 4294967297
    ∧ ¬ ((4294967297 : Int) < 2 ^ 31)
    ∧ scanIndex "4294967297".toList = .error .undefined
    ∧ evalToken true (uintArith 64) InternalCounterType.gpa_uint64
        [bytesOf 8 10, bytesOf 8 2] GPA_Type.UINT64 none "4294967297".toList [5]
        = .error .undefined
    ∧ evalToken false (uintArith 64) InternalCounterType.gpa_uint64
        [bytesOf 8 10, bytesOf 8 2] GPA_Type.UINT64 none "4294967297".toList [5]
        = .error .undefined := by
  refine ⟨by decide, by decide, by decide, by decide, by decide, by decide, by decide⟩

/-- C12, amended: a plain-integer token whose index, a decimal numeral below `2 ^ 31`, is
at or beyond the length of the raw sample vector reads no sample: with assertions compiled
in the range assertion fails, with assertions compiled out the token pushes the value 0;
and whatever the token, a value pushed by the counter branch is either that fallback or
the conversion of a sample whose index is inside the vector. -/
theorem C12_index_out_of_range {T : Type} (A : Arith T) (I : InternalCounterType)
    (results : List (List Nat)) (resultType : GPA_Type) (pHwInfo : Option GPA_HWInfo)
    (stack : List T) (i : Nat) (hi : results.length ≤ i) (h31 : i < 2 ^ 31) :
    evalToken true A I results resultType pHwInfo (numeral i) stack = .error .assertion
    ∧ evalToken false A I results resultType pHwInfo (numeral i) stack
        = .ok (stack ++ [A.cast 0])
    ∧ (∀ (dbg : Bool) (pch : List Char) (out : List T),
        counterToken dbg A I results pch stack = .ok out →
        (∃ index blob v, index < results.length ∧ results.get? index = some blob
            ∧ readRaw I blob = .ok v ∧ out = stack ++ [A.cast v])
          ∨ (dbg = false ∧ out = stack ++ [A.cast 0])) := by
  refine ⟨?_, ?_, ?_⟩
  · rw [evalToken_numeral]
    exact (counterToken_beyond A I results stack i hi h31).1
  · rw [evalToken_numeral]
    exact (counterToken_beyond A I results stack i hi h31).2
  · intro dbg pch out h
    exact counterToken_in_range dbg A I results pch stack out h

/-- C12 at an instance: the token `2` over a vector of two raw samples. -/
theorem C12_witness :
    evalToken true (uintArith 64) InternalCounterType.gpa_uint64 [bytesOf 8 10, bytesOf 8 2]
        GPA_Type.UINT64 none (numeral 2) [5] = .error .assertion
    ∧ evalToken false (uintArith 64) InternalCounterType.gpa_uint64
        [bytesOf 8 10, bytesOf 8 2] GPA_Type.UINT64 none (numeral 2) [5]
        = .ok ([5] ++ [(uintArith 64).cast 0]) :=
  ⟨(C12_index_out_of_range (uintArith 64) InternalCounterType.gpa_uint64
      [bytesOf 8 10, bytesOf 8 2] GPA_Type.UINT64 none [5] 2 (by decide) (by decide)).1,
    (C12_index_out_of_range (uintArith 64) InternalCounterType.gpa_uint64
      [bytesOf 8 10, bytesOf 8 2] GPA_Type.UINT64 none [5] 2 (by decide) (by decide)).2.1⟩

/-! ## Type combinations without an instantiation -/

theorem dispatchDataType_beyondLast (dbg : Bool) (I : InternalCounterType)
    (counter : GPA_PublicCounter) (pExpression : List Char) (k : Nat)
    (h : counter.m_dataType = GPA_Type.beyondLast k) :
    dispatchDataType dbg I counter pExpression
      = (if dbg then .error .assertion else .ok none) := by
  cases dbg <;> simp [dispatchDataType, h, assertThat]

/-- C13, the claim as stated fails: with assertions compiled out an out-of-range result
type makes `ComputeCounterValue` return without a call and without any signal; and when
the first raw type is `FLOAT32` it does so even with assertions compiled in, because the
chain on the storage type has no final `else`. -/
theorem C13_counterexample :
    ComputeCounterValue false
        ⟨[⟨0, some "c".toList, some "d".toList, GPA_Type.beyondLast 0, 0,
            GPA_CounterType.valid 0, [0], some "0".toList⟩], false⟩
        0 [GPA_Type.UINT32] = .ok none
    ∧ ComputeCounterValue true
        ⟨[⟨0, some "c".toList, some "d".toList, GPA_Type.UINT64, 0,
            GPA_CounterType.valid 0, [0], some "0".toList⟩], false⟩
        0 [GPA_Type.FLOAT32] = .ok none := by
  decide

/-- C13, amended: for a counter with a formula, whenever the first raw type is neither
`UINT32` nor `UINT64` or the result type is out of range, `ComputeCounterValue` makes no
call of `EvaluateExpression`; for an out-of-range result type under a supported storage
type it stops at `assert(false)` when assertions are compiled in, and returns without
writing the output when they are compiled out. -/
theorem C13_unsupported_dispatch (dbg : Bool) (self : GPA_PublicCounters)
    (counterIndex : Nat) (counter : GPA_PublicCounter) (internalCounterTypes : List GPA_Type)
    (first : GPA_Type) (pExpression : List Char)
    (hc : self.m_counters.get? counterIndex = some counter)
    (he : counter.m_pComputeExpression = some pExpression)
    (hf : internalCounterTypes.get? 0 = some first) :
    (((first ≠ GPA_Type.UINT64 ∧ first ≠ GPA_Type.UINT32)
        ∨ ∃ k, counter.m_dataType = GPA_Type.beyondLast k) →
      ∀ call, ComputeCounterValue dbg self counterIndex internalCounterTypes
        ≠ .ok (some call))
    ∧ ((first = GPA_Type.UINT64 ∨ first = GPA_Type.UINT32) →
      (∃ k, counter.m_dataType = GPA_Type.beyondLast k) →
      ComputeCounterValue true self counterIndex internalCounterTypes = .error .assertion
      ∧ ComputeCounterValue false self counterIndex internalCounterTypes = .ok none) := by
  have hunfold : ∀ d, ComputeCounterValue d self counterIndex internalCounterTypes
      = (if first = GPA_Type.UINT64 then
          dispatchDataType d InternalCounterType.gpa_uint64 counter pExpression
        else if first = GPA_Type.UINT32 then
          dispatchDataType d InternalCounterType.gpa_uint32 counter pExpression
        else .ok none) := by
    intro d
    simp only [ComputeCounterValue, hc, he, hf]
  constructor
  · intro h call hcall
    rw [hunfold] at hcall
    rcases h with ⟨h64, h32⟩ | ⟨k, hk⟩
    · rw [if_neg h64, if_neg h32] at hcall
      cases hcall
    · simp only [dispatchDataType_beyondLast _ _ counter pExpression k hk] at hcall
      cases dbg <;> (split at hcall <;> [skip; split at hcall]) <;> simp at hcall
  · intro hfirst ⟨k, hk⟩
    rw [hunfold, hunfold]
    simp only [dispatchDataType_beyondLast _ _ counter pExpression k hk]
    rcases hfirst with h | h <;> subst h <;> simp

/-- C13 at an instance: a counter whose result type is out of range, over 64-bit raw
samples. -/
theorem C13_witness :
    (∀ call, ComputeCounterValue true
        ⟨[⟨0, some "c".toList, some "d".toList, GPA_Type.beyondLast 3, 0,
            GPA_CounterType.valid 0, [0], some "0".toList⟩], false⟩
        0 [GPA_Type.UINT64] ≠ .ok (some call))
    ∧ ComputeCounterValue true
        ⟨[⟨0, some "c".toList, some "d".toList, GPA_Type.beyondLast 3, 0,
            GPA_CounterType.valid 0, [0], some "0".toList⟩], false⟩
        0 [GPA_Type.UINT64] = .error .assertion :=
  ⟨(C13_unsupported_dispatch true
      ⟨[⟨0, some "c".toList, some "d".toList, GPA_Type.beyondLast 3, 0,
          GPA_CounterType.valid 0, [0], some "0".toList⟩], false⟩
      0 ⟨0, some "c".toList, some "d".toList, GPA_Type.beyondLast 3, 0,
          GPA_CounterType.valid 0, [0], some "0".toList⟩
      [GPA_Type.UINT64] GPA_Type.UINT64 "0".toList rfl rfl rfl).1 (Or.inr ⟨3, rfl⟩),
    ((C13_unsupported_dispatch true
      ⟨[⟨0, some "c".toList, some "d".toList, GPA_Type.beyondLast 3, 0,
          GPA_CounterType.valid 0, [0], some "0".toList⟩], false⟩
      0 ⟨0, some "c".toList, some "d".toList, GPA_Type.beyondLast 3, 0,
          GPA_CounterType.valid 0, [0], some "0".toList⟩
      [GPA_Type.UINT64] GPA_Type.UINT64 "0".toList rfl rfl rfl).2 (Or.inl rfl)
        ⟨3, rfl⟩).1⟩

/-! ## The catalog -/

theorem assertThat_bind_ok {α : Type} (dbg : Bool) (c : Bool) (f : Unit → Except Fault α)
    (x : α) (h : (assertThat dbg c >>= f) = .ok x) : f () = .ok x := by
  cases dbg <;> cases c <;> first | exact h | cases h

theorem DefinePublicCounter_ok (dbg : Bool) (self next : GPA_PublicCounters)
    (pName pDescription : Option (List Char)) (dataType : GPA_Type)
    (usageType : GPA_Usage_Type) (counterType : GPA_CounterType)
    (internalCountersRequired : List Nat) (pComputeExpression : Option (List Char))
    (h : DefinePublicCounter dbg self pName pDescription dataType usageType counterType
      internalCountersRequired pComputeExpression = .ok next) :
    next = ⟨self.m_counters ++
        [GPA_PublicCounter.construct (self.m_counters.length % 2 ^ 32) pName pDescription
          dataType usageType counterType internalCountersRequired pComputeExpression],
      self.m_countersGenerated⟩ := by
  unfold DefinePublicCounter at h
  have h1 := assertThat_bind_ok _ _ _ _ h
  have h2 := assertThat_bind_ok _ _ _ _ h1
  have h3 := assertThat_bind_ok _ _ _ _ h2
  have h4 := assertThat_bind_ok _ _ _ _ h3
  have h5 := assertThat_bind_ok _ _ _ _ h4
  have h6 := assertThat_bind_ok _ _ _ _ h5
  have h7 := assertThat_bind_ok _ _ _ _ h6
  simp only [except_pure, Except.ok.injEq] at h7
  exact h7.symm

theorem DefinePublicCounter_release (self : GPA_PublicCounters)
    (pName pDescription : Option (List Char)) (dataType : GPA_Type)
    (usageType : GPA_Usage_Type) (counterType : GPA_CounterType)
    (internalCountersRequired : List Nat) (pComputeExpression : Option (List Char)) :
    DefinePublicCounter false self pName pDescription dataType usageType counterType
      internalCountersRequired pComputeExpression
      = .ok ⟨self.m_counters ++
          [GPA_PublicCounter.construct (self.m_counters.length % 2 ^ 32) pName pDescription
            dataType usageType counterType internalCountersRequired pComputeExpression],
        self.m_countersGenerated⟩ := by
  simp only [DefinePublicCounter, assertThat_release, except_ok_bind, except_pure]

theorem DefinePublicCounter_valid (dbg : Bool) (self : GPA_PublicCounters)
    (pName pDescription : Option (List Char)) (dataType : GPA_Type)
    (usageType : GPA_Usage_Type) (counterType : GPA_CounterType)
    (internalCountersRequired : List Nat) (pComputeExpression : Option (List Char))
    (hName : pName.isSome = true) (hDescription : pDescription.isSome = true)
    (hData : dataType.belowLast = true) (hCounter : counterType.belowLast = true)
    (hRequired : internalCountersRequired.length > 0)
    (hExpression : ∃ e, pComputeExpression = some e ∧ e.length > 0) :
    DefinePublicCounter dbg self pName pDescription dataType usageType counterType
      internalCountersRequired pComputeExpression
      = .ok ⟨self.m_counters ++
          [GPA_PublicCounter.construct (self.m_counters.length % 2 ^ 32) pName pDescription
            dataType usageType counterType internalCountersRequired pComputeExpression],
        self.m_countersGenerated⟩ := by
  obtain ⟨e, he, hlen⟩ := hExpression
  subst he
  simp only [DefinePublicCounter, hName, hDescription, hData, hCounter, hRequired, hlen,
    decide_True, Option.isSome_some, assertThat_true, except_ok_bind, except_pure]

/-- C14: when the arguments pass every assertion and the new count still fits a
`gpa_uint32`, `DefinePublicCounter` appends exactly one definition: `GetNumCounters` grows
by one, the new definition stands at position (old count) with `m_index` equal to the old
count and with the given name, description, types, required raw indices and formula, and
every definition registered before is unchanged. -/
theorem C14_define_appends (dbg : Bool) (self : GPA_PublicCounters)
    (pName pDescription : Option (List Char)) (dataType : GPA_Type)
    (usageType : GPA_Usage_Type) (counterType : GPA_CounterType)
    (internalCountersRequired : List Nat) (pComputeExpression : Option (List Char))
    (hName : pName.isSome = true) (hDescription : pDescription.isSome = true)
    (hData : dataType.belowLast = true) (hCounter : counterType.belowLast = true)
    (hRequired : internalCountersRequired.length > 0)
    (hExpression : ∃ e, pComputeExpression = some e ∧ e.length > 0)
    (hSize : self.m_counters.length + 1 < 2 ^ 32) :
    ∃ next, DefinePublicCounter dbg self pName pDescription dataType usageType counterType
        internalCountersRequired pComputeExpression = .ok next
      ∧ GetNumCounters next = GetNumCounters self + 1
      ∧ next.m_counters.length = self.m_counters.length + 1
      ∧ next.m_counters.get? (GetNumCounters self)
          = some ⟨GetNumCounters self, pName, pDescription, dataType, usageType, counterType,
              internalCountersRequired, pComputeExpression⟩
      ∧ (∀ i, i < self.m_counters.length →
          next.m_counters.get? i = self.m_counters.get? i)
      ∧ next.m_countersGenerated = self.m_countersGenerated := by
  have hmod : self.m_counters.length % 2 ^ 32 = self.m_counters.length :=
    Nat.mod_eq_of_lt (by omega)
  refine ⟨_, DefinePublicCounter_valid dbg self pName pDescription dataType usageType
    counterType internalCountersRequired pComputeExpression hName hDescription hData hCounter
    hRequired hExpression, ?_, ?_, ?_, ?_, ?_⟩
  · simp only [GetNumCounters, List.length_append, List.length_singleton, hmod]
    exact Nat.mod_eq_of_lt hSize
  · simp only [List.length_append, List.length_singleton]
  · simp only [GetNumCounters, hmod, GPA_PublicCounter.construct]
    rw [List.get?_eq_getElem?, List.getElem?_append_right (Nat.le_refl _)]
    simp
  · intro i hi
    rw [List.get?_eq_getElem?, List.get?_eq_getElem?, List.getElem?_append_left hi]
  · rfl

/-- C14 at an instance: a second definition added to a catalog of one. -/
theorem C14_witness :
    ∃ next, DefinePublicCounter true
        ⟨[⟨0, some "a".toList, some "b".toList, GPA_Type.UINT64, 0, GPA_CounterType.valid 0,
          [0], some "0".toList⟩], true⟩
        (some "GPUTime".toList) (some "time".toList) GPA_Type.FLOAT64 1
        (GPA_CounterType.valid 0) [0, 1] (some "0 1 /".toList) = .ok next
      ∧ GetNumCounters next = GetNumCounters
          ⟨[⟨0, some "a".toList, some "b".toList, GPA_Type.UINT64, 0,
            GPA_CounterType.valid 0, [0], some "0".toList⟩], true⟩ + 1
      ∧ next.m_counters.length = 1 + 1
      ∧ next.m_counters.get? (GetNumCounters
          ⟨[⟨0, some "a".toList, some "b".toList, GPA_Type.UINT64, 0,
            GPA_CounterType.valid 0, [0], some "0".toList⟩], true⟩)
          = some ⟨GetNumCounters
              ⟨[⟨0, some "a".toList, some "b".toList, GPA_Type.UINT64, 0,
                GPA_CounterType.valid 0, [0], some "0".toList⟩], true⟩,
              some "GPUTime".toList, some "time".toList, GPA_Type.FLOAT64, 1,
              GPA_CounterType.valid 0, [0, 1], some "0 1 /".toList⟩
      ∧ (∀ i, i < 1 → next.m_counters.get? i
          = [(⟨0, some "a".toList, some "b".toList, GPA_Type.UINT64, 0,
              GPA_CounterType.valid 0, [0], some "0".toList⟩ : GPA_PublicCounter)].get? i)
      ∧ next.m_countersGenerated = true :=
  C14_define_appends true
    ⟨[⟨0, some "a".toList, some "b".toList, GPA_Type.UINT64, 0, GPA_CounterType.valid 0,
      [0], some "0".toList⟩], true⟩
    (some "GPUTime".toList) (some "time".toList) GPA_Type.FLOAT64 1
    (GPA_CounterType.valid 0) [0, 1] (some "0 1 /".toList) rfl rfl rfl rfl (by decide)
    ⟨"0 1 /".toList, rfl, by decide⟩ (by decide)

/-- C15, the claim as stated fails: an empty name and an empty description are accepted
even with assertions compiled in, since only the pointers are checked; and with
assertions compiled out a definition that breaks every precondition is appended. -/
theorem C15_counterexample :
    DefinePublicCounter true ⟨[], false⟩ (some []) (some []) GPA_Type.UINT64 0
        (GPA_CounterType.valid 0) [0] (some "0".toList)
        = .ok ⟨[⟨0, some [], some [], GPA_Type.UINT64, 0, GPA_CounterType.valid 0, [0],
            some "0".toList⟩], false⟩
    ∧ DefinePublicCounter false ⟨[], false⟩ none none (GPA_Type.beyondLast 0) 0
        (GPA_CounterType.beyondLast 0) [] (some [])
        = .ok ⟨[⟨0, none, none, GPA_Type.beyondLast 0, 0, GPA_CounterType.beyondLast 0, [],
            some []⟩], false⟩ := by
  decide

/-- C15, amended: with assertions compiled in, `DefinePublicCounter` fails at an
assertion, and no catalog with the definition results, whenever the name or the
description is a null pointer, the formula is null or empty, the result type or the
counter category is outside the valid enumeration range, or the list of required raw
indices is empty; an empty but non-null name or description is accepted; and with
assertions compiled out nothing is checked and the definition is appended. -/
theorem C15_define_rejects (self : GPA_PublicCounters)
    (pName pDescription : Option (List Char)) (dataType : GPA_Type)
    (usageType : GPA_Usage_Type) (counterType : GPA_CounterType)
    (internalCountersRequired : List Nat) (pComputeExpression : Option (List Char)) :
    ((pName = none ∨ pDescription = none ∨ dataType.belowLast = false
        ∨ counterType.belowLast = false ∨ internalCountersRequired = []
        ∨ pComputeExpression = none ∨ pComputeExpression = some []) →
      DefinePublicCounter true self pName pDescription dataType usageType counterType
        internalCountersRequired pComputeExpression = .error .assertion)
    ∧ (∃ next, DefinePublicCounter false self pName pDescription dataType usageType
        counterType internalCountersRequired pComputeExpression = .ok next
      ∧ next.m_counters.length = self.m_counters.length + 1)
    ∧ (dataType.belowLast = true → counterType.belowLast = true →
      internalCountersRequired.length > 0 →
      (∃ e, pComputeExpression = some e ∧ e.length > 0) →
      ∃ next, DefinePublicCounter true self (some []) (some []) dataType usageType
          counterType internalCountersRequired pComputeExpression = .ok next
        ∧ next.m_counters.length = self.m_counters.length + 1) := by
  refine ⟨?_, ?_, ?_⟩
  · intro h
    unfold DefinePublicCounter
    cases hn : pName.isSome with
    | false => rfl
    | true =>
      cases hd : pDescription.isSome with
      | false => rfl
      | true =>
        cases ht : dataType.belowLast with
        | false => rfl
        | true =>
          cases hc : counterType.belowLast with
          | false => rfl
          | true =>
            cases internalCountersRequired with
            | nil => rfl
            | cons r rs =>
              cases pComputeExpression with
              | none => simp [assertThat]
              | some e =>
                cases e with
                | nil => simp [assertThat]
                | cons c cs =>
                  exfalso
                  rcases h with h | h | h | h | h | h | h
                  · rw [h] at hn; cases hn
                  · rw [h] at hd; cases hd
                  · rw [h] at ht; cases ht
                  · rw [h] at hc; cases hc
                  · cases h
                  · cases h
                  · cases h
  · exact ⟨_, DefinePublicCounter_release self pName pDescription dataType usageType
      counterType internalCountersRequired pComputeExpression, by simp⟩
  · intro h3 h4 h5 h6
    exact ⟨_, DefinePublicCounter_valid true self (some []) (some []) dataType usageType
      counterType internalCountersRequired pComputeExpression rfl rfl h3 h4 h5 h6, by simp⟩

/-- C15 at an instance: a definition with an empty formula, with assertions compiled
in. -/
theorem C15_witness :
    DefinePublicCounter true ⟨[], false⟩ (some "GPUTime".toList) (some "time".toList)
      GPA_Type.FLOAT64 1 (GPA_CounterType.valid 0) [0, 1] (some []) = .error .assertion :=
  (C15_define_rejects ⟨[], false⟩ (some "GPUTime".toList) (some "time".toList)
    GPA_Type.FLOAT64 1 (GPA_CounterType.valid 0) [0, 1] (some [])).1
    (Or.inr (Or.inr (Or.inr (Or.inr (Or.inr (Or.inr rfl))))))

/-! ## Indices in reachable catalogs -/

theorem Reachable_index (dbg : Bool) (self : GPA_PublicCounters) (h : Reachable dbg self) :
    ∀ i c, self.m_counters.get? i = some c → c.m_index = i % 2 ^ 32 := by
  induction h with
  | empty generated => intro i c hc; cases hc
  | define self next pName pDescription dataType usageType counterType
      internalCountersRequired pComputeExpression _ hdef ih =>
    intro i c hc
    rw [DefinePublicCounter_ok dbg self next pName pDescription dataType usageType
      counterType internalCountersRequired pComputeExpression hdef] at hc
    simp only [List.get?_eq_getElem?] at hc ih
    rcases Nat.lt_or_ge i self.m_counters.length with hlt | hge
    · rw [List.getElem?_append_left hlt] at hc
      exact ih i c hc
    · rw [List.getElem?_append_right hge] at hc
      rcases Nat.eq_zero_or_pos (i - self.m_counters.length) with h0 | hpos
      · rw [h0] at hc
        simp only [List.getElem?_cons_zero, Option.some.injEq] at hc
        have hi : i = self.m_counters.length := by omega
        rw [← hc, hi]
        rfl
      · obtain ⟨k, hk⟩ : ∃ k, i - self.m_counters.length = k + 1 := ⟨_, (Nat.succ_pred_eq_of_pos hpos).symm⟩
        rw [hk] at hc
        simp at hc
  | clear self _ _ => intro i c hc; cases hc

/-- C16: in every catalog reached from an empty one by `DefinePublicCounter` and `Clear`
calls, every position `i` below `GetNumCounters()` holds a definition whose `m_index` is
`i`; hence two such positions with equal `m_index` are the same position. -/
theorem C16_index_is_position (dbg : Bool) (self : GPA_PublicCounters)
    (h : Reachable dbg self) :
    (∀ i, i < GetNumCounters self →
      ∃ c, self.m_counters.get? i = some c ∧ c.m_index = i)
    ∧ (∀ i j c d, i < GetNumCounters self → j < GetNumCounters self →
      self.m_counters.get? i = some c → self.m_counters.get? j = some d →
      c.m_index = d.m_index → i = j) := by
  have hnum : GetNumCounters self ≤ self.m_counters.length := Nat.mod_le _ _
  have h32 : GetNumCounters self < 2 ^ 32 := Nat.mod_lt _ (by decide)
  have hinv := Reachable_index dbg self h
  constructor
  · intro i hi
    have hlt : i < self.m_counters.length := by omega
    refine ⟨self.m_counters.get ⟨i, hlt⟩, List.get?_eq_get hlt, ?_⟩
    rw [hinv i _ (List.get?_eq_get hlt)]
    exact Nat.mod_eq_of_lt (by omega)
  · intro i j c d hi hj hc hd hcd
    have h1 := hinv i c hc
    have h2 := hinv j d hd
    rw [Nat.mod_eq_of_lt (by omega)] at h1 h2
    omega

/-- C16 at an instance: the catalog after two definitions, a `Clear` and one more
definition. -/
theorem C16_witness :
    (∀ i, i < GetNumCounters
        ⟨[⟨0, some "c".toList, some "d".toList, GPA_Type.UINT64, 0, GPA_CounterType.valid 0,
          [0], some "0".toList⟩], false⟩ →
      ∃ c, (GPA_PublicCounters.mk
        [⟨0, some "c".toList, some "d".toList, GPA_Type.UINT64, 0, GPA_CounterType.valid 0,
          [0], some "0".toList⟩] false).m_counters.get? i = some c ∧ c.m_index = i)
    ∧ (∀ i j c d, i < GetNumCounters
        ⟨[⟨0, some "c".toList, some "d".toList, GPA_Type.UINT64, 0, GPA_CounterType.valid 0,
          [0], some "0".toList⟩], false⟩ →
      j < GetNumCounters
        ⟨[⟨0, some "c".toList, some "d".toList, GPA_Type.UINT64, 0, GPA_CounterType.valid 0,
          [0], some "0".toList⟩], false⟩ →
      (GPA_PublicCounters.mk
        [⟨0, some "c".toList, some "d".toList, GPA_Type.UINT64, 0, GPA_CounterType.valid 0,
          [0], some "0".toList⟩] false).m_counters.get? i = some c →
      (GPA_PublicCounters.mk
        [⟨0, some "c".toList, some "d".toList, GPA_Type.UINT64, 0, GPA_CounterType.valid 0,
          [0], some "0".toList⟩] false).m_counters.get? j = some d →
      c.m_index = d.m_index → i = j) :=
  C16_index_is_position true _
    (Reachable.define (Clear _) _ (some "c".toList) (some "d".toList) GPA_Type.UINT64 0
      (GPA_CounterType.valid 0) [0] (some "0".toList)
      (Reachable.clear _
        (Reachable.define _
          ⟨[⟨0, some "a".toList, some "b".toList, GPA_Type.UINT32, 0, GPA_CounterType.valid 0,
              [0], some "0".toList⟩,
            ⟨1, some "e".toList, some "f".toList, GPA_Type.UINT32, 0, GPA_CounterType.valid 0,
              [1], some "1".toList⟩], true⟩
          (some "e".toList) (some "f".toList) GPA_Type.UINT32 0 (GPA_CounterType.valid 0)
          [1] (some "1".toList)
          (Reachable.define ⟨[], true⟩ _ (some "a".toList) (some "b".toList) GPA_Type.UINT32 0
            (GPA_CounterType.valid 0) [0] (some "0".toList) (Reachable.empty true) rfl)
          rfl))
      rfl)

/-- C17: `Clear` discards every definition and resets the generated flag: afterwards
`GetNumCounters()` is 0 and `m_countersGenerated` is false, and the next definition that
`DefinePublicCounter` accepts is the only one in the catalog and has index 0; arguments
that pass the assertions are accepted. -/
theorem C17_clear (dbg : Bool) (self : GPA_PublicCounters)
    (pName pDescription : Option (List Char)) (dataType : GPA_Type)
    (usageType : GPA_Usage_Type) (counterType : GPA_CounterType)
    (internalCountersRequired : List Nat) (pComputeExpression : Option (List Char)) :
    (Clear self).m_counters = []
    ∧ GetNumCounters (Clear self) = 0
    ∧ (Clear self).m_countersGenerated = false
    ∧ (∀ next, DefinePublicCounter dbg (Clear self) pName pDescription dataType usageType
        counterType internalCountersRequired pComputeExpression = .ok next →
      next.m_counters = [⟨0, pName, pDescription, dataType, usageType, counterType,
        internalCountersRequired, pComputeExpression⟩])
    ∧ (pName.isSome = true → pDescription.isSome = true → dataType.belowLast = true →
      counterType.belowLast = true → internalCountersRequired.length > 0 →
      (∃ e, pComputeExpression = some e ∧ e.length > 0) →
      DefinePublicCounter dbg (Clear self) pName pDescription dataType usageType
        counterType internalCountersRequired pComputeExpression
        = .ok ⟨[⟨0, pName, pDescription, dataType, usageType, counterType,
            internalCountersRequired, pComputeExpression⟩], false⟩) := by
  refine ⟨rfl, rfl, rfl, ?_, ?_⟩
  · intro next h
    rw [DefinePublicCounter_ok dbg (Clear self) next pName pDescription dataType usageType
      counterType internalCountersRequired pComputeExpression h]
    rfl
  · intro h1 h2 h3 h4 h5 h6
    rw [DefinePublicCounter_valid dbg (Clear self) pName pDescription dataType usageType
      counterType internalCountersRequired pComputeExpression h1 h2 h3 h4 h5 h6]
    rfl

/-- C17 at an instance: a definition registered right after clearing a catalog of one. -/
theorem C17_witness :
    DefinePublicCounter true
      (Clear ⟨[⟨0, some "a".toList, some "b".toList, GPA_Type.UINT64, 0,
        GPA_CounterType.valid 0, [0], some "0".toList⟩], true⟩)
      (some "GPUTime".toList) (some "time".toList) GPA_Type.FLOAT64 1
      (GPA_CounterType.valid 0) [0, 1] (some "0 1 /".toList)
      = .ok ⟨[⟨0, some "GPUTime".toList, some "time".toList, GPA_Type.FLOAT64, 1,
          GPA_CounterType.valid 0, [0, 1], some "0 1 /".toList⟩], false⟩ :=
  (C17_clear true
    ⟨[⟨0, some "a".toList, some "b".toList, GPA_Type.UINT64, 0, GPA_CounterType.valid 0,
      [0], some "0".toList⟩], true⟩
    (some "GPUTime".toList) (some "time".toList) GPA_Type.FLOAT64 1
    (GPA_CounterType.valid 0) [0, 1] (some "0 1 /".toList)).2.2.2.2 rfl rfl rfl rfl
    (by decide) ⟨"0 1 /".toList, rfl, by decide⟩

/-! ## The `sum4` example -/

/-- C18, the claim as stated fails: plain integers in a formula are zero-based indices,
so over the four raw samples 1, 2, 3, 4 the token `4` of `1 2 3 4 sum4` is out of range;
with assertions compiled in the evaluation stops at the range assertion, and with
assertions compiled out it adds 2, 3, 4 and the fallback 0 and stores 9. -/
theorem C18_counterexample :
    EvaluateExpression true (uintArith 64) InternalCounterType.gpa_uint64
        "1 2 3 4 sum4".toList [bytesOf 8 1, bytesOf 8 2, bytesOf 8 3, bytesOf 8 4]
        GPA_Type.UINT64 (some ⟨4, 40, 6, 2, 27000000⟩) = ⟨none, .error .assertion⟩
    ∧ EvaluateExpression false (uintArith 64) InternalCounterType.gpa_uint64
        "1 2 3 4 sum4".toList [bytesOf 8 1, bytesOf 8 2, bytesOf 8 3, bytesOf 8 4]
        GPA_Type.UINT64 (some ⟨4, 40, 6, 2, 27000000⟩) = ⟨none, .ok 9⟩ := by
  constructor <;> rfl

/-- C18, amended: over the four raw samples 1, 2, 3, 4 the formula `0 1 2 3 sum4` yields
10; the formula `1 2 3 4 sum4` yields 10 over five raw samples whose entries at the
indices 1 to 4 are 1, 2, 3, 4; and the token `sum4` applied to the four pushed values
1, 2, 3, 4 leaves 10.  All hold in each integer result type, for both raw storage types
and with or without assertions. -/
theorem C18_sum4_example (dbg : Bool) (I : InternalCounterType) (hw : GPA_HWInfo)
    (v0 : Nat) :
    (EvaluateExpression dbg (uintArith 32) I "0 1 2 3 sum4".toList
        [bytesOf I.sizeof 1, bytesOf I.sizeof 2, bytesOf I.sizeof 3, bytesOf I.sizeof 4]
        GPA_Type.UINT32 (some hw) = ⟨none, .ok 10⟩
      ∧ EvaluateExpression dbg (uintArith 64) I "0 1 2 3 sum4".toList
        [bytesOf I.sizeof 1, bytesOf I.sizeof 2, bytesOf I.sizeof 3, bytesOf I.sizeof 4]
        GPA_Type.UINT64 (some hw) = ⟨none, .ok 10⟩
      ∧ EvaluateExpression dbg (sintArith 32) I "0 1 2 3 sum4".toList
        [bytesOf I.sizeof 1, bytesOf I.sizeof 2, bytesOf I.sizeof 3, bytesOf I.sizeof 4]
        GPA_Type.INT32 (some hw) = ⟨none, .ok 10⟩
      ∧ EvaluateExpression dbg (sintArith 64) I "0 1 2 3 sum4".toList
        [bytesOf I.sizeof 1, bytesOf I.sizeof 2, bytesOf I.sizeof 3, bytesOf I.sizeof 4]
        GPA_Type.INT64 (some hw) = ⟨none, .ok 10⟩)
    ∧ (EvaluateExpression dbg (uintArith 32) I "1 2 3 4 sum4".toList
        [bytesOf I.sizeof v0, bytesOf I.sizeof 1, bytesOf I.sizeof 2, bytesOf I.sizeof 3,
          bytesOf I.sizeof 4]
        GPA_Type.UINT32 (some hw) = ⟨none, .ok 10⟩
      ∧ EvaluateExpression dbg (uintArith 64) I "1 2 3 4 sum4".toList
        [bytesOf I.sizeof v0, bytesOf I.sizeof 1, bytesOf I.sizeof 2, bytesOf I.sizeof 3,
          bytesOf I.sizeof 4]
        GPA_Type.UINT64 (some hw) = ⟨none, .ok 10⟩
      ∧ EvaluateExpression dbg (sintArith 32) I "1 2 3 4 sum4".toList
        [bytesOf I.sizeof v0, bytesOf I.sizeof 1, bytesOf I.sizeof 2, bytesOf I.sizeof 3,
          bytesOf I.sizeof 4]
        GPA_Type.INT32 (some hw) = ⟨none, .ok 10⟩
      ∧ EvaluateExpression dbg (sintArith 64) I "1 2 3 4 sum4".toList
        [bytesOf I.sizeof v0, bytesOf I.sizeof 1, bytesOf I.sizeof 2, bytesOf I.sizeof 3,
          bytesOf I.sizeof 4]
        GPA_Type.INT64 (some hw) = ⟨none, .ok 10⟩)
    ∧ (evalToken dbg (uintArith 32) I [] GPA_Type.UINT32 (some hw) (sumToken 4) [1, 2, 3, 4]
        = .ok [10]
      ∧ evalToken dbg (uintArith 64) I [] GPA_Type.UINT64 (some hw) (sumToken 4)
        [1, 2, 3, 4] = .ok [10]
      ∧ evalToken dbg (sintArith 32) I [] GPA_Type.INT32 (some hw) (sumToken 4)
        [1, 2, 3, 4] = .ok [10]
      ∧ evalToken dbg (sintArith 64) I [] GPA_Type.INT64 (some hw) (sumToken 4)
        [1, 2, 3, 4] = .ok [10]) := by
  cases dbg <;> cases I <;>
    exact ⟨⟨rfl, rfl, rfl, rfl⟩, ⟨rfl, rfl, rfl, rfl⟩, ⟨rfl, rfl, rfl, rfl⟩⟩

/-! ## The frame property -/

theorem popBack_ok {T : Type} (stack rest : List T) (v : T)
    (h : popBack stack = .ok (v, rest)) : stack = rest ++ [v] := by
  rcases List.eq_nil_or_concat stack with rfl | ⟨L, b, rfl⟩
  · cases h
  · rw [List.concat_eq_append] at h ⊢
    rw [popBack_concat] at h
    simp only [Except.ok.injEq, Prod.mk.injEq] at h
    rw [h.1, h.2]

theorem binaryOp_ok {T : Type} (dbg : Bool) (f : T → T → T) (stack out : List T)
    (h : binaryOp dbg f stack = .ok out) :
    ∃ rest p1 p2, stack = rest ++ [p1, p2] ∧ out = rest ++ [f p1 p2] := by
  unfold binaryOp at h
  have h1 := assertThat_bind_ok _ _ _ _ h
  cases hp2 : popBack stack with
  | error e => rw [hp2] at h1; cases h1
  | ok r2 =>
    obtain ⟨p2, st1⟩ := r2
    rw [hp2] at h1
    simp only [except_ok_bind] at h1
    cases hp1 : popBack st1 with
    | error e => rw [hp1] at h1; cases h1
    | ok r1 =>
      obtain ⟨p1, rest⟩ := r1
      rw [hp1] at h1
      simp only [except_ok_bind, except_pure, Except.ok.injEq] at h1
      refine ⟨rest, p1, p2, ?_, h1.symm⟩
      rw [popBack_ok stack st1 p2 hp2, popBack_ok st1 rest p1 hp1]
      simp

theorem binaryOp_frame {T : Type} (dbg : Bool) (f : T → T → T) (s stack out : List T)
    (h : binaryOp dbg f stack = .ok out) : binaryOp dbg f (s ++ stack) = .ok (s ++ out) := by
  obtain ⟨rest, p1, p2, rfl, rfl⟩ := binaryOp_ok dbg f stack out h
  rw [← List.append_assoc, binaryOp_pair, List.append_assoc]

theorem divideOp_ok {T : Type} (dbg : Bool) (A : Arith T) (stack out : List T)
    (h : divideOp dbg A stack = .ok out) :
    ∃ rest p1 p2, stack = rest ++ [p1, p2] := by
  unfold divideOp at h
  have h1 := assertThat_bind_ok _ _ _ _ h
  cases hp2 : popBack stack with
  | error e => rw [hp2] at h1; cases h1
  | ok r2 =>
    obtain ⟨p2, st1⟩ := r2
    rw [hp2] at h1
    simp only [except_ok_bind] at h1
    cases hp1 : popBack st1 with
    | error e => rw [hp1] at h1; cases h1
    | ok r1 =>
      obtain ⟨p1, rest⟩ := r1
      refine ⟨rest, p1, p2, ?_⟩
      rw [popBack_ok stack st1 p2 hp2, popBack_ok st1 rest p1 hp1]
      simp

theorem divideOp_frame {T : Type} (dbg : Bool) (A : Arith T) (s stack out : List T)
    (h : divideOp dbg A stack = .ok out) : divideOp dbg A (s ++ stack) = .ok (s ++ out) := by
  obtain ⟨rest, p1, p2, rfl⟩ := divideOp_ok dbg A stack out h
  rw [divideOp_pair] at h
  rw [← List.append_assoc, divideOp_pair]
  by_cases hne : A.ne p2 (A.cast 0) = true
  · rw [if_pos hne] at h ⊢
    cases hq : A.div p1 p2 with
    | none => rw [hq] at h; cases h
    | some q =>
      rw [hq] at h
      simp only [Except.ok.injEq] at h ⊢
      rw [← h, List.append_assoc]
  · rw [if_neg hne] at h ⊢
    simp only [Except.ok.injEq] at h ⊢
    rw [← h, List.append_assoc]

theorem ifNotZero_frame {T : Type} (dbg : Bool) (A : Arith T) (s stack out : List T)
    (h : ifNotZero dbg A stack = .ok out) : ifNotZero dbg A (s ++ stack) = .ok (s ++ out) := by
  have hstack : ∃ rest f t c, stack = rest ++ [f, t, c] := by
    unfold ifNotZero at h
    have h1 := assertThat_bind_ok _ _ _ _ h
    cases hp3 : popBack stack with
    | error e => rw [hp3] at h1; cases h1
    | ok r3 =>
      obtain ⟨c, st2⟩ := r3
      rw [hp3] at h1
      simp only [except_ok_bind] at h1
      cases hp2 : popBack st2 with
      | error e => rw [hp2] at h1; cases h1
      | ok r2 =>
        obtain ⟨t, st1⟩ := r2
        rw [hp2] at h1
        simp only [except_ok_bind] at h1
        cases hp1 : popBack st1 with
        | error e => rw [hp1] at h1; cases h1
        | ok r1 =>
          obtain ⟨f, rest⟩ := r1
          refine ⟨rest, f, t, c, ?_⟩
          rw [popBack_ok stack st2 c hp3, popBack_ok st2 st1 t hp2, popBack_ok st1 rest f hp1]
          simp
  obtain ⟨rest, f, t, c, rfl⟩ := hstack
  rw [ifNotZero_triple] at h
  simp only [Except.ok.injEq] at h
  rw [← List.append_assoc, ifNotZero_triple, ← h, List.append_assoc]

theorem sumLoop_ok {T : Type} (A : Arith T) (n : Nat) (acc sum : T) (stack rest : List T)
    (h : sumLoop A n acc stack = .ok (sum, rest)) :
    ∃ vs, vs.length = n ∧ stack = rest ++ vs := by
  induction n generalizing acc stack with
  | zero =>
    simp only [sumLoop, Except.ok.injEq, Prod.mk.injEq] at h
    exact ⟨[], rfl, by rw [h.2]; simp⟩
  | succ n ih =>
    rw [sumLoop] at h
    cases hp : popBack stack with
    | error e => rw [hp] at h; cases h
    | ok r =>
      obtain ⟨v, st⟩ := r
      rw [hp] at h
      simp only [except_ok_bind] at h
      obtain ⟨vs, hlen, hst⟩ := ih _ _ h
      refine ⟨vs ++ [v], by simp [hlen], ?_⟩
      rw [popBack_ok stack st v hp, hst]
      simp

theorem sumN_frame {T : Type} (dbg : Bool) (A : Arith T) (n : Nat) (s stack out : List T)
    (h : sumN dbg A n stack = .ok out) : sumN dbg A n (s ++ stack) = .ok (s ++ out) := by
  have hstack : ∃ rest vs, vs.length = n ∧ stack = rest ++ vs := by
    unfold sumN at h
    have h1 := assertThat_bind_ok _ _ _ _ h
    cases hl : sumLoop A n (A.cast 0) stack with
    | error e => rw [hl] at h1; cases h1
    | ok r =>
      obtain ⟨sum, rest⟩ := r
      obtain ⟨vs, hlen, hst⟩ := sumLoop_ok A n _ sum stack rest hl
      exact ⟨rest, vs, hlen, hst⟩
  obtain ⟨rest, vs, rfl, rfl⟩ := hstack
  rw [sumN_append] at h
  simp only [Except.ok.injEq] at h
  rw [← List.append_assoc, sumN_append, ← h, List.append_assoc]

theorem maxLoop_ok {T : Type} (A : Arith T) (n : Nat) (m r : T) (stack rest : List T)
    (h : maxLoop A n m stack = .ok (r, rest)) :
    ∃ vs, vs.length = n ∧ stack = rest ++ vs := by
  induction n generalizing m stack with
  | zero =>
    simp only [maxLoop, Except.ok.injEq, Prod.mk.injEq] at h
    exact ⟨[], rfl, by rw [h.2]; simp⟩
  | succ n ih =>
    rw [maxLoop] at h
    cases hp : popBack stack with
    | error e => rw [hp] at h; cases h
    | ok q =>
      obtain ⟨v, st⟩ := q
      rw [hp] at h
      simp only [except_ok_bind] at h
      obtain ⟨vs, hlen, hst⟩ := ih _ _ h
      refine ⟨vs ++ [v], by simp [hlen], ?_⟩
      rw [popBack_ok stack st v hp, hst]
      simp

theorem maxN_frame {T : Type} (dbg : Bool) (A : Arith T) (n : Nat) (hn : 0 < n)
    (s stack out : List T) (h : maxN dbg A n stack = .ok out) :
    maxN dbg A n (s ++ stack) = .ok (s ++ out) := by
  have hstack : ∃ rest vs v0, vs.length = n - 1 ∧ stack = rest ++ (vs ++ [v0]) := by
    unfold maxN at h
    have h1 := assertThat_bind_ok _ _ _ _ h
    cases hp : popBack stack with
    | error e => rw [hp] at h1; cases h1
    | ok q =>
      obtain ⟨v0, st⟩ := q
      rw [hp] at h1
      simp only [except_ok_bind] at h1
      cases hl : maxLoop A (n - 1) v0 st with
      | error e => rw [hl] at h1; cases h1
      | ok r =>
        obtain ⟨m, rest⟩ := r
        obtain ⟨vs, hlen, hst⟩ := maxLoop_ok A (n - 1) v0 m st rest hl
        refine ⟨rest, vs, v0, hlen, ?_⟩
        rw [popBack_ok stack st v0 hp, hst]
        simp
  obtain ⟨rest, vs, v0, hlen, rfl⟩ := hstack
  obtain rfl : n = vs.length + 1 := by omega
  rw [maxN_append] at h
  simp only [Except.ok.injEq] at h
  rw [← List.append_assoc, maxN_append, ← h, List.append_assoc]

theorem ite_frame {α : Type} (c : Prop) [Decidable c] (a b a' b' : Except Fault α)
    (x y : α) (ha : a = .ok x → a' = .ok y) (hb : b = .ok x → b' = .ok y) :
    (if c then a else b) = .ok x → (if c then a' else b') = .ok y := by
  by_cases hc : c
  · rw [if_pos hc, if_pos hc]; exact ha
  · rw [if_neg hc, if_neg hc]; exact hb

theorem bind_frame {α β : Type} (e : Except Fault α) (k k' : α → Except Fault β) (x y : β)
    (hk : ∀ a, k a = .ok x → k' a = .ok y) : (e >>= k) = .ok x → (e >>= k') = .ok y := by
  cases e with
  | error f => intro h; cases h
  | ok a => exact hk a

theorem push_frame {T : Type} (dbg : Bool) (c : Bool) (v : T) (s stack out : List T) :
    (assertThat dbg c >>= fun _ => pure (stack ++ [v])) = .ok out →
    (assertThat dbg c >>= fun _ => pure ((s ++ stack) ++ [v])) = Except.ok (s ++ out) := by
  apply bind_frame
  intro _ h
  simp only [except_pure, Except.ok.injEq] at h ⊢
  rw [← h, List.append_assoc]

theorem constantToken_frame {T : Type} (dbg : Bool) (A : Arith T) (resultType : GPA_Type)
    (pch : List Char) (s stack out : List T)
    (h : constantToken dbg A resultType pch stack = .ok out) :
    constantToken dbg A resultType pch (s ++ stack) = .ok (s ++ out) := by
  revert h
  unfold constantToken
  dsimp only
  refine ite_frame _ _ _ _ _ _ _ ?_ ?_
  · exact bind_frame _ _ _ _ _ (fun y => push_frame dbg _ _ s stack out)
  refine ite_frame _ _ _ _ _ _ _ ?_ ?_
  · exact bind_frame _ _ _ _ _ (fun y => push_frame dbg _ _ s stack out)
  refine ite_frame _ _ _ _ _ _ _ ?_ ?_
  · refine bind_frame _ _ _ _ _ (fun l => ?_)
    cases l with
    | some u =>
      exact bind_frame _ _ _ _ _ (fun l2 =>
        bind_frame _ _ _ _ _ (fun y => push_frame dbg _ _ s stack out))
    | none => exact bind_frame _ _ _ _ _ (fun y => push_frame dbg _ _ s stack out)
  refine ite_frame _ _ _ _ _ _ _ ?_ ?_
  · refine bind_frame _ _ _ _ _ (fun l => ?_)
    cases l with
    | some u =>
      exact bind_frame _ _ _ _ _ (fun l2 =>
        bind_frame _ _ _ _ _ (fun y => push_frame dbg _ _ s stack out))
    | none => exact bind_frame _ _ _ _ _ (fun y => push_frame dbg _ _ s stack out)
  · exact bind_frame _ _ _ _ _ (fun _ =>
      bind_frame _ _ _ _ _ (fun y => push_frame dbg _ _ s stack out))

theorem counterToken_frame {T : Type} (dbg : Bool) (A : Arith T) (I : InternalCounterType)
    (results : List (List Nat)) (pch : List Char) (s stack out : List T)
    (h : counterToken dbg A I results pch stack = .ok out) :
    counterToken dbg A I results pch (s ++ stack) = .ok (s ++ out) := by
  unfold counterToken at h ⊢
  cases hs : scanIndex pch with
  | error e => rw [hs] at h; cases h
  | ok scanned =>
    rw [hs] at h
    simp only [except_ok_bind] at h ⊢
    cases ha : assertThat dbg scanned.isSome with
    | error e => rw [ha] at h; cases h
    | ok u =>
      rw [ha] at h
      simp only [except_ok_bind] at h ⊢
      cases scanned with
      | none => cases h
      | some index =>
        simp only at h ⊢
        cases hb : assertThat dbg (decide (index < results.length)) with
        | error e => rw [hb] at h; cases h
        | ok u2 =>
          rw [hb] at h
          simp only [except_ok_bind] at h ⊢
          cases hg : results.get? index with
          | some blob =>
            rw [hg] at h
            simp only at h ⊢
            cases hr : readRaw I blob with
            | error e => rw [hr] at h; cases h
            | ok v =>
              rw [hr] at h
              simp only [except_ok_bind, except_pure, Except.ok.injEq] at h ⊢
              rw [← h, List.append_assoc]
          | none =>
            rw [hg] at h
            simp only at h ⊢
            cases hc : assertThat dbg false with
            | error e => rw [hc] at h; cases h
            | ok u3 =>
              rw [hc] at h
              simp only [except_ok_bind, except_pure, Except.ok.injEq] at h ⊢
              rw [← h, List.append_assoc]

theorem push_hw_frame {T : Type} (pHwInfo : Option GPA_HWInfo) (g : GPA_HWInfo → T)
    (s stack out : List T)
    (h : (match pHwInfo with
      | some hw => Except.ok (stack ++ [g hw])
      | none => Except.error Fault.undefined) = .ok out) :
    (match pHwInfo with
      | some hw => Except.ok ((s ++ stack) ++ [g hw])
      | none => Except.error Fault.undefined) = .ok (s ++ out) := by
  cases pHwInfo with
  | none => cases h
  | some hw =>
    simp only [Except.ok.injEq] at h ⊢
    rw [← h, List.append_assoc]

theorem evalToken_frame {T : Type} (dbg : Bool) (A : Arith T) (I : InternalCounterType)
    (results : List (List Nat)) (resultType : GPA_Type) (pHwInfo : Option GPA_HWInfo)
    (pch : List Char) (s stack out : List T)
    (h : evalToken dbg A I results resultType pHwInfo pch stack = .ok out) :
    evalToken dbg A I results resultType pHwInfo pch (s ++ stack) = .ok (s ++ out) := by
  revert h
  unfold evalToken
  iterate 26
    refine ite_frame _ _ _ _ _ _ _ (fun h => by
      first
        | exact binaryOp_frame dbg _ s stack out h
        | exact divideOp_frame dbg A s stack out h
        | exact constantToken_frame dbg A resultType pch s stack out h
        | exact push_hw_frame pHwInfo _ s stack out h
        | exact maxN_frame dbg A _ (by decide) s stack out h
        | exact ifNotZero_frame dbg A s stack out h
        | exact sumN_frame dbg A _ s stack out h) ?_
  exact fun h => counterToken_frame dbg A I results pch s stack out h

theorem evalTokens_frame {T : Type} (dbg : Bool) (A : Arith T) (I : InternalCounterType)
    (results : List (List Nat)) (resultType : GPA_Type) (pHwInfo : Option GPA_HWInfo)
    (f : List (List Char)) (s stack out : List T)
    (h : evalTokens dbg A I results resultType pHwInfo f stack = .ok out) :
    evalTokens dbg A I results resultType pHwInfo f (s ++ stack) = .ok (s ++ out) := by
  induction f generalizing stack with
  | nil =>
    simp only [evalTokens, Except.ok.injEq] at h ⊢
    rw [h]
  | cons pch rest ih =>
    simp only [evalTokens] at h ⊢
    cases ht : evalToken dbg A I results resultType pHwInfo pch stack with
    | error e => rw [ht] at h; cases h
    | ok mid =>
      rw [ht] at h
      simp only [except_ok_bind] at h
      rw [evalToken_frame dbg A I results resultType pHwInfo pch s stack mid ht]
      simp only [except_ok_bind]
      exact ih mid h

/-- C20: if a token sequence `f`, run from the empty stack, completes and leaves the
stack `vs`, then run from any stack `s` it leaves `s ++ vs`; and running `f ++ g` from
`s` is running `g` from `s ++ vs`. -/
theorem C20_frame {T : Type} (dbg : Bool) (A : Arith T) (I : InternalCounterType)
    (results : List (List Nat)) (resultType : GPA_Type) (pHwInfo : Option GPA_HWInfo)
    (f g : List (List Char)) (vs : List T)
    (h : evalTokens dbg A I results resultType pHwInfo f [] = .ok vs) :
    (∀ s, evalTokens dbg A I results resultType pHwInfo f s = .ok (s ++ vs))
    ∧ (∀ s, evalTokens dbg A I results resultType pHwInfo (f ++ g) s
        = evalTokens dbg A I results resultType pHwInfo g (s ++ vs)) := by
  have hframe : ∀ s, evalTokens dbg A I results resultType pHwInfo f s = .ok (s ++ vs) := by
    intro s
    have := evalTokens_frame dbg A I results resultType pHwInfo f s [] vs h
    rwa [List.append_nil] at this
  refine ⟨hframe, fun s => ?_⟩
  rw [evalTokens_append, hframe s]
  rfl

/-- C20 at an instance: the tokens `0 1 /` run above the stack `[7, 8]`, then `+`. -/
theorem C20_witness :
    (∀ s, evalTokens true (uintArith 32) InternalCounterType.gpa_uint32
        [bytesOf 4 10, bytesOf 4 2] GPA_Type.UINT32 none
        ["0".toList, "1".toList, "/".toList] s = .ok (s ++ [5]))
    ∧ (∀ s, evalTokens true (uintArith 32) InternalCounterType.gpa_uint32
        [bytesOf 4 10, bytesOf 4 2] GPA_Type.UINT32 none
        (["0".toList, "1".toList, "/".toList] ++ ["+".toList]) s
        = evalTokens true (uintArith 32) InternalCounterType.gpa_uint32
            [bytesOf 4 10, bytesOf 4 2] GPA_Type.UINT32 none ["+".toList] (s ++ [5])) :=
  C20_frame true (uintArith 32) InternalCounterType.gpa_uint32 [bytesOf 4 10, bytesOf 4 2]
    GPA_Type.UINT32 none ["0".toList, "1".toList, "/".toList] ["+".toList] [5] (by decide)

/-! ## Separators -/

theorem strtokAux_nil (cur : List Char) :
    strtokAux [] cur = (if cur.isEmpty then [] else [cur.reverse]) := by
  cases cur <;> rfl

theorem strtokAux_delim (c : Char) (cs cur : List Char) (hc : isDelim c = true) :
    strtokAux (c :: cs) cur
      = (if cur.isEmpty then [] else [cur.reverse]) ++ strtokAux cs [] := by
  rw [strtokAux]
  simp only [hc, if_true]
  split <;> simp

theorem strtokAux_skip (sep rest : List Char) (hsep : isSeparator sep = true) :
    strtokAux (sep ++ rest) [] = strtokAux rest [] := by
  induction sep with
  | nil => rfl
  | cons c cs ih =>
    simp only [isSeparator, List.all_cons, Bool.and_eq_true] at hsep
    rw [List.cons_append, strtokAux_delim c _ [] hsep.1]
    simp only [List.isEmpty_nil, if_true, List.nil_append]
    exact ih (by simpa [isSeparator] using hsep.2)

theorem strtokAux_flush (sep rest cur : List Char) (hne : sep ≠ [])
    (hsep : isSeparator sep = true) :
    strtokAux (sep ++ rest) cur
      = (if cur.isEmpty then [] else [cur.reverse]) ++ strtokAux rest [] := by
  cases sep with
  | nil => exact absurd rfl hne
  | cons c cs =>
    simp only [isSeparator, List.all_cons, Bool.and_eq_true] at hsep
    rw [List.cons_append, strtokAux_delim c _ cur hsep.1,
      strtokAux_skip cs rest (by simpa [isSeparator] using hsep.2)]

theorem strtokAux_congr (a r1 r2 : List Char)
    (h : ∀ cur, strtokAux r1 cur = strtokAux r2 cur) :
    ∀ cur, strtokAux (a ++ r1) cur = strtokAux (a ++ r2) cur := by
  induction a with
  | nil => exact h
  | cons c cs ih =>
    intro cur
    simp only [List.cons_append]
    rw [strtokAux, strtokAux]
    simp only [ih]

theorem strtokAux_word (tok rest cur : List Char)
    (hw : tok.all (fun c => !isDelim c) = true) :
    strtokAux (tok ++ rest) cur = strtokAux rest (tok.reverse ++ cur) := by
  induction tok generalizing cur with
  | nil => rfl
  | cons c cs ih =>
    simp only [List.all_cons, Bool.and_eq_true, Bool.not_eq_true'] at hw
    rw [List.cons_append, strtokAux]
    simp only [hw.1, Bool.false_eq_true, if_false]
    rw [ih (c :: cur) hw.2]
    simp

theorem strtok_replace (a b sep1 sep2 : List Char) (h1 : sep1 ≠ []) (h2 : sep2 ≠ [])
    (hs1 : isSeparator sep1 = true) (hs2 : isSeparator sep2 = true) :
    strtok (a ++ sep1 ++ b) = strtok (a ++ sep2 ++ b) := by
  unfold strtok
  rw [List.append_assoc, List.append_assoc]
  apply strtokAux_congr
  intro cur
  rw [strtokAux_flush sep1 b cur h1 hs1, strtokAux_flush sep2 b cur h2 hs2]

theorem strtok_leading (e sep : List Char) (hs : isSeparator sep = true) :
    strtok (sep ++ e) = strtok e :=
  strtokAux_skip sep e hs

theorem strtokAux_separator (sep cur : List Char) (hs : isSeparator sep = true) :
    strtokAux sep cur = (if cur.isEmpty then [] else [cur.reverse]) := by
  cases sep with
  | nil => exact strtokAux_nil cur
  | cons c cs =>
    have := strtokAux_flush (c :: cs) [] cur (by simp) hs
    rw [List.append_nil] at this
    rw [this]
    exact List.append_nil _

theorem strtok_trailing (e sep : List Char) (hs : isSeparator sep = true) :
    strtok (e ++ sep) = strtok e := by
  unfold strtok
  have h : ∀ cur, strtokAux sep cur = strtokAux [] cur := by
    intro cur
    rw [strtokAux_separator sep cur hs, strtokAux_nil]
  have := strtokAux_congr e sep [] h []
  rwa [List.append_nil] at this

theorem flush_word (tok : List Char) (hw : isWord tok = true) :
    (if (tok.reverse ++ []).isEmpty then [] else [(tok.reverse ++ []).reverse]) = [tok] := by
  cases tok with
  | nil => simp [isWord] at hw
  | cons c cs => simp

theorem strtok_spell (lead : List Char) (items : List (List Char × List Char))
    (hl : isSeparator lead = true) (hi : wellSpelled items = true) :
    strtok (spell lead items) = items.map Prod.fst := by
  induction items generalizing lead with
  | nil =>
    have := strtok_leading [] lead hl
    rw [List.append_nil] at this
    rw [spell, this]
    rfl
  | cons item rest ih =>
    obtain ⟨tok, sep⟩ := item
    have hw : tok.all (fun c => !isDelim c) = true := by
      cases rest with
      | nil =>
        simp only [wellSpelled, Bool.and_eq_true, isWord] at hi
        exact hi.1.2
      | cons r0 rs =>
        simp only [wellSpelled, Bool.and_eq_true, isWord] at hi
        exact hi.1.1.1.2
    rw [spell, strtok, List.append_assoc, strtokAux_skip lead _ hl,
      strtokAux_word tok _ [] hw]
    cases rest with
    | nil =>
      simp only [wellSpelled, Bool.and_eq_true] at hi
      rw [spell, strtokAux_separator sep _ hi.2, flush_word tok hi.1]
      rfl
    | cons r0 rs =>
      obtain ⟨tok2, sep2⟩ := r0
      simp only [wellSpelled, Bool.and_eq_true] at hi
      obtain ⟨⟨⟨hword, hsep⟩, hne⟩, hrest⟩ := hi
      have hne' : sep ≠ [] := by
        intro e
        rw [e] at hne
        simp at hne
      have hih := ih [] rfl hrest
      rw [spell, strtok, List.nil_append] at hih
      rw [spell, List.append_assoc, strtokAux_flush sep _ _ hne' hsep, flush_word tok hword,
        hih]
      rfl

theorem EvaluateExpression_tokens {T : Type} (dbg : Bool) (A : Arith T)
    (I : InternalCounterType) (results : List (List Nat)) (resultType : GPA_Type)
    (pHwInfo : Option GPA_HWInfo) (e1 e2 : List Char) (h : strtok e1 = strtok e2) :
    (EvaluateExpression dbg A I e1 results resultType pHwInfo).written
        = (EvaluateExpression dbg A I e2 results resultType pHwInfo).written
      ∧ (EvaluateExpression dbg A I e1 results resultType pHwInfo).logged.isSome
        = (EvaluateExpression dbg A I e2 results resultType pHwInfo).logged.isSome := by
  unfold EvaluateExpression
  rw [h]
  cases assertThat dbg pHwInfo.isSome with
  | error f => exact ⟨rfl, rfl⟩
  | ok u =>
    cases evalTokens dbg A I results resultType pHwInfo (strtok e2) [] with
    | error f => exact ⟨rfl, rfl⟩
    | ok stack =>
      refine ⟨rfl, ?_⟩
      by_cases hlen : stack.length ≠ 1
      · simp only [hlen, if_true, ne_eq, not_false_eq_true, Option.isSome_some]
      · simp only [hlen, if_false]

/-- C19: the stored result depends on the formula only through its token sequence, and so
does whether an error is logged (the logged message quotes the formula text itself).
Replacing a non-empty run of spaces and commas by another such run, or adding a run of
them in front or at the end, leaves the token sequence and hence the result unchanged;
and the tokens of a text spelled as words parted by non-empty runs of spaces and commas,
with optional runs in front and at the end, are exactly those words. -/
theorem C19_separators {T : Type} (dbg : Bool) (A : Arith T) (I : InternalCounterType)
    (results : List (List Nat)) (resultType : GPA_Type) (pHwInfo : Option GPA_HWInfo) :
    (∀ e1 e2 : List Char, strtok e1 = strtok e2 →
      (EvaluateExpression dbg A I e1 results resultType pHwInfo).written
          = (EvaluateExpression dbg A I e2 results resultType pHwInfo).written
        ∧ (EvaluateExpression dbg A I e1 results resultType pHwInfo).logged.isSome
          = (EvaluateExpression dbg A I e2 results resultType pHwInfo).logged.isSome)
    ∧ (∀ a b sep1 sep2 : List Char, sep1 ≠ [] → sep2 ≠ [] →
      isSeparator sep1 = true → isSeparator sep2 = true →
      strtok (a ++ sep1 ++ b) = strtok (a ++ sep2 ++ b)
        ∧ (EvaluateExpression dbg A I (a ++ sep1 ++ b) results resultType pHwInfo).written
          = (EvaluateExpression dbg A I (a ++ sep2 ++ b) results resultType pHwInfo).written)
    ∧ (∀ e sep : List Char, isSeparator sep = true →
      strtok (sep ++ e) = strtok e ∧ strtok (e ++ sep) = strtok e
        ∧ (EvaluateExpression dbg A I (sep ++ e) results resultType pHwInfo).written
          = (EvaluateExpression dbg A I e results resultType pHwInfo).written
        ∧ (EvaluateExpression dbg A I (e ++ sep) results resultType pHwInfo).written
          = (EvaluateExpression dbg A I e results resultType pHwInfo).written)
    ∧ (∀ (lead : List Char) (items : List (List Char × List Char)),
      isSeparator lead = true → wellSpelled items = true →
      strtok (spell lead items) = items.map Prod.fst) := by
  refine ⟨?_, ?_, ?_, ?_⟩
  · intro e1 e2 h
    exact EvaluateExpression_tokens dbg A I results resultType pHwInfo e1 e2 h
  · intro a b sep1 sep2 h1 h2 hs1 hs2
    have h := strtok_replace a b sep1 sep2 h1 h2 hs1 hs2
    exact ⟨h, (EvaluateExpression_tokens dbg A I results resultType pHwInfo _ _ h).1⟩
  · intro e sep hs
    have h1 := strtok_leading e sep hs
    have h2 := strtok_trailing e sep hs
    exact ⟨h1, h2, (EvaluateExpression_tokens dbg A I results resultType pHwInfo _ _ h1).1,
      (EvaluateExpression_tokens dbg A I results resultType pHwInfo _ _ h2).1⟩
  · intro lead items hl hi
    exact strtok_spell lead items hl hi

/-- C19 at an instance: `0 1 /` written with other separators, and its tokens. -/
theorem C19_witness :
    (strtok ("0".toList ++ " ".toList ++ "1 /".toList)
        = strtok ("0".toList ++ " ,, ".toList ++ "1 /".toList)
      ∧ (EvaluateExpression true (uintArith 32) InternalCounterType.gpa_uint32
          ("0".toList ++ " ".toList ++ "1 /".toList) [bytesOf 4 10, bytesOf 4 2]
          GPA_Type.UINT32 (some ⟨4, 40, 6, 2, 27000000⟩)).written
        = (EvaluateExpression true (uintArith 32) InternalCounterType.gpa_uint32
          ("0".toList ++ " ,, ".toList ++ "1 /".toList) [bytesOf 4 10, bytesOf 4 2]
          GPA_Type.UINT32 (some ⟨4, 40, 6, 2, 27000000⟩)).written)
    ∧ strtok (spell ", ".toList
        [("0".toList, " ".toList), ("1".toList, ",".toList), ("/".toList, "  ".toList)])
      = [("0".toList, " ".toList), ("1".toList, ",".toList),
          ("/".toList, "  ".toList)].map Prod.fst :=
  ⟨(C19_separators true (uintArith 32) InternalCounterType.gpa_uint32
      [bytesOf 4 10, bytesOf 4 2] GPA_Type.UINT32 (some ⟨4, 40, 6, 2, 27000000⟩)).2.1
      "0".toList "1 /".toList " ".toList " ,, ".toList (by decide) (by decide) (by decide)
      (by decide),
    (C19_separators true (uintArith 32) InternalCounterType.gpa_uint32
      [bytesOf 4 10, bytesOf 4 2] GPA_Type.UINT32 (some ⟨4, 40, 6, 2, 27000000⟩)).2.2.2
      ", ".toList
      [("0".toList, " ".toList), ("1".toList, ",".toList), ("/".toList, "  ".toList)]
      (by decide) (by decide)⟩

/-! ## Stack depth -/

theorem ite_effect {T : Type} (c : Prop) [Decidable c] (a b : Except Fault (List T))
    (out : List T) (n u v : Int) (ha : a = .ok out → (out.length : Int) = n + u)
    (hb : b = .ok out → (out.length : Int) = n + v) :
    (if c then a else b) = .ok out → (out.length : Int) = n + (if c then u else v) := by
  by_cases hc : c
  · rw [if_pos hc, if_pos hc]; exact ha
  · rw [if_neg hc, if_neg hc]; exact hb

theorem binaryOp_len {T : Type} (dbg : Bool) (f : T → T → T) (stack out : List T)
    (h : binaryOp dbg f stack = .ok out) : (out.length : Int) = stack.length + -1 := by
  obtain ⟨rest, p1, p2, rfl, rfl⟩ := binaryOp_ok dbg f stack out h
  simp only [List.length_append, List.length_cons, List.length_nil]
  omega

theorem divideOp_len {T : Type} (dbg : Bool) (A : Arith T) (stack out : List T)
    (h : divideOp dbg A stack = .ok out) : (out.length : Int) = stack.length + -1 := by
  obtain ⟨rest, p1, p2, rfl⟩ := divideOp_ok dbg A stack out h
  rw [divideOp_pair] at h
  have hout : out.length = rest.length + 1 := by
    by_cases hne : A.ne p2 (A.cast 0) = true
    · rw [if_pos hne] at h
      cases hq : A.div p1 p2 with
      | none => rw [hq] at h; cases h
      | some q =>
        rw [hq] at h
        simp only [Except.ok.injEq] at h
        rw [← h]; simp
    · rw [if_neg hne] at h
      simp only [Except.ok.injEq] at h
      rw [← h]; simp
  simp only [List.length_append, List.length_cons, List.length_nil]
  omega

theorem sumN_ok {T : Type} (dbg : Bool) (A : Arith T) (n : Nat) (stack out : List T)
    (h : sumN dbg A n stack = .ok out) :
    ∃ rest vs, vs.length = n ∧ stack = rest ++ vs
      ∧ out = rest ++ [vs.reverse.foldl A.add (A.cast 0)] := by
  have hstack : ∃ rest vs, vs.length = n ∧ stack = rest ++ vs := by
    unfold sumN at h
    have h1 := assertThat_bind_ok _ _ _ _ h
    cases hl : sumLoop A n (A.cast 0) stack with
    | error e => rw [hl] at h1; cases h1
    | ok r =>
      obtain ⟨sum, rest⟩ := r
      obtain ⟨vs, hlen, hst⟩ := sumLoop_ok A n _ sum stack rest hl
      exact ⟨rest, vs, hlen, hst⟩
  obtain ⟨rest, vs, rfl, rfl⟩ := hstack
  rw [sumN_append] at h
  simp only [Except.ok.injEq] at h
  exact ⟨rest, vs, rfl, rfl, h.symm⟩

theorem sumN_len {T : Type} (dbg : Bool) (A : Arith T) (n : Nat) (stack out : List T)
    (h : sumN dbg A n stack = .ok out) :
    (out.length : Int) = stack.length + (1 - (n : Int)) := by
  obtain ⟨rest, vs, rfl, rfl, rfl⟩ := sumN_ok dbg A n stack out h
  simp only [List.length_append, List.length_cons, List.length_nil]
  omega

theorem maxN_ok {T : Type} (dbg : Bool) (A : Arith T) (n : Nat) (hn : 0 < n)
    (stack out : List T) (h : maxN dbg A n stack = .ok out) :
    ∃ rest vs v0, vs.length + 1 = n ∧ stack = rest ++ (vs ++ [v0])
      ∧ out = rest ++ [vs.reverse.foldl (fun m v => if A.gt m v then m else v) v0] := by
  have hstack : ∃ rest vs v0, vs.length = n - 1 ∧ stack = rest ++ (vs ++ [v0]) := by
    unfold maxN at h
    have h1 := assertThat_bind_ok _ _ _ _ h
    cases hp : popBack stack with
    | error e => rw [hp] at h1; cases h1
    | ok q =>
      obtain ⟨v0, st⟩ := q
      rw [hp] at h1
      simp only [except_ok_bind] at h1
      cases hl : maxLoop A (n - 1) v0 st with
      | error e => rw [hl] at h1; cases h1
      | ok r =>
        obtain ⟨m, rest⟩ := r
        obtain ⟨vs, hlen, hst⟩ := maxLoop_ok A (n - 1) v0 m st rest hl
        refine ⟨rest, vs, v0, hlen, ?_⟩
        rw [popBack_ok stack st v0 hp, hst]
        simp
  obtain ⟨rest, vs, v0, hlen, rfl⟩ := hstack
  obtain rfl : n = vs.length + 1 := by omega
  rw [maxN_append] at h
  simp only [Except.ok.injEq] at h
  exact ⟨rest, vs, v0, rfl, rfl, h.symm⟩

theorem maxN_len {T : Type} (dbg : Bool) (A : Arith T) (n : Nat) (hn : 0 < n)
    (stack out : List T) (h : maxN dbg A n stack = .ok out) :
    (out.length : Int) = stack.length + (1 - (n : Int)) := by
  obtain ⟨rest, vs, v0, rfl, rfl, rfl⟩ := maxN_ok dbg A n hn stack out h
  simp only [List.length_append, List.length_cons, List.length_nil]
  push_cast
  omega

theorem ifNotZero_len {T : Type} (dbg : Bool) (A : Arith T) (stack out : List T)
    (h : ifNotZero dbg A stack = .ok out) : (out.length : Int) = stack.length + -2 := by
  have hstack : ∃ rest f t c, stack = rest ++ [f, t, c] := by
    unfold ifNotZero at h
    have h1 := assertThat_bind_ok _ _ _ _ h
    cases hp3 : popBack stack with
    | error e => rw [hp3] at h1; cases h1
    | ok r3 =>
      obtain ⟨c, st2⟩ := r3
      rw [hp3] at h1
      simp only [except_ok_bind] at h1
      cases hp2 : popBack st2 with
      | error e => rw [hp2] at h1; cases h1
      | ok r2 =>
        obtain ⟨t, st1⟩ := r2
        rw [hp2] at h1
        simp only [except_ok_bind] at h1
        cases hp1 : popBack st1 with
        | error e => rw [hp1] at h1; cases h1
        | ok r1 =>
          obtain ⟨f, rest⟩ := r1
          refine ⟨rest, f, t, c, ?_⟩
          rw [popBack_ok stack st2 c hp3, popBack_ok st2 st1 t hp2, popBack_ok st1 rest f hp1]
          simp
  obtain ⟨rest, f, t, c, rfl⟩ := hstack
  rw [ifNotZero_triple] at h
  simp only [Except.ok.injEq] at h
  rw [← h]
  simp only [List.length_append, List.length_cons, List.length_nil]
  omega

theorem ite_post {α : Type} (c : Prop) [Decidable c] (a b : Except Fault α) (x : α)
    (P : Prop) (ha : a = .ok x → P) (hb : b = .ok x → P) :
    (if c then a else b) = .ok x → P := by
  by_cases hc : c
  · rw [if_pos hc]; exact ha
  · rw [if_neg hc]; exact hb

theorem bind_post {α β : Type} (e : Except Fault α) (k : α → Except Fault β) (x : β)
    (P : Prop) (hk : ∀ a, k a = .ok x → P) : (e >>= k) = .ok x → P := by
  cases e with
  | error f => intro h; cases h
  | ok a => exact hk a

theorem push_post {T : Type} (dbg : Bool) (c : Bool) (v : T) (stack out : List T) :
    (assertThat dbg c >>= fun _ => pure (stack ++ [v])) = .ok out →
    (out.length : Int) = stack.length + 1 := by
  apply bind_post
  intro _ h
  simp only [except_pure, Except.ok.injEq] at h
  rw [← h]
  simp

theorem constantToken_len {T : Type} (dbg : Bool) (A : Arith T) (resultType : GPA_Type)
    (pch : List Char) (stack out : List T)
    (h : constantToken dbg A resultType pch stack = .ok out) :
    (out.length : Int) = stack.length + 1 := by
  revert h
  unfold constantToken
  dsimp only
  refine ite_post _ _ _ _ _ ?_ ?_
  · exact bind_post _ _ _ _ (fun y => push_post dbg _ _ stack out)
  refine ite_post _ _ _ _ _ ?_ ?_
  · exact bind_post _ _ _ _ (fun y => push_post dbg _ _ stack out)
  refine ite_post _ _ _ _ _ ?_ ?_
  · refine bind_post _ _ _ _ (fun l => ?_)
    cases l with
    | some u =>
      exact bind_post _ _ _ _ (fun l2 =>
        bind_post _ _ _ _ (fun y => push_post dbg _ _ stack out))
    | none => exact bind_post _ _ _ _ (fun y => push_post dbg _ _ stack out)
  refine ite_post _ _ _ _ _ ?_ ?_
  · refine bind_post _ _ _ _ (fun l => ?_)
    cases l with
    | some u =>
      exact bind_post _ _ _ _ (fun l2 =>
        bind_post _ _ _ _ (fun y => push_post dbg _ _ stack out))
    | none => exact bind_post _ _ _ _ (fun y => push_post dbg _ _ stack out)
  · exact bind_post _ _ _ _ (fun _ =>
      bind_post _ _ _ _ (fun y => push_post dbg _ _ stack out))

theorem counterToken_len {T : Type} (dbg : Bool) (A : Arith T) (I : InternalCounterType)
    (results : List (List Nat)) (pch : List Char) (stack out : List T)
    (h : counterToken dbg A I results pch stack = .ok out) :
    (out.length : Int) = stack.length + 1 := by
  rcases counterToken_in_range dbg A I results pch stack out h with
    ⟨_, _, _, _, _, _, rfl⟩ | ⟨_, rfl⟩ <;> simp

theorem push_hw_len {T : Type} (pHwInfo : Option GPA_HWInfo) (g : GPA_HWInfo → T)
    (stack out : List T)
    (h : (match pHwInfo with
      | some hw => Except.ok (stack ++ [g hw])
      | none => Except.error Fault.undefined) = .ok out) :
    (out.length : Int) = stack.length + 1 := by
  cases pHwInfo with
  | none => cases h
  | some hw =>
    simp only [Except.ok.injEq] at h
    rw [← h]
    simp

theorem evalToken_effect {T : Type} (dbg : Bool) (A : Arith T) (I : InternalCounterType)
    (results : List (List Nat)) (resultType : GPA_Type) (pHwInfo : Option GPA_HWInfo)
    (pch : List Char) (stack out : List T)
    (h : evalToken dbg A I results resultType pHwInfo pch stack = .ok out) :
    (out.length : Int) = stack.length + tokenEffect pch := by
  revert h
  unfold evalToken tokenEffect
  iterate 26
    refine ite_effect _ _ _ _ _ _ _ (fun h => by
      first
        | exact binaryOp_len dbg _ stack out h
        | exact divideOp_len dbg A stack out h
        | exact constantToken_len dbg A resultType pch stack out h
        | exact push_hw_len pHwInfo _ stack out h
        | exact ifNotZero_len dbg A stack out h
        | (have h1 := maxN_len dbg A _ (by decide) stack out h; omega)
        | (have h1 := sumN_len dbg A _ stack out h; omega)) ?_
  exact fun h => counterToken_len dbg A I results pch stack out h

theorem evalTokens_effect {T : Type} (dbg : Bool) (A : Arith T) (I : InternalCounterType)
    (results : List (List Nat)) (resultType : GPA_Type) (pHwInfo : Option GPA_HWInfo)
    (f : List (List Char)) (stack out : List T)
    (h : evalTokens dbg A I results resultType pHwInfo f stack = .ok out) :
    (out.length : Int) = stack.length + (f.map tokenEffect).sum := by
  induction f generalizing stack with
  | nil =>
    simp only [evalTokens, Except.ok.injEq] at h
    rw [h]; simp
  | cons pch rest ih =>
    simp only [evalTokens] at h
    cases ht : evalToken dbg A I results resultType pHwInfo pch stack with
    | error e => rw [ht] at h; cases h
    | ok mid =>
      rw [ht] at h
      simp only [except_ok_bind] at h
      have h1 := evalToken_effect dbg A I results resultType pHwInfo pch stack mid ht
      have h2 := ih mid h
      simp only [List.map_cons, List.sum_cons]
      omega

theorem split_top {T : Type} (stack : List T) (n : Nat) (h : n ≤ stack.length) :
    ∃ rest vs, vs.length = n ∧ stack = rest ++ vs :=
  ⟨stack.take (stack.length - n), stack.drop (stack.length - n),
    by rw [List.length_drop]; omega, (List.take_append_drop _ _).symm⟩

theorem binaryOp_runs {T : Type} (dbg : Bool) (f : T → T → T) (stack : List T)
    (h : 2 ≤ stack.length) : ∃ out, binaryOp dbg f stack = .ok out := by
  obtain ⟨rest, vs, hlen, rfl⟩ := split_top stack 2 h
  match vs, hlen with
  | [p1, p2], _ => exact ⟨_, binaryOp_pair dbg f rest p1 p2⟩

theorem ifNotZero_runs {T : Type} (dbg : Bool) (A : Arith T) (stack : List T)
    (h : 3 ≤ stack.length) : ∃ out, ifNotZero dbg A stack = .ok out := by
  obtain ⟨rest, vs, hlen, rfl⟩ := split_top stack 3 h
  match vs, hlen with
  | [f, t, c], _ => exact ⟨_, ifNotZero_triple dbg A rest f t c⟩

theorem sumN_runs {T : Type} (dbg : Bool) (A : Arith T) (n : Nat) (stack : List T)
    (h : n ≤ stack.length) : ∃ out, sumN dbg A n stack = .ok out := by
  obtain ⟨rest, vs, rfl, rfl⟩ := split_top stack n h
  exact ⟨_, sumN_append dbg A rest vs⟩

theorem maxN_runs {T : Type} (dbg : Bool) (A : Arith T) (n : Nat) (hn : 0 < n)
    (stack : List T) (h : n ≤ stack.length) : ∃ out, maxN dbg A n stack = .ok out := by
  obtain ⟨rest, vs, hlen, rfl⟩ := split_top stack n h
  have hne : vs ≠ [] := by
    intro e
    rw [e, List.length_nil] at hlen
    omega
  obtain ⟨vs', v0, rfl⟩ : ∃ vs' v0, vs = vs' ++ [v0] :=
    ⟨vs.dropLast, vs.getLast hne, (List.dropLast_append_getLast hne).symm⟩
  obtain rfl : n = vs'.length + 1 := by
    rw [← hlen]; simp
  exact ⟨_, maxN_append dbg A rest vs' v0⟩

theorem tokenEffect_digit (d : Char) (rest : List Char) (hd : d.isDigit = true) :
    tokenEffect (d :: rest) = 1 := by
  obtain ⟨-, hminus, hplus, hmul, hdiv, hparen, -⟩ := isDigit_facts d hd
  have hf : firstChar (d :: rest) = d := rfl
  have e : ∀ name : List Char, (firstChar (name.map Char.toLower)).isAlpha = true →
      strcmpiEq (d :: rest) name = false := fun name hn => strcmpiEq_digit d rest name hd hn
  unfold tokenEffect
  rw [hf, if_neg hmul, if_neg hdiv, if_neg hplus, if_neg hminus, if_neg hparen]
  simp only [
    e "num_shader_engines".toList (by decide),
    e "num_simds".toList (by decide),
    e "su_clocks_prim".toList (by decide),
    e "num_prim_pipes".toList (by decide),
    e "TS_FREQ".toList (by decide),
    e "max".toList (by decide),
    e "max16".toList (by decide),
    e "max32".toList (by decide),
    e "max44".toList (by decide),
    e "max64".toList (by decide),
    e "min".toList (by decide),
    e "ifnotzero".toList (by decide),
    e "sum4".toList (by decide),
    e "sum8".toList (by decide),
    e "sum10".toList (by decide),
    e "sum11".toList (by decide),
    e "sum12".toList (by decide),
    e "sum16".toList (by decide),
    e "sum32".toList (by decide),
    e "sum44".toList (by decide),
    e "sum64".toList (by decide),
    Bool.false_eq_true, if_false]

theorem divideOp_runs {T : Type} (dbg : Bool) (A : Arith T) (stack : List T)
    (h : 2 ≤ stack.length) :
    (∃ out, divideOp dbg A stack = .ok out)
      ∨ (divideOp dbg A stack = .error .undefined
        ∧ ∃ p1 p2, A.ne p2 (A.cast 0) = true ∧ A.div p1 p2 = none) := by
  obtain ⟨rest, vs, hlen, rfl⟩ := split_top stack 2 h
  match vs, hlen with
  | [p1, p2], _ =>
    rw [divideOp_pair]
    by_cases hne : A.ne p2 (A.cast 0) = true
    · rw [if_pos hne]
      cases hq : A.div p1 p2 with
      | some q => exact Or.inl ⟨_, rfl⟩
      | none => exact Or.inr ⟨rfl, p1, p2, hne, hq⟩
    · rw [if_neg hne]
      exact Or.inl ⟨_, rfl⟩

theorem constantToken_runs {T : Type} (dbg : Bool) (A : Arith T) (resultType : GPA_Type)
    (pch : List Char) (stack : List T)
    (h : ∃ out, constantToken dbg A resultType pch [] = .ok out) :
    ∃ out, constantToken dbg A resultType pch stack = .ok out := by
  obtain ⟨out, hout⟩ := h
  have hf := constantToken_frame dbg A resultType pch stack [] out hout
  rw [List.append_nil] at hf
  exact ⟨_, hf⟩

theorem counterToken_runs {T : Type} (dbg : Bool) (A : Arith T) (I : InternalCounterType)
    (results : List (List Nat)) (pch : List Char) (stack : List T)
    (h : ∃ i blob, scanIndex pch = .ok (some i) ∧ results.get? i = some blob
      ∧ I.sizeof ≤ blob.length) :
    ∃ out, counterToken dbg A I results pch stack = .ok out := by
  obtain ⟨i, blob, hscan, hg, hsize⟩ := h
  have hlt : i < results.length := by
    rcases Nat.lt_or_ge i results.length with h1 | h1
    · exact h1
    · rw [List.get?_eq_none.2 h1] at hg; cases hg
  refine ⟨stack ++ [A.cast (littleEndian (blob.take I.sizeof))], ?_⟩
  simp only [counterToken, hscan, except_ok_bind, Option.isSome_some, assertThat_true, hlt,
    decide_True, hg, readRaw, if_pos hsize, except_pure]

theorem ite_runs {α κ : Type} (c : Prop) [Decidable c] (a b : Except Fault α) (u v : κ)
    (Q : κ → Prop) (R : κ → Except Fault α → Prop)
    (ha : Q u → R u a) (hb : Q v → R v b) :
    Q (if c then u else v) → R (if c then u else v) (if c then a else b) := by
  by_cases hc : c
  · simp only [if_pos hc]; exact ha
  · simp only [if_neg hc]; exact hb

theorem evalToken_runs {T : Type} (dbg : Bool) (A : Arith T) (I : InternalCounterType)
    (results : List (List Nat)) (resultType : GPA_Type) (hw : GPA_HWInfo)
    (pch : List Char) (stack : List T)
    (hneeds : (tokenKind pch).needs ≤ stack.length)
    (hlit : tokenKind pch = .literal →
      ∃ out, constantToken dbg A resultType pch [] = .ok out)
    (hidx : tokenKind pch = .counter →
      ∃ i blob, scanIndex pch = .ok (some i) ∧ results.get? i = some blob
        ∧ I.sizeof ≤ blob.length) :
    (∃ out, evalToken dbg A I results resultType (some hw) pch stack = .ok out)
      ∨ (tokenKind pch = .divide
        ∧ evalToken dbg A I results resultType (some hw) pch stack = .error .undefined
        ∧ ∃ p1 p2, A.ne p2 (A.cast 0) = true ∧ A.div p1 p2 = none) := by
  have key : (tokenKind pch).needs ≤ stack.length
      ∧ (tokenKind pch = .literal → ∃ out, constantToken dbg A resultType pch [] = .ok out)
      ∧ (tokenKind pch = .counter →
          ∃ i blob, scanIndex pch = .ok (some i) ∧ results.get? i = some blob
            ∧ I.sizeof ≤ blob.length) →
      (∃ out, evalToken dbg A I results resultType (some hw) pch stack = .ok out)
      ∨ (tokenKind pch = .divide
        ∧ evalToken dbg A I results resultType (some hw) pch stack = .error .undefined
        ∧ ∃ p1 p2, A.ne p2 (A.cast 0) = true ∧ A.div p1 p2 = none) := by
    unfold evalToken tokenKind
    iterate 26
      refine ite_runs _ _ _ _ _
        (fun k : TokenKind => k.needs ≤ stack.length
          ∧ (k = .literal → ∃ out, constantToken dbg A resultType pch [] = .ok out)
          ∧ (k = .counter →
              ∃ i blob, scanIndex pch = .ok (some i) ∧ results.get? i = some blob
                ∧ I.sizeof ≤ blob.length))
        (fun (k : TokenKind) (e : Except Fault (List T)) =>
          (∃ out, e = .ok out)
          ∨ (k = .divide ∧ e = .error .undefined
            ∧ ∃ p1 p2, A.ne p2 (A.cast 0) = true ∧ A.div p1 p2 = none))
        (fun h => by
          first
            | exact Or.inl (binaryOp_runs dbg _ stack h.1)
            | exact (divideOp_runs dbg A stack h.1).imp id (fun h2 => ⟨rfl, h2⟩)
            | exact Or.inl (constantToken_runs dbg A resultType pch stack (h.2.1 rfl))
            | exact Or.inl ⟨_, rfl⟩
            | exact Or.inl (maxN_runs dbg A _ (by decide) stack h.1)
            | exact Or.inl (ifNotZero_runs dbg A stack h.1)
            | exact Or.inl (sumN_runs dbg A _ stack h.1)) ?_
    exact fun h => Or.inl (counterToken_runs dbg A I results pch stack (h.2.2 rfl))
  exact key ⟨hneeds, hlit, hidx⟩

theorem evalTokens_runs {T : Type} (dbg : Bool) (A : Arith T) (I : InternalCounterType)
    (results : List (List Nat)) (resultType : GPA_Type) (hw : GPA_HWInfo)
    (toks : List (List Char)) (stack : List T)
    (hU : noUnderflow toks stack.length = true)
    (hL : ∀ pch ∈ toks, tokenKind pch = .literal →
      ∃ out, constantToken dbg A resultType pch [] = .ok out)
    (hC : ∀ pch ∈ toks, tokenKind pch = .counter →
      ∃ i blob, scanIndex pch = .ok (some i) ∧ results.get? i = some blob
        ∧ I.sizeof ≤ blob.length) :
    (∃ out, evalTokens dbg A I results resultType (some hw) toks stack = .ok out
        ∧ (out.length : Int) = stack.length + (toks.map tokenEffect).sum)
      ∨ (evalTokens dbg A I results resultType (some hw) toks stack = .error .undefined
        ∧ (∃ pch ∈ toks, tokenKind pch = .divide)
        ∧ ∃ p1 p2, A.ne p2 (A.cast 0) = true ∧ A.div p1 p2 = none) := by
  induction toks generalizing stack with
  | nil => exact Or.inl ⟨stack, rfl, by simp⟩
  | cons pch rest ih =>
    simp only [noUnderflow, Bool.and_eq_true, decide_eq_true_eq] at hU
    obtain ⟨hneeds, hrest⟩ := hU
    have hn : (tokenKind pch).needs ≤ stack.length := by exact_mod_cast hneeds
    rcases evalToken_runs dbg A I results resultType hw pch stack hn
        (hL pch (List.mem_cons_self _ _)) (hC pch (List.mem_cons_self _ _)) with
      ⟨mid, hmid⟩ | ⟨hk, herr, hdiv⟩
    · have hlen := evalToken_effect dbg A I results resultType (some hw) pch stack mid hmid
      rw [← hlen] at hrest
      rcases ih mid hrest (fun p hp => hL p (List.mem_cons_of_mem _ hp))
          (fun p hp => hC p (List.mem_cons_of_mem _ hp)) with
        ⟨out, hout, hol⟩ | ⟨herr, ⟨p, hp, hpk⟩, hdiv⟩
      · refine Or.inl ⟨out, ?_, ?_⟩
        · simp only [evalTokens, hmid, except_ok_bind, hout]
        · simp only [List.map_cons, List.sum_cons]
          omega
      · refine Or.inr ⟨?_, ⟨p, List.mem_cons_of_mem _ hp, hpk⟩, hdiv⟩
        simp only [evalTokens, hmid, except_ok_bind, herr]
    · refine Or.inr ⟨?_, ⟨pch, List.mem_cons_self _ _, hk⟩, hdiv⟩
      simp only [evalTokens, herr, except_error_bind]

theorem EvaluateExpression_value {T : Type} (dbg : Bool) (A : Arith T)
    (I : InternalCounterType) (pExpression : List Char) (results : List (List Nat))
    (resultType : GPA_Type) (hw : GPA_HWInfo) :
    (∃ v, EvaluateExpression dbg A I pExpression results resultType (some hw)
        = ⟨none, .ok v⟩)
      ↔ ((∃ stack, evalTokens dbg A I results resultType (some hw) (strtok pExpression) []
            = .ok stack)
        ∧ ((strtok pExpression).map tokenEffect).sum = 1) := by
  constructor
  · rintro ⟨v, hv⟩
    cases ht : evalTokens dbg A I results resultType (some hw) (strtok pExpression) [] with
    | error e =>
      rw [EvaluateExpression_of_fault dbg A I pExpression results resultType hw e ht] at hv
      simp only [Evaluation.mk.injEq, true_and] at hv
      cases hv
    | ok stack =>
      have heff := evalTokens_effect dbg A I results resultType (some hw) _ [] stack ht
      refine ⟨⟨stack, rfl⟩, ?_⟩
      by_cases hlen : stack.length = 1
      · rw [hlen] at heff
        simp only [List.length_nil] at heff
        omega
      · exfalso
        simp only [EvaluateExpression, Option.isSome_some, assertThat_true, ht,
          Evaluation.mk.injEq] at hv
        simp [hlen] at hv
  · rintro ⟨⟨stack, ht⟩, hsum⟩
    have heff := evalTokens_effect dbg A I results resultType (some hw) _ [] stack ht
    rw [hsum] at heff
    simp only [List.length_nil] at heff
    have hlen : stack.length = 1 := by omega
    match stack, hlen with
    | [v], _ =>
      exact ⟨v, EvaluateExpression_of_stack dbg A I pExpression results resultType hw v ht⟩

/-- C21, the claim as stated fails: the one-token formula `(5)` has effect sum 1, no
operator that could underflow and no raw index, yet for the result type `int32`, which
has no literal format, the evaluation ends at `assert(false)`; so does `(x)` for
`uint32`, where the literal does not scan.  And the formula `0 1 /` over the raw samples
`0x80000000` and `0xFFFFFFFF`, with effect sum 1, no underflow and both indices in range,
returns no value for `int32`: the quotient of `-2 ^ 31` by `-1` has no value. -/
theorem C21_counterexample :
    strtok "(5)".toList = ["(5)".toList]
    ∧ noUnderflow (strtok "(5)".toList) 0 = true
    ∧ ((strtok "(5)".toList).map tokenEffect).sum = 1
    ∧ EvaluateExpression true (sintArith 32) InternalCounterType.gpa_uint32 "(5)".toList []
        GPA_Type.INT32 (some ⟨4, 40, 6, 2, 27000000⟩) = ⟨none, .error .assertion⟩
    ∧ noUnderflow (strtok "(x)".toList) 0 = true
    ∧ ((strtok "(x)".toList).map tokenEffect).sum = 1
    ∧ EvaluateExpression true (uintArith 32) InternalCounterType.gpa_uint32 "(x)".toList []
        GPA_Type.UINT32 (some ⟨4, 40, 6, 2, 27000000⟩) = ⟨none, .error .assertion⟩
    ∧ noUnderflow (strtok "0 1 /".toList) 0 = true
    ∧ ((strtok "0 1 /".toList).map tokenEffect).sum = 1
    ∧ (∀ dbg : Bool,
        EvaluateExpression dbg (sintArith 32) InternalCounterType.gpa_uint32 "0 1 /".toList
          [bytesOf 4 (2 ^ 31), bytesOf 4 (2 ^ 32 - 1)] GPA_Type.INT32
          (some ⟨4, 40, 6, 2, 27000000⟩) = ⟨none, .error .undefined⟩) := by
  refine ⟨by decide, by decide, by decide, rfl, by decide, by decide, rfl, by decide,
    by decide, ?_⟩
  intro dbg
  cases dbg <;> rfl

/-- C21, amended: the fixed effects are -1 for `* / + - max min`, -2 for `ifnotzero`,
-(N-1) for `sumN` and `maxN`, and +1 for a constant-literal, hardware-constant or
raw-index token, and a token that executes changes the stack depth by its effect.  For
every token sequence in which no prefix underflows, whose raw-index tokens each denote a
sample of the vector and whose constant-literal tokens are each accepted in the result
type's literal format, no assertion fails while the tokens are applied: they all execute
and the final depth is the sum of their effects, unless a `/` token meets a quotient
that has no value.  Where every quotient with a divisor different from zero has a value,
as in the unsigned types, or where the sequence has no `/` token, the evaluation
returns a value, nothing being logged, exactly when that sum is 1. -/
theorem C21_stack_effects {T : Type} (dbg : Bool) (A : Arith T) (I : InternalCounterType)
    (results : List (List Nat)) (resultType : GPA_Type) (hw : GPA_HWInfo) :
    (tokenEffect "*".toList = -1 ∧ tokenEffect "/".toList = -1
      ∧ tokenEffect "+".toList = -1 ∧ tokenEffect "-".toList = -1
      ∧ tokenEffect "max".toList = -1 ∧ tokenEffect "min".toList = -1
      ∧ tokenEffect "ifnotzero".toList = -2
      ∧ (∀ N ∈ sumWidths, tokenEffect (sumToken N) = -((N : Int) - 1))
      ∧ (∀ N ∈ maxWidths, tokenEffect (maxToken N) = -((N : Int) - 1))
      ∧ (∀ i, tokenEffect (numeral i) = 1)
      ∧ (∀ rest, tokenEffect ("(".toList ++ rest) = 1)
      ∧ tokenEffect "num_shader_engines".toList = 1 ∧ tokenEffect "num_simds".toList = 1
      ∧ tokenEffect "su_clocks_prim".toList = 1 ∧ tokenEffect "num_prim_pipes".toList = 1
      ∧ tokenEffect "ts_freq".toList = 1)
    ∧ (∀ (pch : List Char) (stack out : List T),
      evalToken dbg A I results resultType (some hw) pch stack = .ok out →
      (out.length : Int) = stack.length + tokenEffect pch)
    ∧ (∀ pExpression : List Char,
      noUnderflow (strtok pExpression) 0 = true →
      (∀ pch ∈ strtok pExpression, tokenKind pch = .counter →
        ∃ i blob, scanIndex pch = .ok (some i) ∧ results.get? i = some blob
          ∧ I.sizeof ≤ blob.length) →
      (∀ pch ∈ strtok pExpression, tokenKind pch = .literal →
        ∃ out, constantToken dbg A resultType pch [] = .ok out) →
      ((∃ out, evalTokens dbg A I results resultType (some hw) (strtok pExpression) []
              = .ok out
            ∧ (out.length : Int) = ((strtok pExpression).map tokenEffect).sum)
          ∨ (evalTokens dbg A I results resultType (some hw) (strtok pExpression) []
              = .error .undefined
            ∧ (∃ pch ∈ strtok pExpression, tokenKind pch = .divide)
            ∧ ∃ p1 p2, A.ne p2 (A.cast 0) = true ∧ A.div p1 p2 = none))
        ∧ (((∀ p1 p2, A.ne p2 (A.cast 0) = true → ∃ q, A.div p1 p2 = some q)
              ∨ ∀ pch ∈ strtok pExpression, tokenKind pch ≠ .divide) →
          (∃ out, evalTokens dbg A I results resultType (some hw) (strtok pExpression) []
                = .ok out
              ∧ (out.length : Int) = ((strtok pExpression).map tokenEffect).sum)
            ∧ ((∃ v, EvaluateExpression dbg A I pExpression results resultType (some hw)
                  = ⟨none, .ok v⟩)
                ↔ ((strtok pExpression).map tokenEffect).sum = 1)))
    ∧ (∀ (w : Nat) (p1 p2 : Nat), (uintArith w).ne p2 ((uintArith w).cast 0) = true →
        ∃ q, (uintArith w).div p1 p2 = some q) := by
  refine ⟨⟨by decide, by decide, by decide, by decide, by decide, by decide, by decide,
    ?_, ?_, ?_, ?_, by decide, by decide, by decide, by decide, by decide⟩, ?_, ?_, ?_⟩
  · intro N hN
    simp only [sumWidths, List.mem_cons, List.mem_singleton, List.not_mem_nil, or_false] at hN
    rcases hN with rfl | rfl | rfl | rfl | rfl | rfl | rfl | rfl | rfl <;> decide
  · intro N hN
    simp only [maxWidths, List.mem_cons, List.mem_singleton, List.not_mem_nil, or_false] at hN
    rcases hN with rfl | rfl | rfl | rfl <;> decide
  · intro i
    obtain ⟨d, rest, hd, hdig⟩ := numeral_head i
    rw [hd]
    exact tokenEffect_digit d rest hdig
  · intro rest
    have hf : firstChar ("(".toList ++ rest) = '(' := rfl
    unfold tokenEffect
    rw [hf, if_neg (by decide), if_neg (by decide), if_neg (by decide), if_neg (by decide),
      if_pos rfl]
  · intro pch stack out h
    exact evalToken_effect dbg A I results resultType (some hw) pch stack out h
  · intro pExpression hU hC hL
    have hrun := evalTokens_runs dbg A I results resultType hw (strtok pExpression) []
      (by simpa using hU) hL hC
    simp only [List.length_nil, Nat.cast_zero, zero_add] at hrun
    refine ⟨hrun, fun hD => ?_⟩
    have hok : ∃ out, evalTokens dbg A I results resultType (some hw) (strtok pExpression) []
          = .ok out
        ∧ (out.length : Int) = ((strtok pExpression).map tokenEffect).sum := by
      rcases hrun with h | ⟨_, ⟨pch, hp, hk⟩, p1, p2, hne, hq⟩
      · exact h
      · rcases hD with hD | hD
        · obtain ⟨q, hq2⟩ := hD p1 p2 hne
          rw [hq] at hq2
          cases hq2
        · exact absurd hk (hD pch hp)
    refine ⟨hok, ?_⟩
    rw [EvaluateExpression_value]
    obtain ⟨out, hout, _⟩ := hok
    exact ⟨fun h => h.2, fun h => ⟨⟨out, hout⟩, h⟩⟩
  · intro w p1 p2 hne
    have hp : p2 ≠ 0 := by
      intro h
      rw [h] at hne
      simp [uintArith] at hne
    exact ⟨p1 / p2, by show (if p2 = 0 then none else some (p1 / p2)) = _; rw [if_neg hp]⟩

/-- C21 at an instance: the token `+` on the stack `[1, 2]`, and the formula `0 1 /` over
two raw samples in `gpa_uint32`, which has no underflow, two indices in range and effect
sum 1. -/
theorem C21_witness :
    (([3] : List Nat).length : Int) = ([1, 2] : List Nat).length + tokenEffect "+".toList
    ∧ noUnderflow (strtok "0 1 /".toList) 0 = true
    ∧ ((∃ v, EvaluateExpression true (uintArith 32) InternalCounterType.gpa_uint32
          "0 1 /".toList [bytesOf 4 10, bytesOf 4 2] GPA_Type.UINT32
          (some ⟨4, 40, 6, 2, 27000000⟩) = ⟨none, .ok v⟩)
        ↔ ((strtok "0 1 /".toList).map tokenEffect).sum = 1) :=
  ⟨(C21_stack_effects true (uintArith 32) InternalCounterType.gpa_uint32
      [bytesOf 4 10, bytesOf 4 2] GPA_Type.UINT32 ⟨4, 40, 6, 2, 27000000⟩).2.1
      "+".toList [1, 2] [3] (by decide),
    by decide,
    (((C21_stack_effects true (uintArith 32) InternalCounterType.gpa_uint32
      [bytesOf 4 10, bytesOf 4 2] GPA_Type.UINT32 ⟨4, 40, 6, 2, 27000000⟩).2.2.1
      "0 1 /".toList (by decide)
      (by
        have hs : strtok "0 1 /".toList = ["0".toList, "1".toList, "/".toList] := by decide
        intro pch hp hk
        rw [hs] at hp
        simp only [List.mem_cons, List.mem_singleton, List.not_mem_nil, or_false] at hp
        rcases hp with rfl | rfl | rfl
        · exact ⟨0, bytesOf 4 10, by decide, by decide, by decide⟩
        · exact ⟨1, bytesOf 4 2, by decide, by decide, by decide⟩
        · exact absurd hk (by decide))
      (by
        have hs : ∀ pch ∈ strtok "0 1 /".toList, tokenKind pch ≠ .literal := by decide
        intro pch hp hk
        exact absurd hk (hs pch hp))).2
      (Or.inl ((C21_stack_effects true (uintArith 32) InternalCounterType.gpa_uint32
        [bytesOf 4 10, bytesOf 4 2] GPA_Type.UINT32 ⟨4, 40, 6, 2, 27000000⟩).2.2.2 32))).2⟩

/-! ## Aggregators as repeated binary tokens -/

theorem repeat_binary {T : Type} (dbg : Bool) (A : Arith T) (I : InternalCounterType)
    (results : List (List Nat)) (resultType : GPA_Type) (pHwInfo : Option GPA_HWInfo)
    (pch : List Char) (f : T → T → T)
    (hpch : ∀ stack, evalToken dbg A I results resultType pHwInfo pch stack
      = binaryOp dbg f stack)
    (s vs : List T) (v : T) :
    evalTokens dbg A I results resultType pHwInfo (List.replicate vs.length pch)
        (s ++ (vs ++ [v])) = .ok (s ++ [vs.foldr f v]) := by
  induction vs using List.reverseRecOn generalizing v with
  | nil => simp [evalTokens]
  | append_singleton vs u ih =>
    have hstack : s ++ (vs ++ [u] ++ [v]) = (s ++ vs) ++ [u, v] := by simp
    rw [List.length_append, List.length_singleton, List.replicate_succ, evalTokens, hpch,
      hstack, binaryOp_pair]
    simp only [except_ok_bind]
    have hback : s ++ vs ++ [f u v] = s ++ (vs ++ [f u v]) := by simp
    rw [hback, ih (f u v), List.foldr_append]
    rfl

theorem uint_foldr_add (w : Nat) (vs : List Nat) (v : Nat) (hne : vs ≠ []) :
    vs.foldr (uintArith w).add v = (vs.sum + v) % 2 ^ w := by
  induction vs with
  | nil => exact absurd rfl hne
  | cons a rest ih =>
    cases rest with
    | nil =>
      show (a + v) % 2 ^ w = _
      simp
    | cons b rest' =>
      have h := ih (by simp)
      rw [List.foldr_cons, h]
      show (a + ((b :: rest').sum + v) % 2 ^ w) % 2 ^ w = _
      rw [Nat.add_mod_mod, List.sum_cons (a := a), Nat.add_assoc]

theorem wrapSigned_add_right (w : Nat) (a b : Int) :
    wrapSigned w (a + wrapSigned w b) = wrapSigned w (a + b) := by
  rw [add_comm, wrapSigned_add_left, add_comm]

theorem sint_foldr_add (w : Nat) (vs : List Int) (v : Int) (hne : vs ≠ []) :
    vs.foldr (sintArith w).add v = wrapSigned w (vs.sum + v) := by
  induction vs with
  | nil => exact absurd rfl hne
  | cons a rest ih =>
    cases rest with
    | nil =>
      show wrapSigned w (a + v) = _
      simp
    | cons b rest' =>
      have h := ih (by simp)
      rw [List.foldr_cons, h]
      show wrapSigned w (a + wrapSigned w ((b :: rest').sum + v)) = _
      rw [wrapSigned_add_right, List.sum_cons (a := a), add_assoc]

theorem foldl_pick_eq_foldr {T : Type} [LinearOrder T] (vs : List T) (v0 : T) :
    vs.reverse.foldl (fun m v => if decide (m > v) = true then m else v) v0
      = vs.foldr (fun p1 p2 => if decide (p1 > p2) = true then p1 else p2) v0 := by
  rw [List.foldl_reverse]
  congr 1
  funext x y
  rw [pick_gt_eq_max, pick_gt_eq_max, max_comm]

theorem split_last {T : Type} (vs : List T) (n : Nat) (hlen : vs.length = n) (hn : 0 < n) :
    ∃ vs' v, vs = vs' ++ [v] ∧ vs'.length = n - 1 := by
  have hne : vs ≠ [] := by
    intro e
    rw [e, List.length_nil] at hlen
    omega
  refine ⟨vs.dropLast, vs.getLast hne, (List.dropLast_append_getLast hne).symm, ?_⟩
  rw [List.length_dropLast, hlen]

theorem sum_as_repeated_add {T : Type} (dbg : Bool) (A : Arith T) (I : InternalCounterType)
    (results : List (List Nat)) (resultType : GPA_Type) (pHwInfo : Option GPA_HWInfo)
    (hadd : ∀ (vs : List T) (v : T), vs ≠ [] →
      (vs ++ [v]).reverse.foldl A.add (A.cast 0) = vs.foldr A.add v)
    (N : Nat) (hN : N ∈ sumWidths) (s vs : List T) (hlen : vs.length = N) :
    evalToken dbg A I results resultType pHwInfo (sumToken N) (s ++ vs)
      = evalTokens dbg A I results resultType pHwInfo (List.replicate (N - 1) "+".toList)
          (s ++ vs) := by
  have h2 : 2 ≤ N := by
    simp only [sumWidths, List.mem_cons, List.mem_singleton, List.not_mem_nil, or_false] at hN
    omega
  obtain ⟨vs', v, rfl, hlen'⟩ := split_last vs N hlen (by omega)
  have hne : vs' ≠ [] := by
    intro e
    rw [e, List.length_nil] at hlen'
    omega
  rw [evalToken_sumToken dbg A I results resultType pHwInfo _ N hN, ← hlen, sumN_append,
    hadd vs' v hne, hlen, ← hlen',
    repeat_binary dbg A I results resultType pHwInfo "+".toList A.add
      (fun stack => evalToken_add dbg A I results resultType pHwInfo stack) s vs' v]

theorem max_as_repeated_max {T : Type} (dbg : Bool) (A : Arith T) (I : InternalCounterType)
    (results : List (List Nat)) (resultType : GPA_Type) (pHwInfo : Option GPA_HWInfo)
    (hmax : ∀ (vs : List T) (v : T),
      vs.reverse.foldl (fun m x => if A.gt m x then m else x) v
        = vs.foldr (fun p1 p2 => if A.gt p1 p2 then p1 else p2) v)
    (N : Nat) (hN : N ∈ maxWidths) (s vs : List T) (hlen : vs.length = N) :
    evalToken dbg A I results resultType pHwInfo (maxToken N) (s ++ vs)
      = evalTokens dbg A I results resultType pHwInfo (List.replicate (N - 1) "max".toList)
          (s ++ vs) := by
  have h2 : 2 ≤ N := by
    simp only [maxWidths, List.mem_cons, List.mem_singleton, List.not_mem_nil, or_false] at hN
    omega
  obtain ⟨vs', v, rfl, hlen'⟩ := split_last vs N hlen (by omega)
  have hN' : N = vs'.length + 1 := by omega
  rw [evalToken_maxToken dbg A I results resultType pHwInfo _ N hN, hN', maxN_append,
    hmax vs' v, Nat.add_sub_cancel,
    repeat_binary dbg A I results resultType pHwInfo "max".toList
      (fun p1 p2 => if A.gt p1 p2 then p1 else p2)
      (fun stack => evalToken_max dbg A I results resultType pHwInfo stack) s vs' v]

/-- C22: in every unsigned and signed integer result type, for each width `N` of a `sumN`
token and a stack whose top `N` values are `vs`, the token `sumN` leaves the same stack
as the token `+` applied `N - 1` times; and for each width of a `maxN` token, `maxN`
leaves the same stack as the token `max` applied `N - 1` times. -/
theorem C22_aggregators_as_repeated (dbg : Bool) (I : InternalCounterType)
    (results : List (List Nat)) (resultType : GPA_Type) (pHwInfo : Option GPA_HWInfo)
    (w N : Nat) :
    (N ∈ sumWidths →
      (∀ s vs : List Nat, vs.length = N →
        evalToken dbg (uintArith w) I results resultType pHwInfo (sumToken N) (s ++ vs)
          = evalTokens dbg (uintArith w) I results resultType pHwInfo
              (List.replicate (N - 1) "+".toList) (s ++ vs))
      ∧ (∀ s vs : List Int, vs.length = N →
        evalToken dbg (sintArith w) I results resultType pHwInfo (sumToken N) (s ++ vs)
          = evalTokens dbg (sintArith w) I results resultType pHwInfo
              (List.replicate (N - 1) "+".toList) (s ++ vs)))
    ∧ (N ∈ maxWidths →
      (∀ s vs : List Nat, vs.length = N →
        evalToken dbg (uintArith w) I results resultType pHwInfo (maxToken N) (s ++ vs)
          = evalTokens dbg (uintArith w) I results resultType pHwInfo
              (List.replicate (N - 1) "max".toList) (s ++ vs))
      ∧ (∀ s vs : List Int, vs.length = N →
        evalToken dbg (sintArith w) I results resultType pHwInfo (maxToken N) (s ++ vs)
          = evalTokens dbg (sintArith w) I results resultType pHwInfo
              (List.replicate (N - 1) "max".toList) (s ++ vs))) := by
  constructor
  · intro hN
    constructor
    · intro s vs hlen
      refine sum_as_repeated_add dbg (uintArith w) I results resultType pHwInfo ?_ N hN s vs
        hlen
      intro l v hne
      have h := uint_foldl_add w (l ++ [v]).reverse 0
      rw [List.sum_reverse, Nat.zero_add, List.sum_append, List.sum_singleton] at h
      rw [uint_foldr_add w l v hne]
      exact h
    · intro s vs hlen
      refine sum_as_repeated_add dbg (sintArith w) I results resultType pHwInfo ?_ N hN s vs
        hlen
      intro l v hne
      have h := sint_foldl_add w (l ++ [v]).reverse 0
      rw [List.sum_reverse, zero_add, List.sum_append, List.sum_singleton] at h
      rw [sint_foldr_add w l v hne]
      exact h
  · intro hN
    constructor
    · intro s vs hlen
      exact max_as_repeated_max dbg (uintArith w) I results resultType pHwInfo
        (fun l v => foldl_pick_eq_foldr l v) N hN s vs hlen
    · intro s vs hlen
      exact max_as_repeated_max dbg (sintArith w) I results resultType pHwInfo
        (fun l v => foldl_pick_eq_foldr l v) N hN s vs hlen

/-- C22 at an instance: `sum4` against three `+` on `[9, 1, 2, 3, 4]` in `gpa_uint32`. -/
theorem C22_witness :
    evalToken true (uintArith 32) InternalCounterType.gpa_uint32 [] GPA_Type.UINT32 none
        (sumToken 4) ([9] ++ [1, 2, 3, 4])
      = evalTokens true (uintArith 32) InternalCounterType.gpa_uint32 [] GPA_Type.UINT32 none
          (List.replicate (4 - 1) "+".toList) ([9] ++ [1, 2, 3, 4]) :=
  ((C22_aggregators_as_repeated true InternalCounterType.gpa_uint32 [] GPA_Type.UINT32 none
    32 4).1 (by decide)).1 [9] [1, 2, 3, 4] rfl

/-! ## Signed division -/

theorem tdiv_representable (M : Nat) (a b : Int) (ha1 : -(M : Int) ≤ a) (ha2 : a < M)
    (hb : b ≠ 0) (hpair : ¬ (a = -(M : Int) ∧ b = -1)) :
    -(M : Int) ≤ Int.tdiv a b ∧ Int.tdiv a b < M := by
  have hq : (Int.tdiv a b).natAbs = a.natAbs / b.natAbs := Int.natAbs_tdiv a b
  have hle : a.natAbs / b.natAbs ≤ a.natAbs := Nat.div_le_self _ _
  have haM : a.natAbs ≤ M := by omega
  constructor
  · omega
  · by_contra hge
    have hqM : M ≤ (Int.tdiv a b).natAbs := by omega
    have haEq : a.natAbs = M := by omega
    have haVal : a = -(M : Int) := by omega
    have hMpos : 0 < M := by omega
    have hb1 : b.natAbs = 1 := by
      by_contra hne
      have hbpos : 0 < b.natAbs := Int.natAbs_pos.2 hb
      have hlt : a.natAbs / b.natAbs < a.natAbs :=
        Nat.div_lt_self (by omega) (by omega)
      omega
    rcases Int.natAbs_eq b with h | h
    · rw [hb1] at h
      have hq1 : Int.tdiv a b = a := by rw [h]; exact Int.tdiv_one a
      omega
    · rw [hb1] at h
      exact hpair ⟨haVal, h⟩

/-- C23 at the failing input: the raw samples `0x80000000` and `0xFFFFFFFF` become the
`gpa_int32` operands `-2 ^ 31` and `-1`; the divisor passes the guard `p2 != 0`, the
truncated quotient `2 ^ 31` lies outside `gpa_int32`, so the division has no value and the
evaluation of `0 1 /` ends in undefined behaviour, storing nothing, with assertions
compiled in or out.  The same happens for `gpa_int32` over 64-bit raw samples and for
`gpa_int64` with the raw samples `2 ^ 63` and `2 ^ 64 - 1`.  Every other pair of `gpa_int32`
(`gpa_int64`) operands with a divisor different from zero has a quotient. -/
theorem C23_min_by_minus_one :
    evalTokens true (sintArith 32) InternalCounterType.gpa_uint32
        [bytesOf 4 (2 ^ 31), bytesOf 4 (2 ^ 32 - 1)] GPA_Type.INT32
        (some ⟨4, 40, 6, 2, 27000000⟩) ["0".toList, "1".toList] []
        = .ok [-(2 : Int) ^ 31, -1]
    ∧ (sintArith 32).ne (-1) ((sintArith 32).cast 0) = true
    ∧ Int.tdiv (-(2 : Int) ^ 31) (-1) = 2 ^ 31
    ∧ ¬ (Int.tdiv (-(2 : Int) ^ 31) (-1) < 2 ^ 31)
    ∧ (sintArith 32).div (-(2 : Int) ^ 31) (-1) = none
    ∧ (∀ dbg : Bool,
        EvaluateExpression dbg (sintArith 32) InternalCounterType.gpa_uint32 "0 1 /".toList
          [bytesOf 4 (2 ^ 31), bytesOf 4 (2 ^ 32 - 1)] GPA_Type.INT32
          (some ⟨4, 40, 6, 2, 27000000⟩) = ⟨none, .error .undefined⟩)
    ∧ evalTokens true (sintArith 32) InternalCounterType.gpa_uint64
        [bytesOf 8 (2 ^ 31), bytesOf 8 (2 ^ 32 - 1)] GPA_Type.INT32
        (some ⟨4, 40, 6, 2, 27000000⟩) ["0".toList, "1".toList] []
        = .ok [-(2 : Int) ^ 31, -1]
    ∧ (∀ dbg : Bool,
        EvaluateExpression dbg (sintArith 32) InternalCounterType.gpa_uint64 "0 1 /".toList
          [bytesOf 8 (2 ^ 31), bytesOf 8 (2 ^ 32 - 1)] GPA_Type.INT32
          (some ⟨4, 40, 6, 2, 27000000⟩) = ⟨none, .error .undefined⟩)
    ∧ evalTokens true (sintArith 64) InternalCounterType.gpa_uint64
        [bytesOf 8 (2 ^ 63), bytesOf 8 (2 ^ 64 - 1)] GPA_Type.INT64
        (some ⟨4, 40, 6, 2, 27000000⟩) ["0".toList, "1".toList] []
        = .ok [-(2 : Int) ^ 63, -1]
    ∧ (sintArith 64).ne (-1) ((sintArith 64).cast 0) = true
    ∧ Int.tdiv (-(2 : Int) ^ 63) (-1) = 2 ^ 63
    ∧ ¬ (Int.tdiv (-(2 : Int) ^ 63) (-1) < 2 ^ 63)
    ∧ (sintArith 64).div (-(2 : Int) ^ 63) (-1) = none
    ∧ (∀ dbg : Bool,
        EvaluateExpression dbg (sintArith 64) InternalCounterType.gpa_uint64 "0 1 /".toList
          [bytesOf 8 (2 ^ 63), bytesOf 8 (2 ^ 64 - 1)] GPA_Type.INT64
          (some ⟨4, 40, 6, 2, 27000000⟩) = ⟨none, .error .undefined⟩)
    ∧ (∀ a b : Int, -(2 : Int) ^ 31 ≤ a → a < 2 ^ 31 → b ≠ 0 →
        ¬ (a = -(2 : Int) ^ 31 ∧ b = -1) → (sintArith 32).div a b = some (Int.tdiv a b))
    ∧ (∀ a b : Int, -(2 : Int) ^ 63 ≤ a → a < 2 ^ 63 → b ≠ 0 →
        ¬ (a = -(2 : Int) ^ 63 ∧ b = -1) → (sintArith 64).div a b = some (Int.tdiv a b)) := by
  refine ⟨by decide, by decide, by decide, by decide, by decide, ?_, by decide, ?_,
    by decide, by decide, by decide, by decide, by decide, ?_, ?_, ?_⟩
  · intro dbg; cases dbg <;> rfl
  · intro dbg; cases dbg <;> rfl
  · intro dbg; cases dbg <;> rfl
  · intro a b h1 h2 hb hpair
    have h := tdiv_representable (2 ^ 31) a b (by exact_mod_cast h1) (by exact_mod_cast h2) hb
      (by intro h; exact hpair ⟨by exact_mod_cast h.1, h.2⟩)
    show (if b = 0 then none
      else if -(2 : Int) ^ (32 - 1) ≤ Int.tdiv a b ∧ Int.tdiv a b < 2 ^ (32 - 1) then
        some (Int.tdiv a b) else none) = some (Int.tdiv a b)
    rw [if_neg hb, if_pos ⟨by exact_mod_cast h.1, by exact_mod_cast h.2⟩]
  · intro a b h1 h2 hb hpair
    have h := tdiv_representable (2 ^ 63) a b (by exact_mod_cast h1) (by exact_mod_cast h2) hb
      (by intro h; exact hpair ⟨by exact_mod_cast h.1, h.2⟩)
    show (if b = 0 then none
      else if -(2 : Int) ^ (64 - 1) ≤ Int.tdiv a b ∧ Int.tdiv a b < 2 ^ (64 - 1) then
        some (Int.tdiv a b) else none) = some (Int.tdiv a b)
    rw [if_neg hb, if_pos ⟨by exact_mod_cast h.1, by exact_mod_cast h.2⟩]

end GPA
